import Mathlib

/-!
# Verification of the telos storage core

A shallow embedding of the telos content-addressed intent store
(crates telos-core and telos-store), together with proofs about the
behaviour of its canonical codec, object database, reference store,
index store, repository layer and query layer.

Modelling conventions:

* Byte strings are modelled as `List Char`.  All canonical bytes produced
  by the codec are UTF-8; multi-byte UTF-8 sequences never contain the
  0x00 byte, so the first NUL byte of `canonical_bytes` coincides with the
  first NUL character, and the byte-level null-separator scan of
  `TelosObject::from_canonical_bytes` is faithfully represented at the
  character level.
* JSON numbers are modelled as integers.  The only numbers the record
  types emit are the `u32` components of `CodeBinding::span`; arbitrary
  floating-point numbers inside `metadata` values are outside the model
  (serde_json renders them in shortest round-trip form).
* `chrono::DateTime<Utc>` serializes to its RFC3339 text and chrono's
  deserializer reproduces the instant losslessly; the codec-level model
  therefore carries the timestamp as its serialized string.  The
  store-level model (where only `cmp` on timestamps is used) carries the
  timestamp as an integer instant.
* `ObjectId` is a newtype over the 64-char hex `String` and serializes
  transparently as a JSON string.
-/

namespace Telos

/-- The double-quote character 0x22. -/
def qu : Char := Char.ofNat 34

/-- The backslash character 0x5C. -/
def bsl : Char := Char.ofNat 92

/-- The opening curly bracket 0x7B. -/
def lbr : Char := Char.ofNat 123

/-- The closing curly bracket 0x7D. -/
def rbr : Char := Char.ofNat 125

/-- Generic JSON values, as in `serde_json::Value`.  Numbers are modelled
as integers (see the module comment); objects are association lists in
emission order. -/
inductive Json where
  | null
  | bool (v : Bool)
  | num (i : Int)
  | str (t : String)
  | arr (vs : List Json)
  | obj (ms : List (String × Json))

/-- Lowercase hex digit, as in serde_json's escape table. -/
def hexDigitChar (k : Nat) : Char :=
  if k < 10 then Char.ofNat ('0'.toNat + k) else Char.ofNat ('a'.toNat + (k - 10))

/-- serde_json's string escaping: the quote and the backslash get a
backslash escape, the control characters 0x08/0x09/0x0A/0x0C/0x0D get
their short escapes, the remaining control characters below 0x20 are
written as a `u00XX` escape, and every other character is emitted raw. -/
def escapeChar (c : Char) : List Char :=
  if c = qu then [bsl, qu]
  else if c = bsl then [bsl, bsl]
  else if c = Char.ofNat 8 then [bsl, 'b']
  else if c = Char.ofNat 9 then [bsl, 't']
  else if c = Char.ofNat 10 then [bsl, 'n']
  else if c = Char.ofNat 12 then [bsl, 'f']
  else if c = Char.ofNat 13 then [bsl, 'r']
  else if c.toNat < 32 then
    bsl :: 'u' :: '0' :: '0' ::
      hexDigitChar (c.toNat / 16) :: [hexDigitChar (c.toNat % 16)]
  else [c]

/-- Escaped body of a JSON string literal. -/
def escapeList (s : String) : List Char :=
  s.data.flatMap escapeChar

/-- Decimal digits of a natural number, most significant first. -/
def natDigits (m : Nat) : List Char :=
  if m = 0 then ['0']
  else ((Nat.digits 10 m).map fun d => Char.ofNat ('0'.toNat + d)).reverse

/-- serde_json's rendering of an integer. -/
def renderInt (n : Int) : List Char :=
  if n < 0 then '-' :: natDigits n.natAbs else natDigits n.natAbs

mutual
/-- Compact rendering of a JSON value, as `serde_json::to_string`
produces it: no whitespace, keys in the order in which the association
list holds them. -/
def render : Json → List Char
  | .null => 'n' :: 'u' :: ['l', 'l']
  | .bool true => 't' :: 'r' :: ['u', 'e']
  | .bool false => 'f' :: 'a' :: ['l', 's', 'e']
  | .num n => renderInt n
  | .str s => qu :: escapeList s ++ [qu]
  | .arr [] => ['[', ']']
  | .arr (x :: xs) => '[' :: render x ++ renderElems xs ++ [']']
  | .obj [] => [lbr, rbr]
  | .obj (f :: fs) =>
      lbr :: (qu :: escapeList f.1 ++ [qu, ':'] ++ render f.2) ++ renderFields fs ++ [rbr]

/-- Second and later array elements, each preceded by a comma. -/
def renderElems : List Json → List Char
  | [] => ([])
  | e :: es => ',' :: render e ++ renderElems es

/-- Second and later object members, each preceded by a comma. -/
def renderFields : List (String × Json) → List Char
  | [] => ([])
  | g :: gs => ',' :: (qu :: escapeList g.1 ++ [qu, ':'] ++ render g.2) ++ renderFields gs
end

/-- Strict byte-lexicographic order on keys.  Lean's `String` order is
lexicographic on unicode scalars, which agrees with Rust's byte order on
UTF-8 strings. -/
def keyLt (a b : String) : Bool :=
  decide (a < b)

/-- Stable insertion of an object member: the new member goes after every
member whose key is not strictly greater. -/
def insertField (f : String × Json) : List (String × Json) → List (String × Json)
  | [] => [f]
  | g :: gs => if keyLt f.1 g.1 then f :: g :: gs else g :: insertField f gs

/-- Sort object members by ascending key (`BTreeMap` collection order in
`sort_value`).  Struct serialization never emits duplicate keys, so the
`BTreeMap` overwrite case never arises on the values this is applied to. -/
def sortFields : List (String × Json) → List (String × Json)
  | [] => []
  | f :: fs => insertField f (sortFields fs)

mutual
/-- `sort_value` from serialize.rs: recursively rewrite every mapping so
that keys are emitted in ascending byte order; arrays keep their order and
scalars are untouched. -/
def sortValue : Json → Json
  | .null => .null
  | .bool b => .bool b
  | .num n => .num n
  | .str s => .str s
  | .arr xs => .arr (sortElems xs)
  | .obj fs => .obj (sortFields (sortInner fs))

/-- `sort_value` mapped over array elements. -/
def sortElems : List Json → List Json
  | [] => []
  | x :: xs => sortValue x :: sortElems xs

/-- `sort_value` mapped over the values of object members. -/
def sortInner : List (String × Json) → List (String × Json)
  | [] => []
  | f :: fs => (f.1, sortValue f.2) :: sortInner fs
end

/-- Value of an ASCII hex digit. -/
def hexVal (ch : Char) : Option Nat :=
  if '0' ≤ ch ∧ ch ≤ '9' then some (ch.toNat - '0'.toNat)
  else if 'a' ≤ ch ∧ ch ≤ 'f' then some (ch.toNat - 'a'.toNat + 10)
  else if 'A' ≤ ch ∧ ch ≤ 'F' then some (ch.toNat - 'A'.toNat + 10)
  else none

/-- Single-character JSON escapes accepted after a backslash. -/
def unescapeChar (c : Char) : Option Char :=
  if c = qu then some qu
  else if c = bsl then some bsl
  else if c = '/' then some '/'
  else if c = 'b' then some (Char.ofNat 8)
  else if c = 'f' then some (Char.ofNat 12)
  else if c = 'n' then some (Char.ofNat 10)
  else if c = 'r' then some (Char.ofNat 13)
  else if c = 't' then some (Char.ofNat 9)
  else none

/-- Parse the body of a JSON string literal up to and including the
closing quote; returns the unescaped content and the rest of the input.
The fuel argument strictly decreases on every recursive call; any fuel
larger than the number of content characters suffices. -/
def parseStringBody : Nat → List Char → Option (List Char × List Char)
  | 0, _ => none
  | _ + 1, [] => none
  | fuel + 1, c :: rest =>
    if c = qu then some ([], rest)
    else if c = bsl then
      match rest with
      | 'u' :: h1 :: h2 :: h3 :: h4 :: r3 =>
        match hexVal h1, hexVal h2, hexVal h3, hexVal h4 with
        | some a, some b, some x, some d =>
          match parseStringBody fuel r3 with
          | some (s, r4) => some (Char.ofNat (((a * 16 + b) * 16 + x) * 16 + d) :: s, r4)
          | none => none
        | _, _, _, _ => none
      | e :: r2 =>
        match unescapeChar e with
        | some u =>
          match parseStringBody fuel r2 with
          | some (s, r3) => some (u :: s, r3)
          | none => none
        | none => none
      | [] => none
    else
      match parseStringBody fuel rest with
      | some (s, r2) => some (c :: s, r2)
      | none => none

/-- Greedily read decimal digits; fails on no digits. -/
def parseDigits (cs : List Char) : Option (Nat × List Char) :=
  let ds := cs.takeWhile Char.isDigit
  if ds.isEmpty then none
  else some (ds.foldl (fun a d => a * 10 + (d.toNat - '0'.toNat)) 0, cs.dropWhile Char.isDigit)

mutual
/-- Parser for a JSON value, modelling `serde_json::from_slice` on the
whitespace-free text the canonical codec produces.  Fuel strictly
decreases on every recursive call. -/
def parseValue : Nat → List Char → Option (Json × List Char)
  | 0, _ => none
  | fuel + 1, cs =>
    match cs with
    | 'n' :: 'u' :: ('l' :: 'l' :: rest) => some (.null, rest)
    | 't' :: 'r' :: ('u' :: 'e' :: rest) => some (.bool true, rest)
    | 'f' :: 'a' :: ('l' :: 's' :: 'e' :: rest) => some (.bool false, rest)
    | '[' :: ']' :: rest => some (.arr [], rest)
    | '[' :: rest =>
      match parseElems fuel rest with
      | some (xs, r) => some (.arr xs, r)
      | none => none
    | '-' :: rest =>
      match parseDigits rest with
      | some (n, r) => some (.num (-(n : Int)), r)
      | none => none
    | c :: rest =>
      if c = qu then
        match parseStringBody fuel rest with
        | some (s, r) => some (.str (String.mk s), r)
        | none => none
      else if c = lbr then
        match rest with
        | c2 :: r2 =>
          if c2 = rbr then some (.obj [], r2)
          else
            match parseFields fuel rest with
            | some (fs, r) => some (.obj fs, r)
            | none => none
        | [] => none
      else if c.isDigit then
        match parseDigits (c :: rest) with
        | some (n, r) => some (.num (n : Int), r)
        | none => none
      else none
    | [] => none

/-- One or more comma-separated array elements followed by a closing
square bracket. -/
def parseElems : Nat → List Char → Option (List Json × List Char)
  | 0, _ => none
  | fuel + 1, cs =>
    match parseValue fuel cs with
    | some (v, ',' :: r) =>
      match parseElems fuel r with
      | some (xs, r2) => some (v :: xs, r2)
      | none => none
    | some (v, ']' :: r) => some ([v], r)
    | _ => none

/-- One or more comma-separated object members followed by a closing
curly bracket. -/
def parseFields : Nat → List Char → Option (List (String × Json) × List Char)
  | 0, _ => none
  | fuel + 1, cs =>
    match cs with
    | c :: cs2 =>
      if c = qu then
        match parseStringBody fuel cs2 with
        | some (k, ':' :: r) =>
          match parseValue fuel r with
          | some (v, ',' :: r2) =>
            match parseFields fuel r2 with
            | some (fs, r3) => some ((String.mk k, v) :: fs, r3)
            | none => none
          | some (v, c2 :: r2) =>
            if c2 = rbr then some ([(String.mk k, v)], r2) else none
          | _ => none
        | _ => none
      else none
    | [] => none
end

/-- A complete JSON document: one value consuming the entire input, as
`serde_json::from_slice` requires. -/
def jsonFromSlice (cs : List Char) : Option Json :=
  match parseValue (cs.length + 1) cs with
  | some (v, []) => some v
  | _ => none

/-! ## Record types (telos-core, codec level)

The eight content-addressed record types, with their serde field names
and declaration order.  `HashMap` fields are carried as association
lists; a Rust `HashMap` has no intrinsic order, and its canonical
serialized image is the key-sorted one, so a valid model value keeps its
maps key-sorted with distinct keys (see `Json.Canon`). -/

/-- A SHA-256 content address: the inner 64-char lowercase hex string. -/
abbrev ObjectId := String

/-- Errors of telos-core (error.rs). -/
inductive CoreError where
  | InvalidObjectId (s : String)
  | Serialization (msg : String)
  | UnknownTypeTag (tag : String)
deriving DecidableEq

/-- Author identity. -/
structure Author where
  name : String
  email : String
deriving DecidableEq

/-- A single GIVEN/WHEN/THEN clause.  The source field names `given`,
`when`, `then` are Lean keywords, hence the underscores. -/
structure BehaviorClause where
  given_ : String
  when_ : String
  then_ : String
deriving DecidableEq

/-- An immutable intent declaration (object/intent.rs).  The timestamp is
carried as its RFC3339 serialization (see the module comment). -/
structure Intent where
  author : Author
  timestamp : String
  statement : String
  constraints : List String
  behavior_spec : List BehaviorClause
  parents : List ObjectId
  impacts : List String
  behavior_diff : Option ObjectId
  metadata : List (String × Json)

/-- A single behavior change entry (object/behavior_diff.rs). -/
structure BehaviorChange where
  description : String
  before : Option String
  after : String
deriving DecidableEq

/-- Impact radius analysis for a behavior diff. -/
structure ImpactRadius where
  direct : List String
  indirect : List String
deriving DecidableEq

/-- Verification status enum. -/
inductive VerificationStatus where
  | pending
  | passed
  | failed
deriving DecidableEq

/-- Verification result. -/
structure Verification where
  status : VerificationStatus
  details : Option String
deriving DecidableEq

/-- Describes how system behavior changes (object/behavior_diff.rs). -/
structure BehaviorDiff where
  intent_id : ObjectId
  changes : List BehaviorChange
  impact : ImpactRadius
  verification : Option Verification
deriving DecidableEq

/-- Immutable snapshot of a stream (object/intent_stream.rs). -/
structure IntentStreamSnapshot where
  name : String
  tip : ObjectId
  created_at : String
  description : Option String
  parent_stream : Option String
deriving DecidableEq

/-- An alternative that was considered but not chosen. -/
structure Alternative where
  description : String
  rejection_reason : String
deriving DecidableEq

/-- A structured human decision record (object/decision_record.rs). -/
structure DecisionRecord where
  intent_id : ObjectId
  author : Author
  timestamp : String
  question : String
  decision : String
  rationale : Option String
  alternatives : List Alternative
  tags : List String
deriving DecidableEq

/-- Constraint status enum (serde snake_case strings). -/
inductive ConstraintStatus where
  | active
  | superseded
  | deprecated
deriving DecidableEq

/-- Constraint severity enum (serde snake_case strings). -/
inductive ConstraintSeverity where
  | must
  | should
  | prefer
deriving DecidableEq

/-- A constraint record (object/constraint.rs). -/
structure Constraint where
  author : Author
  timestamp : String
  statement : String
  severity : ConstraintSeverity
  status : ConstraintStatus
  source_intent : ObjectId
  superseded_by : Option ObjectId
  deprecation_reason : Option String
  scope : List ObjectId
  impacts : List String
  metadata : List (String × Json)

/-- What kind of code element is being bound. -/
inductive BindingType where
  | file
  | function
  | module_
  | api
  | type_
deriving DecidableEq

/-- Resolution state of a code binding. -/
inductive BindingResolution where
  | resolved
  | unresolved
  | unchecked
deriving DecidableEq

/-- Links a Telos object to a code location (object/code_binding.rs).
The `span` components are `u32` in the source; the model carries naturals
and `TelosObject.Valid` bounds them below 2^32. -/
structure CodeBinding where
  path : String
  symbol : Option String
  span : Option (Nat × Nat)
  binding_type : BindingType
  resolution : BindingResolution
  bound_object : ObjectId
  metadata : List (String × Json)

/-- What the agent did; `custom` is a newtype variant and serializes
externally tagged. -/
inductive OperationType where
  | review
  | generate
  | decide_
  | query
  | violation
  | custom (s : String)
deriving DecidableEq

/-- Outcome of an agent operation; `warning` and `failure` are newtype
variants. -/
inductive OperationResult where
  | success
  | warning (s : String)
  | failure (s : String)
  | skipped
deriving DecidableEq

/-- A content-addressable agent log entry (object/agent_operation.rs). -/
structure AgentOperation where
  agent_id : String
  session_id : String
  timestamp : String
  operation : OperationType
  result : OperationResult
  summary : String
  context_refs : List ObjectId
  files_touched : List String
  parent_op : Option ObjectId
  metadata : List (String × Json)

/-- The bridge between Git and Telos (object/change_set.rs). -/
structure ChangeSet where
  author : Author
  timestamp : String
  git_commit : String
  parents : List ObjectId
  intents : List ObjectId
  constraints : List ObjectId
  decisions : List ObjectId
  code_bindings : List ObjectId
  agent_operations : List ObjectId
  metadata : List (String × Json)

/-- The union of all content-addressed types (object/mod.rs). -/
inductive TelosObject where
  | intent (o : Intent)
  | behavior_diff (o : BehaviorDiff)
  | intent_stream_snapshot (o : IntentStreamSnapshot)
  | decision_record (o : DecisionRecord)
  | constraint (o : Constraint)
  | code_binding (o : CodeBinding)
  | agent_operation (o : AgentOperation)
  | change_set (o : ChangeSet)

/-! ## Serialization to generic JSON (`serde_json::to_value`)

Fields appear in declaration order; a field marked
`skip_serializing_if` is omitted when empty or `None`. -/

/-- An optional JSON string (for `Option<String>` / `Option<ObjectId>`
fields, which are skipped when `None`). -/
def optStrField (k : String) : Option String → List (String × Json)
  | none => []
  | some s => [(k, .str s)]

/-- A list-of-strings field skipped when empty. -/
def strListField (k : String) (xs : List String) : List (String × Json) :=
  if xs.isEmpty then [] else [(k, .arr (xs.map Json.str))]

/-- A metadata field skipped when the map is empty. -/
def metaField (m : List (String × Json)) : List (String × Json) :=
  if m.isEmpty then [] else [("metadata", .obj m)]

def Author.toJson (a : Author) : Json :=
  .obj [("name", .str a.name), ("email", .str a.email)]

def BehaviorClause.toJson (c : BehaviorClause) : Json :=
  .obj [("given", .str c.given_), ("when", .str c.when_), ("then", .str c.then_)]

def Intent.toJson (i : Intent) : Json :=
  .obj ([("author", i.author.toJson), ("timestamp", .str i.timestamp),
      ("statement", .str i.statement)]
    ++ strListField "constraints" i.constraints
    ++ (if i.behavior_spec.isEmpty then []
        else [("behavior_spec", .arr (i.behavior_spec.map BehaviorClause.toJson))])
    ++ strListField "parents" i.parents
    ++ strListField "impacts" i.impacts
    ++ optStrField "behavior_diff" i.behavior_diff
    ++ metaField i.metadata)

def BehaviorChange.toJson (c : BehaviorChange) : Json :=
  .obj ([("description", .str c.description)]
    ++ optStrField "before" c.before
    ++ [("after", .str c.after)])

def ImpactRadius.toJson (r : ImpactRadius) : Json :=
  .obj ([("direct", .arr (r.direct.map Json.str))]
    ++ strListField "indirect" r.indirect)

def VerificationStatus.toJson : VerificationStatus → Json
  | .pending => .str "pending"
  | .passed => .str "passed"
  | .failed => .str "failed"

def Verification.toJson (v : Verification) : Json :=
  .obj ([("status", v.status.toJson)] ++ optStrField "details" v.details)

def BehaviorDiff.toJson (d : BehaviorDiff) : Json :=
  .obj ([("intent_id", .str d.intent_id),
      ("changes", .arr (d.changes.map BehaviorChange.toJson)),
      ("impact", d.impact.toJson)]
    ++ (match d.verification with
        | none => []
        | some v => [("verification", v.toJson)]))

def IntentStreamSnapshot.toJson (s : IntentStreamSnapshot) : Json :=
  .obj ([("name", .str s.name), ("tip", .str s.tip), ("created_at", .str s.created_at)]
    ++ optStrField "description" s.description
    ++ optStrField "parent_stream" s.parent_stream)

def Alternative.toJson (a : Alternative) : Json :=
  .obj [("description", .str a.description), ("rejection_reason", .str a.rejection_reason)]

def DecisionRecord.toJson (r : DecisionRecord) : Json :=
  .obj ([("intent_id", .str r.intent_id), ("author", r.author.toJson),
      ("timestamp", .str r.timestamp), ("question", .str r.question),
      ("decision", .str r.decision)]
    ++ optStrField "rationale" r.rationale
    ++ (if r.alternatives.isEmpty then []
        else [("alternatives", .arr (r.alternatives.map Alternative.toJson))])
    ++ strListField "tags" r.tags)

def ConstraintSeverity.toJson : ConstraintSeverity → Json
  | .must => .str "must"
  | .should => .str "should"
  | .prefer => .str "prefer"

def ConstraintStatus.toJson : ConstraintStatus → Json
  | .active => .str "active"
  | .superseded => .str "superseded"
  | .deprecated => .str "deprecated"

def Constraint.toJson (c : Constraint) : Json :=
  .obj ([("author", c.author.toJson), ("timestamp", .str c.timestamp),
      ("statement", .str c.statement), ("severity", c.severity.toJson),
      ("status", c.status.toJson), ("source_intent", .str c.source_intent)]
    ++ optStrField "superseded_by" c.superseded_by
    ++ optStrField "deprecation_reason" c.deprecation_reason
    ++ strListField "scope" c.scope
    ++ strListField "impacts" c.impacts
    ++ metaField c.metadata)

def BindingType.toJson : BindingType → Json
  | .file => .str "file"
  | .function => .str "function"
  | .module_ => .str "module"
  | .api => .str "api"
  | .type_ => .str "type"

def BindingResolution.toJson : BindingResolution → Json
  | .resolved => .str "resolved"
  | .unresolved => .str "unresolved"
  | .unchecked => .str "unchecked"

def CodeBinding.toJson (b : CodeBinding) : Json :=
  .obj ([("path", .str b.path)]
    ++ optStrField "symbol" b.symbol
    ++ (match b.span with
        | none => []
        | some (x, y) => [("span", .arr [.num (x : Int), .num (y : Int)])])
    ++ [("binding_type", b.binding_type.toJson), ("resolution", b.resolution.toJson),
      ("bound_object", .str b.bound_object)]
    ++ metaField b.metadata)

def OperationType.toJson : OperationType → Json
  | .review => .str "review"
  | .generate => .str "generate"
  | .decide_ => .str "decide"
  | .query => .str "query"
  | .violation => .str "violation"
  | .custom s => .obj [("custom", .str s)]

def OperationResult.toJson : OperationResult → Json
  | .success => .str "success"
  | .warning s => .obj [("warning", .str s)]
  | .failure s => .obj [("failure", .str s)]
  | .skipped => .str "skipped"

def AgentOperation.toJson (o : AgentOperation) : Json :=
  .obj ([("agent_id", .str o.agent_id), ("session_id", .str o.session_id),
      ("timestamp", .str o.timestamp), ("operation", o.operation.toJson),
      ("result", o.result.toJson), ("summary", .str o.summary)]
    ++ strListField "context_refs" o.context_refs
    ++ strListField "files_touched" o.files_touched
    ++ optStrField "parent_op" o.parent_op
    ++ metaField o.metadata)

def ChangeSet.toJson (c : ChangeSet) : Json :=
  .obj ([("author", c.author.toJson), ("timestamp", .str c.timestamp),
      ("git_commit", .str c.git_commit)]
    ++ strListField "parents" c.parents
    ++ strListField "intents" c.intents
    ++ strListField "constraints" c.constraints
    ++ strListField "decisions" c.decisions
    ++ strListField "code_bindings" c.code_bindings
    ++ strListField "agent_operations" c.agent_operations
    ++ metaField c.metadata)

/-! ## Deserialization from generic JSON (serde derive semantics)

Each struct field is looked up by name; a missing field fails unless the
field is `Option` or carries `#[serde(default)]`, in which case the
default is used.  Unknown fields are ignored. -/

def Json.asStr : Json → Option String
  | .str v => some v
  | _ => none

def Json.asArr : Json → Option (List Json)
  | .arr xs => some xs
  | _ => none

def Json.asObj : Json → Option (List (String × Json))
  | .obj fs => some fs
  | _ => none

/-- Deserialize a `u32` from a JSON number. -/
def Json.asU32 : Json → Option Nat
  | .num n => if 0 ≤ n ∧ n < 4294967296 then some n.toNat else none
  | _ => none

/-- Deserialize a list of strings. -/
def decodeStrList (j : Json) : Option (List String) :=
  j.asArr >>= fun xs => xs.mapM Json.asStr

/-- A defaultable list-of-strings field. -/
def getStrList (fs : List (String × Json)) (k : String) : Option (List String) :=
  match fs.lookup k with
  | none => some []
  | some v => decodeStrList v

/-- A required string field. -/
def getStr (fs : List (String × Json)) (k : String) : Option String :=
  fs.lookup k >>= Json.asStr

/-- An `Option<String>` field: missing and `null` give `None`. -/
def getOptStr (fs : List (String × Json)) (k : String) : Option (Option String) :=
  match fs.lookup k with
  | none => some none
  | some .null => some none
  | some (.str s) => some (some s)
  | some _ => none

/-- An `Option<(u32, u32)>` field: missing and `null` give `None`; a
two-element numeric array in range gives the pair. -/
def getSpan (fs : List (String × Json)) : Option (Option (Nat × Nat)) :=
  match fs.lookup "span" with
  | none => some none
  | some .null => some none
  | some (.arr [x, y]) => do
      let a ← x.asU32
      let b ← y.asU32
      pure (some (a, b))
  | some _ => none

/-- A defaultable metadata field. -/
def getMeta (fs : List (String × Json)) : Option (List (String × Json)) :=
  match fs.lookup "metadata" with
  | none => some []
  | some v => v.asObj

def Author.fromJson? (j : Json) : Option Author := do
  let fs ← j.asObj
  let name ← getStr fs "name"
  let email ← getStr fs "email"
  pure ⟨name, email⟩

def BehaviorClause.fromJson? (j : Json) : Option BehaviorClause := do
  let fs ← j.asObj
  let g ← getStr fs "given"
  let w ← getStr fs "when"
  let t ← getStr fs "then"
  pure ⟨g, w, t⟩

def Intent.fromJson? (j : Json) : Option Intent := do
  let fs ← j.asObj
  let author ← fs.lookup "author" >>= Author.fromJson?
  let timestamp ← getStr fs "timestamp"
  let statement ← getStr fs "statement"
  let constraints ← getStrList fs "constraints"
  let behavior_spec ←
    match fs.lookup "behavior_spec" with
    | none => some []
    | some v => v.asArr >>= fun xs => xs.mapM BehaviorClause.fromJson?
  let parents ← getStrList fs "parents"
  let impacts ← getStrList fs "impacts"
  let behavior_diff ← getOptStr fs "behavior_diff"
  let metadata ← getMeta fs
  pure ⟨author, timestamp, statement, constraints, behavior_spec, parents, impacts,
    behavior_diff, metadata⟩

def BehaviorChange.fromJson? (j : Json) : Option BehaviorChange := do
  let fs ← j.asObj
  let d ← getStr fs "description"
  let b ← getOptStr fs "before"
  let a ← getStr fs "after"
  pure ⟨d, b, a⟩

def ImpactRadius.fromJson? (j : Json) : Option ImpactRadius := do
  let fs ← j.asObj
  let d ← fs.lookup "direct" >>= decodeStrList
  let i ← getStrList fs "indirect"
  pure ⟨d, i⟩

def VerificationStatus.fromJson? : Json → Option VerificationStatus
  | .str "pending" => some .pending
  | .str "passed" => some .passed
  | .str "failed" => some .failed
  | _ => none

def Verification.fromJson? (j : Json) : Option Verification := do
  let fs ← j.asObj
  let s ← fs.lookup "status" >>= VerificationStatus.fromJson?
  let d ← getOptStr fs "details"
  pure ⟨s, d⟩

def BehaviorDiff.fromJson? (j : Json) : Option BehaviorDiff := do
  let fs ← j.asObj
  let i ← getStr fs "intent_id"
  let c ← fs.lookup "changes" >>= Json.asArr >>= fun xs => xs.mapM BehaviorChange.fromJson?
  let r ← fs.lookup "impact" >>= ImpactRadius.fromJson?
  let v ←
    match fs.lookup "verification" with
    | none => some none
    | some .null => some none
    | some w => (Verification.fromJson? w).map some
  pure ⟨i, c, r, v⟩

def IntentStreamSnapshot.fromJson? (j : Json) : Option IntentStreamSnapshot := do
  let fs ← j.asObj
  let n ← getStr fs "name"
  let t ← getStr fs "tip"
  let c ← getStr fs "created_at"
  let d ← getOptStr fs "description"
  let p ← getOptStr fs "parent_stream"
  pure ⟨n, t, c, d, p⟩

def Alternative.fromJson? (j : Json) : Option Alternative := do
  let fs ← j.asObj
  let d ← getStr fs "description"
  let r ← getStr fs "rejection_reason"
  pure ⟨d, r⟩

def DecisionRecord.fromJson? (j : Json) : Option DecisionRecord := do
  let fs ← j.asObj
  let i ← getStr fs "intent_id"
  let a ← fs.lookup "author" >>= Author.fromJson?
  let ts ← getStr fs "timestamp"
  let q ← getStr fs "question"
  let d ← getStr fs "decision"
  let r ← getOptStr fs "rationale"
  let al ←
    match fs.lookup "alternatives" with
    | none => some []
    | some v => v.asArr >>= fun xs => xs.mapM Alternative.fromJson?
  let tg ← getStrList fs "tags"
  pure ⟨i, a, ts, q, d, r, al, tg⟩

def ConstraintSeverity.fromJson? : Json → Option ConstraintSeverity
  | .str "must" => some .must
  | .str "should" => some .should
  | .str "prefer" => some .prefer
  | _ => none

def ConstraintStatus.fromJson? : Json → Option ConstraintStatus
  | .str "active" => some .active
  | .str "superseded" => some .superseded
  | .str "deprecated" => some .deprecated
  | _ => none

def Constraint.fromJson? (j : Json) : Option Constraint := do
  let fs ← j.asObj
  let a ← fs.lookup "author" >>= Author.fromJson?
  let ts ← getStr fs "timestamp"
  let st ← getStr fs "statement"
  let sev ← fs.lookup "severity" >>= ConstraintSeverity.fromJson?
  let stat ← fs.lookup "status" >>= ConstraintStatus.fromJson?
  let src ← getStr fs "source_intent"
  let sup ← getOptStr fs "superseded_by"
  let dep ← getOptStr fs "deprecation_reason"
  let sc ← getStrList fs "scope"
  let im ← getStrList fs "impacts"
  let m ← getMeta fs
  pure ⟨a, ts, st, sev, stat, src, sup, dep, sc, im, m⟩

def BindingType.fromJson? : Json → Option BindingType
  | .str "file" => some .file
  | .str "function" => some .function
  | .str "module" => some .module_
  | .str "api" => some .api
  | .str "type" => some .type_
  | _ => none

def BindingResolution.fromJson? : Json → Option BindingResolution
  | .str "resolved" => some .resolved
  | .str "unresolved" => some .unresolved
  | .str "unchecked" => some .unchecked
  | _ => none

def CodeBinding.fromJson? (j : Json) : Option CodeBinding := do
  let fs ← j.asObj
  let p ← getStr fs "path"
  let sy ← getOptStr fs "symbol"
  let sp ← getSpan fs
  let bt ← fs.lookup "binding_type" >>= BindingType.fromJson?
  let rs ← fs.lookup "resolution" >>= BindingResolution.fromJson?
  let bo ← getStr fs "bound_object"
  let m ← getMeta fs
  pure ⟨p, sy, sp, bt, rs, bo, m⟩

def OperationType.fromJson? : Json → Option OperationType
  | .str "review" => some .review
  | .str "generate" => some .generate
  | .str "decide" => some .decide_
  | .str "query" => some .query
  | .str "violation" => some .violation
  | .obj [("custom", .str s)] => some (.custom s)
  | _ => none

def OperationResult.fromJson? : Json → Option OperationResult
  | .str "success" => some .success
  | .str "skipped" => some .skipped
  | .obj [("warning", .str s)] => some (.warning s)
  | .obj [("failure", .str s)] => some (.failure s)
  | _ => none

def AgentOperation.fromJson? (j : Json) : Option AgentOperation := do
  let fs ← j.asObj
  let ag ← getStr fs "agent_id"
  let se ← getStr fs "session_id"
  let ts ← getStr fs "timestamp"
  let op ← fs.lookup "operation" >>= OperationType.fromJson?
  let re ← fs.lookup "result" >>= OperationResult.fromJson?
  let su ← getStr fs "summary"
  let cr ← getStrList fs "context_refs"
  let ft ← getStrList fs "files_touched"
  let po ← getOptStr fs "parent_op"
  let m ← getMeta fs
  pure ⟨ag, se, ts, op, re, su, cr, ft, po, m⟩

def ChangeSet.fromJson? (j : Json) : Option ChangeSet := do
  let fs ← j.asObj
  let a ← fs.lookup "author" >>= Author.fromJson?
  let ts ← getStr fs "timestamp"
  let g ← getStr fs "git_commit"
  let pa ← getStrList fs "parents"
  let it ← getStrList fs "intents"
  let co ← getStrList fs "constraints"
  let de ← getStrList fs "decisions"
  let cb ← getStrList fs "code_bindings"
  let ao ← getStrList fs "agent_operations"
  let m ← getMeta fs
  pure ⟨a, ts, g, pa, it, co, de, cb, ao, m⟩

/-! ## Canonical bytes (serialize.rs / object/mod.rs) -/

/-- Type tag of an object (`TelosObject::type_tag`). -/
def TelosObject.type_tag : TelosObject → String
  | .intent _ => "intent"
  | .behavior_diff _ => "behavior_diff"
  | .intent_stream_snapshot _ => "intent_stream_snapshot"
  | .decision_record _ => "decision_record"
  | .constraint _ => "constraint"
  | .code_binding _ => "code_binding"
  | .agent_operation _ => "agent_operation"
  | .change_set _ => "change_set"

/-- `serde_json::to_value` for the union: the inner record's generic
JSON image (no discriminator; `canonical_serialize` receives the inner
record, not the tagged enum). -/
def TelosObject.toJson : TelosObject → Json
  | .intent o => o.toJson
  | .behavior_diff o => o.toJson
  | .intent_stream_snapshot o => o.toJson
  | .decision_record o => o.toJson
  | .constraint o => o.toJson
  | .code_binding o => o.toJson
  | .agent_operation o => o.toJson
  | .change_set o => o.toJson

/-- `canonical_serialize` (serialize.rs): convert to generic JSON, sort
every mapping's keys, emit `tag`, a NUL byte, then the compact JSON. -/
def canonicalSerialize (tag : String) (v : Json) : List Char :=
  tag.data ++ Char.ofNat 0 :: render (sortValue v)

/-- `TelosObject::canonical_bytes`. -/
def TelosObject.canonicalBytes (o : TelosObject) : List Char :=
  canonicalSerialize o.type_tag o.toJson

/-- Parse the JSON body into the variant selected by the tag
(`serde_json::from_slice` into the inner type). -/
def decodeBody (tag : String) (body : List Char) : Option TelosObject :=
  match tag with
  | "intent" => (jsonFromSlice body >>= Intent.fromJson?).map .intent
  | "behavior_diff" => (jsonFromSlice body >>= BehaviorDiff.fromJson?).map .behavior_diff
  | "intent_stream_snapshot" =>
      (jsonFromSlice body >>= IntentStreamSnapshot.fromJson?).map .intent_stream_snapshot
  | "decision_record" => (jsonFromSlice body >>= DecisionRecord.fromJson?).map .decision_record
  | "constraint" => (jsonFromSlice body >>= Constraint.fromJson?).map .constraint
  | "code_binding" => (jsonFromSlice body >>= CodeBinding.fromJson?).map .code_binding
  | "agent_operation" => (jsonFromSlice body >>= AgentOperation.fromJson?).map .agent_operation
  | "change_set" => (jsonFromSlice body >>= ChangeSet.fromJson?).map .change_set
  | _ => none

/-- Whether `decodeBody` can recognise the tag at all, mirroring the
match arms of `from_canonical_bytes`. -/
def knownTag (tag : String) : Bool :=
  tag = "intent" || tag = "behavior_diff" || tag = "intent_stream_snapshot" ||
  tag = "decision_record" || tag = "constraint" || tag = "code_binding" ||
  tag = "agent_operation" || tag = "change_set"

/-- `TelosObject::from_canonical_bytes`: split at the first NUL byte,
route on the tag, parse the JSON body.  A missing separator or an
unrecognised tag is `UnknownTypeTag`; a body that does not parse is a
`Serialization` error. -/
def fromCanonicalBytes (data : List Char) : Except CoreError TelosObject :=
  let tagChars := data.takeWhile (fun c => c ≠ Char.ofNat 0)
  match data.dropWhile (fun c => c ≠ Char.ofNat 0) with
  | [] => .error (.UnknownTypeTag "missing null separator")
  | _ :: body =>
    let tag := String.mk tagChars
    if knownTag tag then
      match decodeBody tag body with
      | some o => .ok o
      | none => .error (.Serialization "invalid canonical json body")
    else .error (.UnknownTypeTag tag)

/-! ## ObjectId::parse (hash.rs) -/

/-- Unicode `White_Space` code points, as `char::is_whitespace` tests
them (Rust's `str::trim` strips these from both ends). -/
def rustIsWhitespace (c : Char) : Bool :=
  c.toNat = 9 || c.toNat = 10 || c.toNat = 11 || c.toNat = 12 || c.toNat = 13 ||
  c.toNat = 32 || c.toNat = 133 || c.toNat = 160 || c.toNat = 5760 ||
  (8192 ≤ c.toNat && c.toNat ≤ 8202) || c.toNat = 8232 || c.toNat = 8233 ||
  c.toNat = 8239 || c.toNat = 8287 || c.toNat = 12288

/-- Rust `str::trim`: drop whitespace from both ends. -/
def rustTrim (cs : List Char) : List Char :=
  ((cs.dropWhile rustIsWhitespace).reverse.dropWhile rustIsWhitespace).reverse

/-- Rust `char::is_ascii_hexdigit`. -/
def isAsciiHexdigit (c : Char) : Bool :=
  (('0' ≤ c && c ≤ '9') || ('a' ≤ c && c ≤ 'f') || ('A' ≤ c && c ≤ 'F'))

/-- ASCII lowercasing.  `str::to_lowercase` is full Unicode lowercasing,
but `ObjectId::parse` applies it only to strings of ASCII hex digits, on
which the two coincide. -/
def asciiLower (c : Char) : Char :=
  if 'A' ≤ c && c ≤ 'Z' then Char.ofNat (c.toNat + 32) else c

/-- `ObjectId::parse` (hash.rs): trim the input, require exactly 64 ASCII
hex digits, normalize to lowercase; otherwise `InvalidObjectId` carrying
the trimmed string. -/
def ObjectId.parse (s : String) : Except CoreError ObjectId :=
  if (rustTrim s.data).length = 64 ∧ (rustTrim s.data).all isAsciiHexdigit then
    .ok (String.mk ((rustTrim s.data).map asciiLower))
  else .error (.InvalidObjectId (String.mk (rustTrim s.data)))

/-! ## Store errors (telos-store error.rs)

The source enum in error.rs lacks the `IntegrityError` and
`InvalidReference` variants even though odb.rs and repository.rs
construct them; the model carries the union of the declared and the
constructed variants.  `AmbiguousPfx` renders the source variant
`AmbiguousPrefix`. -/

inductive StoreError where
  | Io (msg : String)
  | Core (e : CoreError)
  | Json (msg : String)
  | ObjectNotFound (s : String)
  | AmbiguousPfx (pfx : String) (count : Nat)
  | RepositoryNotFound (s : String)
  | RepositoryExists (s : String)
  | StreamNotFound (s : String)
  | StreamExists (s : String)
  | LockConflict (s : String)
  | InvalidHead (s : String)
  | NoCurrentStream
  | InvalidStreamName (name : String) (reason : String)
  | IntegrityError (expected : String) (actual : String)
  | InvalidReference (msg : String)
deriving DecidableEq

/-! ## Object database, byte level (odb.rs)

The store is the finite map from the 64-hex filename (fan-out directory
name concatenated with the file name) to the raw bytes of the file.  The
SHA-256 function is a parameter `hashFn`; no property of it is assumed
except where a theorem states one. -/

/-- On-disk object files: hex id to raw bytes. -/
abbrev OdbFiles := List (String × List Char)

/-- `ObjectDatabase::read`: read bytes, recompute the id, fail with
`IntegrityError` on mismatch, then parse the canonical bytes. -/
def odbRead (hashFn : List Char → String) (files : OdbFiles) (id : ObjectId) :
    Except StoreError TelosObject :=
  match files.lookup id with
  | none => .error (.ObjectNotFound id)
  | some bytes =>
    let actual := hashFn bytes
    if actual ≠ id then .error (.IntegrityError id actual)
    else
      match fromCanonicalBytes bytes with
      | .ok o => .ok o
      | .error e => .error (.Core e)

/-- `ObjectDatabase::resolve_prefix` (odb.rs): prefixes shorter than 4
are rejected (with an `AmbiguousPrefix` of count 0); otherwise the
fan-out directory named by the first two characters is scanned for
file names matching the remainder. -/
def odbResolvePfx (files : OdbFiles) (pfx : String) : Except StoreError ObjectId :=
  if pfx.length < 4 then .error (.AmbiguousPfx pfx 0)
  else
    let fanOut := pfx.data.take 2
    let restPfx := pfx.data.drop 2
    let dirFiles := files.filter fun f => f.1.data.take 2 = fanOut
    if dirFiles.isEmpty then .error (.ObjectNotFound pfx)
    else
      let ms := dirFiles.filter fun f => restPfx.isPrefixOf (f.1.data.drop 2)
      match ms with
      | [] => .error (.ObjectNotFound pfx)
      | [f] =>
        match ObjectId.parse f.1 with
        | .ok id => .ok id
        | .error e => .error (.Core e)
      | _ => .error (.AmbiguousPfx pfx ms.length)

/-! ## Reference store (refs.rs)

The on-disk state is the content of the `HEAD` file and the map from
stream path to the stream record it holds.  Lockfile-mediated writes are
modelled as direct state updates (single-writer sequences); the JSON
(de)serialization of `IntentStreamRef` files is abstracted away, the map
holding the structured records. -/

/-- Mutable reference to a stream (object/intent_stream.rs), with the
timestamp as an integer instant. -/
structure IntentStreamRef where
  name : String
  tip : Option ObjectId
  created_at : Int
  description : Option String
deriving DecidableEq

/-- The reference-store slice of the `.telos` directory. -/
structure RefState where
  head : Option String
  streams : List (String × IntentStreamRef)
deriving DecidableEq

/-- Replace the NUL character by a two-character escape, as
`name.replace` does in the error path of `validate_stream_name`. -/
def escapeNul (s : String) : String :=
  String.mk (s.data.flatMap fun c => if c = Char.ofNat 0 then [bsl, '0'] else [c])

/-- Does the character list contain two consecutive dots
(`name.contains("..")`)? -/
def containsDotDot : List Char → Bool
  | '.' :: '.' :: _ => true
  | _ :: rest => containsDotDot rest
  | [] => false

/-- Split a character list at a separator (`name.split('/')`): always at
least one segment, empty segments preserved. -/
def splitOnChar (sep : Char) : List Char → List (List Char)
  | [] => [[]]
  | c :: rest =>
    match splitOnChar sep rest with
    | [] => [[]]
    | seg :: segs => if c = sep then [] :: seg :: segs else (c :: seg) :: segs

/-- `RefStore::validate_stream_name`: non-empty, no NUL, no leading dot,
no double dot anywhere, and every slash-separated segment non-empty and
not starting with a dot. -/
def validateStreamName (name : String) : Except StoreError Unit :=
  if name.data.isEmpty then
    .error (.InvalidStreamName name "stream name cannot be empty")
  else if name.data.contains (Char.ofNat 0) then
    .error (.InvalidStreamName (escapeNul name) "stream name cannot contain null bytes")
  else if name.data.take 1 = ['.'] then
    .error (.InvalidStreamName name "stream name cannot start with a dot")
  else if containsDotDot name.data then
    .error (.InvalidStreamName name "stream name cannot contain a double dot")
  else if (splitOnChar '/' name.data).any (fun seg => seg.isEmpty) then
    .error (.InvalidStreamName name "stream name cannot have empty path segments")
  else if (splitOnChar '/' name.data).any (fun seg => seg.take 1 = ['.']) then
    .error (.InvalidStreamName name "path segments cannot start with a dot")
  else .ok ()

/-- Write or replace the value at a key, keeping its position (a file
overwrite); a new key appends. -/
def upsert (k : String) (v : α) : List (String × α) → List (String × α)
  | [] => [(k, v)]
  | (k2, v2) :: rest => if k2 = k then (k, v) :: rest else (k2, v2) :: upsert k v rest

/-- Remove the entry at a key (file deletion). -/
def removeKey (k : String) : List (String × α) → List (String × α)
  | [] => []
  | (k2, v2) :: rest => if k2 = k then rest else (k2, v2) :: removeKey k rest

/-- `RefStore::read_head`: read `HEAD`, trim, strip the literal text
ref-colon-space followed by the streams directory; the remainder is the
stream name. -/
def readHead (st : RefState) : Except StoreError String :=
  match st.head with
  | none => .error (.InvalidHead "HEAD file not found")
  | some content =>
    if "ref: refs/streams/".data.isPrefixOf (rustTrim content.data) then
      .ok (String.mk ((rustTrim content.data).drop "ref: refs/streams/".data.length))
    else .error (.InvalidHead (String.mk (rustTrim content.data)))

/-- `RefStore::set_head`: validate the name, then (lockfile-atomically)
write the symbolic reference line with a trailing newline. -/
def setHead (name : String) (st : RefState) : Except StoreError RefState := do
  let _ ← validateStreamName name
  pure { st with head := some ("ref: refs/streams/" ++ name ++ "\n") }

/-- `RefStore::read_stream`. -/
def readStream (name : String) (st : RefState) : Except StoreError IntentStreamRef :=
  match st.streams.lookup name with
  | none => .error (.StreamNotFound name)
  | some r => .ok r

/-- `RefStore::write_stream`: validate, then write the file named by the
record's own `name` field. -/
def writeStream (r : IntentStreamRef) (st : RefState) : Except StoreError RefState := do
  let _ ← validateStreamName r.name
  pure { st with streams := upsert r.name r st.streams }

/-- `RefStore::create_stream`: fails with `StreamExists` when the file
exists, else writes it. -/
def createStream (r : IntentStreamRef) (st : RefState) : Except StoreError RefState := do
  let _ ← validateStreamName r.name
  if (st.streams.lookup r.name).isSome then .error (.StreamExists r.name)
  else writeStream r st

/-- `RefStore::delete_stream`: validate, reject the stream `HEAD` names,
require the file to exist, remove it.  (Empty-parent-directory cleanup
has no counterpart in the map model.) -/
def deleteStream (name : String) (st : RefState) : Except StoreError RefState := do
  let _ ← validateStreamName name
  let head ← readHead st
  if head = name then
    .error (.StreamNotFound ("cannot delete current stream " ++ name))
  else if (st.streams.lookup name).isNone then .error (.StreamNotFound name)
  else pure { st with streams := removeKey name st.streams }

/-- `RefStore::current_stream`. -/
def currentStream (st : RefState) : Except StoreError IntentStreamRef := do
  let name ← readHead st
  readStream name st

/-- `RefStore::update_current_tip`: read the current stream, set its tip,
write it back. -/
def updateCurrentTip (tip : ObjectId) (st : RefState) : Except StoreError RefState := do
  let name ← readHead st
  let r ← readStream name st
  writeStream { r with tip := some tip } st

/-- The reference-store state `Repository::init` leaves behind:
`HEAD` pointing at `main` and the `main` stream file with an empty tip
(`t` is the creation instant). -/
def initRefState (t : Int) : RefState :=
  { head := some "ref: refs/streams/main\n"
    streams := [("main", { name := "main", tip := none, created_at := t,
                           description := some "Default intent stream" })] }

/-- States reachable from `Repository::init` by successful
reference-store operations. -/
inductive ReachRef : RefState → Prop where
  | init (t : Int) : ReachRef (initRefState t)
  | set_head {s s2 : RefState} (name : String) :
      ReachRef s → setHead name s = .ok s2 → ReachRef s2
  | write_stream {s s2 : RefState} (r : IntentStreamRef) :
      ReachRef s → writeStream r s = .ok s2 → ReachRef s2
  | create_stream {s s2 : RefState} (r : IntentStreamRef) :
      ReachRef s → createStream r s = .ok s2 → ReachRef s2
  | delete_stream {s s2 : RefState} (name : String) :
      ReachRef s → deleteStream name s = .ok s2 → ReachRef s2
  | update_tip {s s2 : RefState} (tip : ObjectId) :
      ReachRef s → updateCurrentTip tip s = .ok s2 → ReachRef s2

end Telos

namespace Telos.Store

/-! ## Store-level object model (repository.rs / index_store.rs / query.rs)

The layers above the object database consume objects after the
integrity-verified read, so this model keeps records structurally, with
timestamps as integer instants (`chrono` comparisons are on the
instant).  Field sets mirror the source records. -/

/-- Intent, store level. -/
structure Intent where
  author : Author
  timestamp : Int
  statement : String
  constraints : List String
  behavior_spec : List BehaviorClause
  parents : List ObjectId
  impacts : List String
  behavior_diff : Option ObjectId
  metadata : List (String × Json)

/-- Constraint, store level. -/
structure Constraint where
  author : Author
  timestamp : Int
  statement : String
  severity : ConstraintSeverity
  status : ConstraintStatus
  source_intent : ObjectId
  superseded_by : Option ObjectId
  deprecation_reason : Option String
  scope : List ObjectId
  impacts : List String
  metadata : List (String × Json)

/-- Code binding, store level. -/
structure CodeBinding where
  path : String
  symbol : Option String
  span : Option (Nat × Nat)
  binding_type : BindingType
  resolution : BindingResolution
  bound_object : ObjectId
  metadata : List (String × Json)

/-- Decision record, store level. -/
structure DecisionRecord where
  intent_id : ObjectId
  author : Author
  timestamp : Int
  question : String
  decision : String
  rationale : Option String
  alternatives : List Alternative
  tags : List String

/-- Behavior diff, store level. -/
structure BehaviorDiff where
  intent_id : ObjectId
  changes : List BehaviorChange
  impact : ImpactRadius
  verification : Option Verification

/-- Stream snapshot, store level. -/
structure IntentStreamSnapshot where
  name : String
  tip : ObjectId
  created_at : Int
  description : Option String
  parent_stream : Option String

/-- Agent operation, store level. -/
structure AgentOperation where
  agent_id : String
  session_id : String
  timestamp : Int
  operation : OperationType
  result : OperationResult
  summary : String
  context_refs : List ObjectId
  files_touched : List String
  parent_op : Option ObjectId
  metadata : List (String × Json)

/-- Change set, store level. -/
structure ChangeSet where
  author : Author
  timestamp : Int
  git_commit : String
  parents : List ObjectId
  intents : List ObjectId
  constraints : List ObjectId
  decisions : List ObjectId
  code_bindings : List ObjectId
  agent_operations : List ObjectId
  metadata : List (String × Json)

/-- The tagged union, store level. -/
inductive Obj where
  | intent (o : Intent)
  | behavior_diff (o : BehaviorDiff)
  | intent_stream_snapshot (o : IntentStreamSnapshot)
  | decision_record (o : DecisionRecord)
  | constraint (o : Constraint)
  | code_binding (o : CodeBinding)
  | agent_operation (o : AgentOperation)
  | change_set (o : ChangeSet)

/-- `TelosObject::type_tag`, store level. -/
def Obj.type_tag : Obj → String
  | .intent _ => "intent"
  | .behavior_diff _ => "behavior_diff"
  | .intent_stream_snapshot _ => "intent_stream_snapshot"
  | .decision_record _ => "decision_record"
  | .constraint _ => "constraint"
  | .code_binding _ => "code_binding"
  | .agent_operation _ => "agent_operation"
  | .change_set _ => "change_set"

/-- The object database as the layers above it see it: a finite map
from id to the (integrity-verified) object stored there. -/
abbrev ObjStore := List (ObjectId × Obj)

/-- `ObjectDatabase::read` as seen above the byte layer: a missing path
is `ObjectNotFound`; a present object is returned. -/
def ObjStore.read (db : ObjStore) (id : ObjectId) : Except StoreError Obj :=
  match db.lookup id with
  | some o => .ok o
  | none => .error (.ObjectNotFound id)

/-- `ObjectDatabase::write` above the byte layer: the id is the content
address computed by `hashFn`; an existing file makes the write a no-op. -/
def ObjStore.write (hashFn : Obj → ObjectId) (db : ObjStore) (o : Obj) : ObjectId × ObjStore :=
  (hashFn o, if (db.lookup (hashFn o)).isSome then db else db ++ [(hashFn o, o)])

end Telos.Store

namespace Telos

/-! ## Index store (index_store.rs) -/

/-- Entries of the impact index. -/
structure IndexEntry where
  id : String
  object_type : String
deriving DecidableEq

/-- Entries of the codepath and symbols indexes. -/
structure PathIndexEntry where
  id : String
  object_type : String
  symbol : Option String
  binding_type : Option String
deriving DecidableEq

/-- One persisted index document. -/
structure IndexFile (α : Type) where
  version : Nat
  entries : List (String × List α)
deriving DecidableEq

/-- `IndexFile::default()`: version 2, empty entries. -/
def IndexFile.empty : IndexFile α := { version := 2, entries := [] }

/-- `entries.entry(key).or_default().push(entry)`. -/
def pushEntry (key : String) (e : α) : List (String × List α) → List (String × List α)
  | [] => [(key, [e])]
  | (k, vs) :: rest =>
    if k = key then (k, vs ++ [e]) :: rest else (k, vs) :: pushEntry key e rest

/-- Push one entry for each key of a list. -/
def pushEntries (keys : List String) (e : α) (m : List (String × List α)) :
    List (String × List α) :=
  keys.foldl (fun acc k => pushEntry k e acc) m

/-- The three on-disk index files; `none` models an absent file
(`load_index` then yields the default). -/
structure IndexState where
  impact : Option (IndexFile IndexEntry)
  codepath : Option (IndexFile PathIndexEntry)
  symbols : Option (IndexFile PathIndexEntry)
deriving DecidableEq

/-- `load_index`: a missing (or unparseable) file loads as the default. -/
def loadIndex (f : Option (IndexFile α)) : IndexFile α :=
  f.getD IndexFile.empty

/-- `format!` of the Debug name of a binding type, lowercased. -/
def bindingTypeStr : BindingType → String
  | .file => "file"
  | .function => "function"
  | .module_ => "module"
  | .api => "api"
  | .type_ => "type"

/-- `IndexStore::update_for_object`: intents and constraints with a
non-empty `impacts` list append an entry per tag to the impact index;
code bindings append to the codepath index and, when a symbol is
present, to the symbols index; every other object leaves all three
files untouched. -/
def updateForObject (id : ObjectId) (obj : Store.Obj) (st : IndexState) : IndexState :=
  match obj with
  | .intent i =>
    if i.impacts.isEmpty then st
    else
      let f := loadIndex st.impact
      let e : IndexEntry := ⟨id, "intent"⟩
      { st with impact := some { f with entries := pushEntries i.impacts e f.entries } }
  | .constraint c =>
    if c.impacts.isEmpty then st
    else
      let f := loadIndex st.impact
      let e : IndexEntry := ⟨id, "constraint"⟩
      { st with impact := some { f with entries := pushEntries c.impacts e f.entries } }
  | .code_binding cb =>
    let e : PathIndexEntry := ⟨id, "code_binding", cb.symbol, some (bindingTypeStr cb.binding_type)⟩
    let cp := loadIndex st.codepath
    let st2 := { st with codepath := some { cp with entries := pushEntry cb.path e cp.entries } }
    match cb.symbol with
    | some sym =>
      let sy := loadIndex st2.symbols
      { st2 with symbols := some { sy with entries := pushEntry sym e sy.entries } }
    | none => st2
  | _ => st

/-- The in-memory accumulation step of `rebuild_all` for one object. -/
def rebuildStep (acc : IndexFile IndexEntry × IndexFile PathIndexEntry × IndexFile PathIndexEntry)
    (p : ObjectId × Store.Obj) :
    IndexFile IndexEntry × IndexFile PathIndexEntry × IndexFile PathIndexEntry :=
  let (impact, codepath, symbols) := acc
  match p.2 with
  | .intent i =>
    let e : IndexEntry := ⟨p.1, "intent"⟩
    ({ impact with entries := pushEntries i.impacts e impact.entries }, codepath, symbols)
  | .constraint c =>
    let e : IndexEntry := ⟨p.1, "constraint"⟩
    ({ impact with entries := pushEntries c.impacts e impact.entries }, codepath, symbols)
  | .code_binding cb =>
    let e : PathIndexEntry := ⟨p.1, "code_binding", cb.symbol, some (bindingTypeStr cb.binding_type)⟩
    let codepath2 := { codepath with entries := pushEntry cb.path e codepath.entries }
    match cb.symbol with
    | some sym =>
      (impact, codepath2, { symbols with entries := pushEntry sym e symbols.entries })
    | none => (impact, codepath2, symbols)
  | _ => (impact, codepath, symbols)

/-- `IndexStore::rebuild_all`: fold the odb listing into fresh in-memory
indexes, persist all three, and return the number of distinct keys of
each. -/
def rebuildAll (objs : List (ObjectId × Store.Obj)) : IndexState × Nat × Nat × Nat :=
  let (impact, codepath, symbols) :=
    objs.foldl rebuildStep (IndexFile.empty, IndexFile.empty, IndexFile.empty)
  ({ impact := some impact, codepath := some codepath, symbols := some symbols },
   impact.entries.length, codepath.entries.length, symbols.entries.length)

/-- Apply `update_for_object` for each written object in sequence,
starting from absent index files (the incremental history of a fresh
repository). -/
def applyUpdates (ws : List (ObjectId × Store.Obj)) : IndexState :=
  ws.foldl (fun st p => updateForObject p.1 p.2 st) ⟨none, none, none⟩

/-! ## Repository layer (repository.rs) -/

/-- The composed repository state. -/
structure RepoState where
  odb : Store.ObjStore
  refs : RefState
  indexes : IndexState

/-- Parent validation in `Repository::create_intent`: read each parent in
order, requiring tag `intent`; a read failure propagates and a non-intent
parent is an `InvalidReference`.  (The source formats the parent id in
its 8-char short form into the message.) -/
def checkParents (db : Store.ObjStore) : List ObjectId → Except StoreError Unit
  | [] => .ok ()
  | p :: rest =>
    match db.read p with
    | .ok (.intent _) => checkParents db rest
    | .ok other =>
      .error (.InvalidReference
        ("parent " ++ String.mk (p.data.take 8) ++ " is a " ++ other.type_tag ++
          ", expected intent"))
    | .error e => .error e

/-- `Repository::create_intent`: validate parents, write the object,
update the indexes, advance the current stream tip, return the new id. -/
def createIntent (hashFn : Store.Obj → ObjectId) (i : Store.Intent) (st : RepoState) :
    Except StoreError (ObjectId × RepoState) := do
  let _ ← checkParents st.odb i.parents
  let obj := Store.Obj.intent i
  let (id, odb2) := Store.ObjStore.write hashFn st.odb obj
  let idx2 := updateForObject id obj st.indexes
  let refs2 ← updateCurrentTip id st.refs
  pure (id, { odb := odb2, refs := refs2, indexes := idx2 })

/-! ## Intent DAG walker (repository.rs) -/

/-- The walker state: the BFS queue and the visited set of hex strings
(the `HashSet` is modelled as a list with membership-guarded insert). -/
structure Walker where
  queue : List ObjectId
  visited : List String

/-- `IntentWalker::new`: mark the start visited and enqueue it. -/
def Walker.init (start : ObjectId) : Walker :=
  ⟨[start], [start]⟩

/-- Enqueue the unvisited parents in order, marking them visited. -/
def enqueueParents (parents : List ObjectId) (qv : List ObjectId × List String) :
    List ObjectId × List String :=
  parents.foldl
    (fun acc p => if p ∈ acc.2 then acc else (acc.1 ++ [p], p :: acc.2)) qv

/-- `IntentWalker::next`: pop ids until one reads as an intent (yield it
after enqueueing its unvisited parents), a read fails (yield the error),
or the queue runs dry (the iterator is exhausted).  Structured on the
queue list. -/
def walkerNextQ (db : Store.ObjStore) : List ObjectId → List String →
    Option (Except StoreError (ObjectId × Store.Intent) × Walker)
  | [], _ => none
  | id :: rest, v =>
    match db.read id with
    | .error e => some (.error e, ⟨rest, v⟩)
    | .ok (.intent i) =>
      let (q2, v2) := enqueueParents i.parents (rest, v)
      some (.ok (id, i), ⟨q2, v2⟩)
    | .ok _ => walkerNextQ db rest v

/-- `IntentWalker::next` on the walker state. -/
def walkerNext (db : Store.ObjStore) (w : Walker) :
    Option (Except StoreError (ObjectId × Store.Intent) × Walker) :=
  walkerNextQ db w.queue w.visited

/-- Drain the iterator, collecting at most `fuel` items (any fuel at
least the number of ids ever enqueued collects the entire walk). -/
def walkRun (db : Store.ObjStore) : Nat → Walker →
    List (Except StoreError (ObjectId × Store.Intent))
  | 0, _ => []
  | fuel + 1, w =>
    match walkerNext db w with
    | none => []
    | some (item, w2) => item :: walkRun db fuel w2

/-- `walk_intents(start)` collected into a list: enough fuel to drain the
whole iterator (one unit per stored object and per parent edge, plus one
for the start). -/
def walkIntents (db : Store.ObjStore) (start : ObjectId) :
    List (Except StoreError (ObjectId × Store.Intent)) :=
  walkRun db (1 + db.length +
    (db.map fun p => match p.2 with | .intent i => i.parents.length | _ => 0).sum)
    (Walker.init start)

/-! ## Query layer (query.rs) -/

/-- The string-to-enum status mapping of `query_constraints`: the default
is `active` and unknown strings fall back to `active`. -/
def statusFromStr (status : Option String) : ConstraintStatus :=
  match status.getD "active" with
  | "superseded" => .superseded
  | "deprecated" => .deprecated
  | _ => .active

/-- The comparator of the final sort: `b.1.timestamp.cmp(&a.1.timestamp)`
makes `a` sort before `b` when `a`'s timestamp is at least `b`'s. -/
def tsDescLe (a b : ObjectId × Store.Constraint) : Bool :=
  decide (b.2.timestamp ≤ a.2.timestamp)

/-- `query_constraints` (query.rs): scan the odb listing, keep the
constraints whose status equals the requested one and that carry the
requested impact tag when one is given, then stably sort by timestamp
descending (`sort_by` is a stable sort; `List.mergeSort` computes the
same function). -/
def queryConstraints (all : List (ObjectId × Store.Obj)) (impact : Option String)
    (status : Option String) : List (ObjectId × Store.Constraint) :=
  let target := statusFromStr status
  let results := all.filterMap fun p =>
    match p.2 with
    | .constraint c =>
      if c.status = target && impact.all (fun f => c.impacts.contains f) then some (p.1, c)
      else none
    | _ => none
  results.mergeSort tsDescLe

/-! ## Predicates and measures used by the claim statements -/

/-- Strictly ascending keys of an object's association list. -/
def keysStrictSorted : List (String × Json) → Bool
  | [] => true
  | [_] => true
  | f :: g :: rest => keyLt f.1 g.1 && keysStrictSorted (g :: rest)

mutual
/-- A JSON value in canonical map form: every object's keys strictly
ascending (the canonical image of a Rust map, which carries no order of
its own). -/
def Json.canonB : Json → Bool
  | .null => true
  | .bool _ => true
  | .num _ => true
  | .str _ => true
  | .arr xs => canonElems xs
  | .obj fs => keysStrictSorted fs && canonFields fs

/-- Canonicity of every element. -/
def canonElems : List Json → Bool
  | [] => true
  | x :: xs => x.canonB && canonElems xs

/-- Canonicity of every member value. -/
def canonFields : List (String × Json) → Bool
  | [] => true
  | f :: fs => f.2.canonB && canonFields fs
end

/-- A valid codec-level object: its `metadata` maps are in canonical
form and its `u32` span components are in range.  Rust values always
satisfy this: a `HashMap` is unordered (its canonical image is the
key-sorted one) and `span` holds `u32`s. -/
def TelosObject.Valid : TelosObject → Prop
  | .intent o => (Json.obj o.metadata).canonB = true
  | .behavior_diff _ => True
  | .intent_stream_snapshot _ => True
  | .decision_record _ => True
  | .constraint o => (Json.obj o.metadata).canonB = true
  | .code_binding o => (Json.obj o.metadata).canonB = true ∧
      (∀ x y, o.span = some (x, y) → x < 4294967296 ∧ y < 4294967296)
  | .agent_operation o => (Json.obj o.metadata).canonB = true
  | .change_set o => (Json.obj o.metadata).canonB = true

mutual
/-- Fuel sufficient for `parseValue` on the rendering of a value. -/
def fuelFor : Json → Nat
  | .null => (1)
  | .bool _ => (1)
  | .num _ => 1
  | .str s => 2 + s.data.length
  | .arr [] => 1
  | .arr (x :: xs) => 2 + max (fuelFor x) (fuelForElems xs)
  | .obj [] => 1
  | .obj (f :: fs) => 2 + max (2 + f.1.data.length) (max (fuelFor f.2) (fuelForFields fs))

/-- Fuel sufficient for `parseElems` on the tail elements. -/
def fuelForElems : List Json → Nat
  | [] => 0
  | x :: xs => 1 + max (fuelFor x) (fuelForElems xs)

/-- Fuel sufficient for `parseFields` on the tail members. -/
def fuelForFields : List (String × Json) → Nat
  | [] => 0
  | f :: fs => 1 + max (2 + f.1.data.length) (max (fuelFor f.2) (fuelForFields fs))
end

/-- The ids of the successfully yielded items of a walk. -/
def okIds (items : List (Except StoreError (ObjectId × Store.Intent))) : List ObjectId :=
  items.filterMap fun r =>
    match r with
    | .ok (id, _) => some id
    | .error _ => none

/-- Reachability in the intent DAG: the start, and transitively the
parents of every reachable stored intent. -/
inductive Reachable (db : Store.ObjStore) (start : ObjectId) : ObjectId → Prop where
  | refl : Reachable db start start
  | step {id p : ObjectId} {i : Store.Intent} :
      Reachable db start id → db.lookup id = some (.intent i) → p ∈ i.parents →
      Reachable db start p

/-- Every id the walker can ever enqueue: the start id and the parents
mentioned by stored intents. -/
def univList (db : Store.ObjStore) (start : ObjectId) : List String :=
  start :: db.flatMap fun p =>
    match p.2 with
    | .intent i => i.parents
    | _ => []

/-- Decreasing measure of a walker: queue length plus the number of
relevant ids not yet visited. -/
def walkerMeasure (db : Store.ObjStore) (start : ObjectId) (w : Walker) : Nat :=
  w.queue.length + ((univList db start).toFinset \ w.visited.toFinset).card

/-- The BFS loop invariant, relative to the list `D` of ids already
yielded: every queued id is visited, the queue has no duplicates, every
visited id was yielded or is queued, yielded ids are visited and no
longer queued, every visited id is reachable and relevant, and the
parents of every yielded intent are visited. -/
def WalkerInv (db : Store.ObjStore) (start : ObjectId) (w : Walker) (D : List String) : Prop :=
  (∀ x ∈ w.queue, x ∈ w.visited) ∧
  w.queue.Nodup ∧
  (∀ x ∈ w.visited, x ∈ D ∨ x ∈ w.queue) ∧
  (∀ x ∈ D, x ∈ w.visited ∧ x ∉ w.queue) ∧
  (∀ x ∈ w.visited, Reachable db start x) ∧
  (∀ x ∈ w.visited, x ∈ univList db start) ∧
  (∀ d ∈ D, ∀ i, db.lookup d = some (.intent i) → ∀ p ∈ i.parents, p ∈ w.visited)

/-- HEAD names a stream whose file exists. -/
def headStreamOk (st : RefState) : Bool :=
  match readHead st with
  | .ok n => (st.streams.lookup n).isSome
  | .error _ => false

/-- Whether a read result is the integrity failure. -/
def isIntegrityError (r : Except StoreError TelosObject) : Bool :=
  match r with
  | .error (.IntegrityError _ _) => true
  | _ => false

/-- A well-formed stored object file name: 64 lowercase hex characters. -/
def validStoredId (s : String) : Bool :=
  s.length = 64 && s.data.all fun c => ('0' ≤ c && c ≤ '9') || ('a' ≤ c && c ≤ 'f')

/-- The entry list an index file holds at a key (empty when the file or
the key is absent). -/
def entriesAt (key : String) (f : Option (IndexFile α)) : List α :=
  ((loadIndex f).entries.lookup key).getD []

/-- The impact-index entries one object contributes at one key: one entry
per occurrence of the key in its `impacts` (intents and constraints
only). -/
def contribImpact (key : String) (p : ObjectId × Store.Obj) : List IndexEntry :=
  match p.2 with
  | .intent i => (i.impacts.filter fun t => t = key).map fun _ => ⟨p.1, "intent"⟩
  | .constraint c => (c.impacts.filter fun t => t = key).map fun _ => ⟨p.1, "constraint"⟩
  | _ => []

/-- The index entry a code binding contributes. -/
def cbEntry (id : ObjectId) (cb : Store.CodeBinding) : PathIndexEntry :=
  ⟨id, "code_binding", cb.symbol, some (bindingTypeStr cb.binding_type)⟩

/-- The codepath-index entries one object contributes at one key. -/
def contribPath (key : String) (p : ObjectId × Store.Obj) : List PathIndexEntry :=
  match p.2 with
  | .code_binding cb => if cb.path = key then [cbEntry p.1 cb] else []
  | _ => []

/-- The symbols-index entries one object contributes at one key. -/
def contribSym (key : String) (p : ObjectId × Store.Obj) : List PathIndexEntry :=
  match p.2 with
  | .code_binding cb =>
    match cb.symbol with
    | some sym => if sym = key then [cbEntry p.1 cb] else []
    | none => []
  | _ => []

/-- The impact keys one object mentions. -/
def impactKeysOf (p : ObjectId × Store.Obj) : List String :=
  match p.2 with
  | .intent i => i.impacts
  | .constraint c => c.impacts
  | _ => []

/-- The codepath keys one object mentions. -/
def pathKeysOf (p : ObjectId × Store.Obj) : List String :=
  match p.2 with
  | .code_binding cb => [cb.path]
  | _ => []

/-- The symbol keys one object mentions. -/
def symKeysOf (p : ObjectId × Store.Obj) : List String :=
  match p.2 with
  | .code_binding cb =>
    match cb.symbol with
    | some sym => [sym]
    | none => []
  | _ => []

end Telos

namespace Telos

/-! # Theorems -/

/-! ## Shared association-list lemmas -/

theorem lookup_upsert (k : String) (v : α) (l : List (String × α)) :
    (upsert k v l).lookup k = some v := by
  induction l with
  | nil => simp [upsert]
  | cons h t ih =>
    obtain ⟨k2, v2⟩ := h
    by_cases hk : k2 = k
    · subst hk
      simp [upsert, List.lookup]
    · simp [upsert, hk, List.lookup, beq_eq_false_iff_ne.mpr (Ne.symm hk), ih]

theorem lookup_upsert_ne (k k2 : String) (v : α) (l : List (String × α)) (h : k2 ≠ k) :
    (upsert k v l).lookup k2 = l.lookup k2 := by
  induction l with
  | nil => simp [upsert, List.lookup, beq_eq_false_iff_ne.mpr h]
  | cons hd t ih =>
    obtain ⟨k3, v3⟩ := hd
    by_cases hk : k3 = k
    · subst hk
      simp [upsert, List.lookup, beq_eq_false_iff_ne.mpr h]
    · simp [upsert, hk, List.lookup, ih]

/-! ## C7: ObjectId::parse -/

/-- C7 counterexample: `ObjectId::parse` trims its input first, so a
65-character string (a space followed by 64 hex digits) parses
successfully even though it is not itself 64 hex characters — refuting
"succeeds if and only if s is exactly 64 hex characters". -/
theorem c7_parse_counterexample :
    (ObjectId.parse (String.mk (' ' :: List.replicate 64 '0'))).isOk = true ∧
    (String.mk (' ' :: List.replicate 64 '0')).length ≠ 64 := by
  constructor
  · decide
  · decide

/-- C7 (amended): `ObjectId::parse(s)` succeeds exactly when the
whitespace-trimmed input is 64 ASCII hex characters, in which case it
returns the trimmed input normalized to lowercase; every other input
fails with `InvalidObjectId` carrying the trimmed input. -/
theorem c7_parse_amended (s : String) :
    (ObjectId.parse s = .ok (String.mk ((rustTrim s.data).map asciiLower)) ↔
      (rustTrim s.data).length = 64 ∧ (rustTrim s.data).all isAsciiHexdigit = true) ∧
    (¬ ((rustTrim s.data).length = 64 ∧ (rustTrim s.data).all isAsciiHexdigit = true) →
      ObjectId.parse s = .error (.InvalidObjectId (String.mk (rustTrim s.data)))) := by
  constructor
  · by_cases h : (rustTrim s.data).length = 64 ∧ (rustTrim s.data).all isAsciiHexdigit = true
    · simp [ObjectId.parse, h]
    · simp [ObjectId.parse, h]
  · intro h
    unfold ObjectId.parse
    rw [if_neg h]

/-- C7 amended witness: 64 uppercase hex digits parse to their lowercase
form. -/
theorem c7_parse_witness :
    ObjectId.parse (String.mk (List.replicate 64 'A')) =
      .ok (String.mk (List.replicate 64 'a')) := by
  have h := (c7_parse_amended (String.mk (List.replicate 64 'A'))).1.mpr (by decide)
  simpa using h

/-! ## C10: update_for_object frame -/

/-- C10: `update_for_object` applied to an intent or constraint whose
`impacts` list is empty, or to an object that is neither an intent, a
constraint nor a code binding, performs no index-file write: the index
state (all three files) is returned unchanged. -/
theorem c10_update_frame (id : ObjectId) (obj : Store.Obj) (st : IndexState)
    (h : (∃ i, obj = .intent i ∧ i.impacts = []) ∨
         (∃ c, obj = .constraint c ∧ c.impacts = []) ∨
         (obj.type_tag ≠ "intent" ∧ obj.type_tag ≠ "constraint" ∧
          obj.type_tag ≠ "code_binding")) :
    updateForObject id obj st = st := by
  rcases h with ⟨i, rfl, hi⟩ | ⟨c, rfl, hc⟩ | ⟨h1, h2, h3⟩
  · simp [updateForObject, hi]
  · simp [updateForObject, hc]
  · cases obj <;> simp_all [updateForObject, Store.Obj.type_tag]

/-- C10 witness: a decision record touches no index file. -/
theorem c10_update_frame_witness :
    updateForObject "d1"
      (.decision_record ⟨"i1", ⟨"T", "t"⟩, 0, "q", "d", none, [], []⟩)
      ⟨none, none, none⟩ = ⟨none, none, none⟩ :=
  c10_update_frame "d1" _ _ (Or.inr (Or.inr (by simp [Store.Obj.type_tag])))

/-! ## C5: integrity-checked reads -/

/-- C5: `ObjectDatabase::read(id)` fails with
`IntegrityError(expected, actual)` exactly when bytes are stored at the
id's path and rehashing them does not reproduce the id, and then
`expected` is the id and `actual` the recomputed hash; consequently a
mutation of the stored bytes that changes the hash of a previously valid
object makes re-reading fail with `IntegrityError`, and when the hash
matches no `IntegrityError` is raised. -/
theorem c5_read_integrity (hashFn : List Char → String) (files : OdbFiles) (id : ObjectId) :
    (isIntegrityError (odbRead hashFn files id) = true ↔
      ∃ b, files.lookup id = some b ∧ hashFn b ≠ id) ∧
    (∀ b, files.lookup id = some b → hashFn b ≠ id →
      odbRead hashFn files id = .error (.IntegrityError id (hashFn b))) ∧
    (∀ b mutated, files.lookup id = some b → hashFn b = id → hashFn mutated ≠ hashFn b →
      isIntegrityError (odbRead hashFn (upsert id mutated files) id) = true) := by
  refine ⟨?_, ?_, ?_⟩
  · unfold odbRead
    cases hfind : files.lookup id with
    | none => simp [isIntegrityError]
    | some b =>
      by_cases hh : hashFn b = id
      · simp only [hh, ite_not, if_pos rfl]
        cases hparse : fromCanonicalBytes b <;>
          simp [isIntegrityError, hh, hparse]
      · simp [isIntegrityError, hh]
  · intro b hfind hh
    unfold odbRead
    simp [hfind, hh]
  · intro b mutated hfind hvalid hne
    have hlu : (upsert id mutated files).lookup id = some mutated := lookup_upsert id mutated files
    unfold odbRead
    rw [hlu]
    have : hashFn mutated ≠ id := by
      rw [← hvalid]
      exact hne
    simp [isIntegrityError, this]

/-- C5 witness: a store holding one object whose bytes were replaced by
differently-hashing bytes yields `IntegrityError` on re-read. -/
theorem c5_read_integrity_witness :
    isIntegrityError
      (odbRead (fun b => if b = ['x'] then "bb" else "cc")
        (upsert "bb" ['y'] [("bb", ['x'])]) "bb") = true :=
  (c5_read_integrity (fun b => if b = ['x'] then "bb" else "cc") [("bb", ['x'])] "bb").2.2
    ['x'] ['y'] (by decide) (by decide) (by decide)

/-! ## C2: HEAD validity -/

/-- C2 counterexample: from the `init` state, `set_head "feature"`
succeeds (the name passes the grammar check) even though no stream file
named `feature` exists, producing a reachable state in which `HEAD` names
a stream whose file does not exist — refuting both the claimed invariant
and "set_head(name) succeeds only when name resolves to an existing
stream file". -/
theorem c2_head_counterexample :
    ReachRef { head := some "ref: refs/streams/feature\n",
               streams := [("main", ⟨"main", none, 0, some "Default intent stream"⟩)] } ∧
    headStreamOk { head := some "ref: refs/streams/feature\n",
                   streams := [("main", ⟨"main", none, 0, some "Default intent stream"⟩)] }
      = false := by
  constructor
  · exact .set_head "feature" (.init 0) rfl
  · rfl

/-- C2 (amended): `set_head(name)` succeeds exactly when the name passes
the stream-name grammar — stream-file existence is not checked, so `HEAD`
may name a missing stream; what does hold is that `delete_stream` on the
name `read_head()` returns always fails, and failure leaves the state (in
particular the stream file) unchanged. -/
theorem c2_head_amended (st : RefState) (name : String) :
    ((∃ st2, setHead name st = .ok st2) ↔ validateStreamName name = .ok ()) ∧
    (∀ n, readHead st = .ok n → ∀ st2, deleteStream n st ≠ .ok st2) := by
  constructor
  · constructor
    · rintro ⟨st2, h⟩
      cases hv : validateStreamName name with
      | ok u => cases u; rfl
      | error e => simp [setHead, hv] at h
    · intro hv
      exact ⟨{ st with head := some ("ref: refs/streams/" ++ name ++ "\n") }, by
        simp [setHead, hv]⟩
  · intro n hn st2 hdel
    cases hv : validateStreamName n with
    | error e => simp [deleteStream, hv, bind, Except.bind] at hdel
    | ok u =>
      cases u
      simp [deleteStream, hv, hn, bind, Except.bind] at hdel

/-- C2 amended witness: at the `init` state, `set_head "main"` succeeds,
and deleting the stream `HEAD` names is rejected. -/
theorem c2_head_amended_witness :
    (∃ st2, setHead "main" (initRefState 0) = .ok st2) ∧
    ∀ st2, deleteStream "main" (initRefState 0) ≠ .ok st2 :=
  ⟨(c2_head_amended (initRefState 0) "main").1.mpr rfl,
   (c2_head_amended (initRefState 0) "main").2 "main" rfl⟩

/-! ## C6: prefix resolution -/

theorem charLe_iff (a b : Char) : a ≤ b ↔ a.toNat ≤ b.toNat := by
  rw [Char.le_def, UInt32.le_def, BitVec.le_def]
  exact Iff.rfl

theorem dropWhile_eq_self_of (p : Char → Bool) (l : List Char)
    (h : ∀ c ∈ l, p c = false) : l.dropWhile p = l := by
  cases l with
  | nil => rfl
  | cons c rest => simp [List.dropWhile, h c (by simp)]

theorem rustTrim_eq_self {l : List Char} (h : ∀ c ∈ l, rustIsWhitespace c = false) :
    rustTrim l = l := by
  unfold rustTrim
  rw [dropWhile_eq_self_of _ _ h]
  rw [dropWhile_eq_self_of _ _ (fun c hc => h c (List.mem_reverse.mp hc))]
  exact List.reverse_reverse l

theorem map_eq_self_of (f : Char → Char) (l : List Char) (h : ∀ c ∈ l, f c = c) :
    l.map f = l := by
  induction l with
  | nil => rfl
  | cons c rest ih =>
    simp only [List.map_cons, h c (by simp)]
    rw [ih fun c2 hc => h c2 (by simp [hc])]

theorem hexChar_facts (c : Char)
    (h : (('0' ≤ c && c ≤ '9') || ('a' ≤ c && c ≤ 'f')) = true) :
    rustIsWhitespace c = false ∧ isAsciiHexdigit c = true ∧ asciiLower c = c := by
  have hn : (48 ≤ c.toNat ∧ c.toNat ≤ 57) ∨ (97 ≤ c.toNat ∧ c.toNat ≤ 102) := by
    simp only [Bool.or_eq_true, Bool.and_eq_true, decide_eq_true_eq] at h
    rcases h with ⟨h1, h2⟩ | ⟨h1, h2⟩
    · exact Or.inl ⟨(charLe_iff _ _).mp h1, (charLe_iff _ _).mp h2⟩
    · exact Or.inr ⟨(charLe_iff _ _).mp h1, (charLe_iff _ _).mp h2⟩
  refine ⟨?_, ?_, ?_⟩
  · unfold rustIsWhitespace
    simp only [Bool.or_eq_false_iff, Bool.and_eq_false_iff, decide_eq_false_iff_not,
      decide_eq_true_eq]
    omega
  · unfold isAsciiHexdigit
    simp only [Bool.or_eq_true, Bool.and_eq_true, decide_eq_true_eq, charLe_iff]
    rw [show ('0' : Char).toNat = 48 from rfl, show ('9' : Char).toNat = 57 from rfl,
      show ('a' : Char).toNat = 97 from rfl, show ('f' : Char).toNat = 102 from rfl]
    omega
  · rw [asciiLower, if_neg]
    simp only [Bool.and_eq_true, decide_eq_true_eq, charLe_iff, not_and]
    rw [show ('A' : Char).toNat = 65 from rfl, show ('Z' : Char).toNat = 90 from rfl]
    intro h1
    omega

/-- A well-formed stored file name parses to itself. -/
theorem parse_of_validStoredId (id : String) (h : validStoredId id = true) :
    ObjectId.parse id = .ok id := by
  simp only [validStoredId, Bool.and_eq_true, decide_eq_true_eq, List.all_eq_true] at h
  obtain ⟨hlen, hhex⟩ := h
  have hfacts := fun c hc => hexChar_facts c (hhex c hc)
  have htrim : rustTrim id.data = id.data :=
    rustTrim_eq_self fun c hc => (hfacts c hc).1
  have hcond : id.data.length = 64 ∧ id.data.all isAsciiHexdigit = true := by
    refine ⟨hlen, ?_⟩
    simp only [List.all_eq_true]
    exact fun c hc => (hfacts c hc).2.1
  unfold ObjectId.parse
  rw [htrim, if_pos hcond, map_eq_self_of _ _ fun c hc => (hfacts c hc).2.2]

/-- Splitting a prefix test at position 2 (ids are stored as a 2-char
fan-out directory plus a 62-char file name). -/
theorem isPrefixOf_split (p l : List Char) (hp : 2 ≤ p.length) :
    p.isPrefixOf l = (decide (l.take 2 = p.take 2) && (p.drop 2).isPrefixOf (l.drop 2)) := by
  match p, hp with
  | p1 :: p2 :: pr, _ =>
    match l with
    | [] => simp [List.isPrefixOf]
    | [c1] => simp [List.isPrefixOf]
    | c1 :: c2 :: rest =>
      by_cases h1 : p1 = c1
      · by_cases h2 : p2 = c2
        · subst h1; subst h2
          simp [List.isPrefixOf]
        · simp [List.isPrefixOf, h2, Ne.symm h2]
      · simp [List.isPrefixOf, h1, Ne.symm h1]

/-- C6: `resolve_prefix(p)` rejects every prefix shorter than 4
characters (with the count-0 `AmbiguousPrefix` error); for longer
prefixes it returns `ObjectNotFound` when no stored id starts with `p`,
the unique stored id when exactly one does — in particular
`resolve_prefix(id.take k) = id` for any stored id whose k-prefix is
unique, `k ≥ 4` — and `AmbiguousPrefix` carrying the prefix and the
match count when several do. -/
theorem c6_resolve_pfx (files : OdbFiles) (pfx : String) :
    (pfx.length < 4 → odbResolvePfx files pfx = .error (.AmbiguousPfx pfx 0)) ∧
    (4 ≤ pfx.length →
      ((files.filter fun f => pfx.data.isPrefixOf f.1.data) = [] →
        odbResolvePfx files pfx = .error (.ObjectNotFound pfx)) ∧
      (∀ f, (files.filter fun f2 => pfx.data.isPrefixOf f2.1.data) = [f] →
        validStoredId f.1 = true → odbResolvePfx files pfx = .ok f.1) ∧
      (2 ≤ (files.filter fun f => pfx.data.isPrefixOf f.1.data).length →
        odbResolvePfx files pfx =
          .error (.AmbiguousPfx pfx
            (files.filter fun f => pfx.data.isPrefixOf f.1.data).length))) := by
  constructor
  · intro hshort
    unfold odbResolvePfx
    rw [if_pos hshort]
  · intro hlong
    have hnot : ¬ pfx.length < 4 := by omega
    have hp2 : 2 ≤ pfx.data.length := by
      have : pfx.length = pfx.data.length := rfl
      omega
    have hfilter :
        (files.filter fun f => decide (f.1.data.take 2 = pfx.data.take 2)).filter
            (fun f => (pfx.data.drop 2).isPrefixOf (f.1.data.drop 2)) =
          files.filter fun f => pfx.data.isPrefixOf f.1.data := by
      rw [List.filter_filter]
      apply List.filter_congr
      intro f _
      rw [isPrefixOf_split pfx.data f.1.data hp2, Bool.and_comm]
    have hsub : ∀ f ∈ files.filter (fun f => pfx.data.isPrefixOf f.1.data),
        f ∈ files.filter fun f => decide (f.1.data.take 2 = pfx.data.take 2) := by
      intro f hf
      rw [← hfilter] at hf
      exact List.mem_of_mem_filter hf
    refine ⟨?_, ?_, ?_⟩
    · intro hempty
      unfold odbResolvePfx
      rw [if_neg hnot]
      by_cases hdir : (files.filter fun f => decide (f.1.data.take 2 = pfx.data.take 2)).isEmpty
      · simp only [hdir, if_true]
      · simp only [hdir, Bool.false_eq_true, if_false, hfilter, hempty]
    · intro f huniq hvalid
      have hmem : f ∈ files.filter fun f => decide (f.1.data.take 2 = pfx.data.take 2) :=
        hsub f (by rw [huniq]; simp)
      have hdir :
          (files.filter fun f => decide (f.1.data.take 2 = pfx.data.take 2)).isEmpty = false := by
        cases hd : files.filter fun f => decide (f.1.data.take 2 = pfx.data.take 2) with
        | nil => rw [hd] at hmem; cases hmem
        | cons a t => simp
      unfold odbResolvePfx
      rw [if_neg hnot]
      simp only [hdir, Bool.false_eq_true, if_false, hfilter, huniq]
      rw [parse_of_validStoredId f.1 hvalid]
    · intro hmany
      obtain ⟨f1, f2, rest, hms⟩ :
          ∃ f1 f2 rest, (files.filter fun f => pfx.data.isPrefixOf f.1.data) = f1 :: f2 :: rest := by
        cases hd : files.filter fun f => pfx.data.isPrefixOf f.1.data with
        | nil => rw [hd] at hmany; simp at hmany
        | cons a t =>
          cases t with
          | nil => rw [hd] at hmany; simp at hmany
          | cons b t2 => exact ⟨a, b, t2, rfl⟩
      have hmem : f1 ∈ files.filter fun f => decide (f.1.data.take 2 = pfx.data.take 2) :=
        hsub f1 (by rw [hms]; simp)
      have hdir :
          (files.filter fun f => decide (f.1.data.take 2 = pfx.data.take 2)).isEmpty = false := by
        cases hd : files.filter fun f => decide (f.1.data.take 2 = pfx.data.take 2) with
        | nil => rw [hd] at hmem; cases hmem
        | cons a t => simp
      unfold odbResolvePfx
      rw [if_neg hnot]
      simp only [hdir, Bool.false_eq_true, if_false, hfilter, hms]

/-- C6 witness: in a store with two objects, a unique 8-char prefix
resolves to the full id, a shared 4-char prefix is ambiguous with count
2, a short prefix is rejected, and an unmatched prefix is not found. -/
theorem c6_resolve_pfx_witness :
    odbResolvePfx
        [(String.mk ('a' :: 'b' :: 'c' :: List.replicate 61 '0'), ['x']),
         (String.mk ('a' :: 'b' :: 'd' :: List.replicate 61 '0'), ['y'])]
        "abc0" =
      .ok (String.mk ('a' :: 'b' :: 'c' :: List.replicate 61 '0')) :=
  ((c6_resolve_pfx _ "abc0").2 (by decide)).2.1
    (String.mk ('a' :: 'b' :: 'c' :: List.replicate 61 '0'), ['x']) (by decide) (by decide)

/-! ## C8: query_constraints -/

theorem tsDescLe_trans (a b c : ObjectId × Store.Constraint)
    (h1 : tsDescLe a b = true) (h2 : tsDescLe b c = true) : tsDescLe a c = true := by
  simp only [tsDescLe, decide_eq_true_eq] at *
  omega

theorem tsDescLe_total (a b : ObjectId × Store.Constraint) :
    (tsDescLe a b || tsDescLe b a) = true := by
  simp only [tsDescLe, Bool.or_eq_true, decide_eq_true_eq]
  omega

/-- The behaviour of the stable descending-timestamp sort: it sorts, it
keeps exactly the input elements, and within one timestamp it preserves
the input order exactly. -/
theorem stableSortSpec (l : List (ObjectId × Store.Constraint)) :
    List.Pairwise (fun a b => b.2.timestamp ≤ a.2.timestamp) (l.mergeSort tsDescLe) ∧
    (l.mergeSort tsDescLe).Perm l ∧
    (∀ t : Int, (l.mergeSort tsDescLe).filter (fun p => p.2.timestamp = t) =
      l.filter fun p => p.2.timestamp = t) := by
  refine ⟨?_, List.mergeSort_perm l tsDescLe, ?_⟩
  · have h := List.sorted_mergeSort tsDescLe_trans tsDescLe_total l
    exact h.imp fun hab => by simpa [tsDescLe] using hab
  · intro t
    have hsub : (l.filter fun p => p.2.timestamp = t).Sublist (l.mergeSort tsDescLe) := by
      apply List.mergeSort_stable tsDescLe_trans tsDescLe_total
      · apply List.pairwise_of_forall_mem_list
        intro a ha b hb
        have hat := (List.mem_filter.mp ha).2
        have hbt := (List.mem_filter.mp hb).2
        simp only [decide_eq_true_eq] at hat hbt
        simp [tsDescLe, hat, hbt]
      · exact List.filter_sublist l
    have hflt : ((l.filter fun p => p.2.timestamp = t).filter
        fun p => p.2.timestamp = t) = l.filter fun p => p.2.timestamp = t := by
      apply List.filter_eq_self.mpr
      intro a ha
      exact (List.mem_filter.mp ha).2
    have hsub2 : (l.filter fun p => p.2.timestamp = t).Sublist
        ((l.mergeSort tsDescLe).filter fun p => p.2.timestamp = t) := by
      have := List.Sublist.filter (fun p => decide (p.2.timestamp = t)) hsub
      rwa [hflt] at this
    have hperm : ((l.mergeSort tsDescLe).filter fun p => p.2.timestamp = t).Perm
        (l.filter fun p => p.2.timestamp = t) :=
      (List.mergeSort_perm l tsDescLe).filter _
    exact (hsub2.eq_of_length hperm.length_eq.symm).symm

/-- The boolean filter of `query_constraints` in logical form. -/
theorem queryCondIff (c : Store.Constraint) (target : ConstraintStatus)
    (impact : Option String) :
    (c.status = target && impact.all fun f => c.impacts.contains f) = true ↔
      (c.status = target ∧ ∀ f, impact = some f → f ∈ c.impacts) := by
  cases impact <;> simp [Option.all]

/-- C8: `query_constraints` returns exactly the stored constraints whose
status equals the requested one (defaulting to `active`, with unknown
status strings also selecting `active`) and whose impacts contain the
requested tag when one is given; the result is sorted by timestamp
descending by a stable sort (element sets, per-timestamp input order, and
sortedness all pinned down). -/
theorem c8_query_constraints (all : List (ObjectId × Store.Obj)) (impact : Option String)
    (status : Option String) :
    List.Pairwise (fun a b => b.2.timestamp ≤ a.2.timestamp)
      (queryConstraints all impact status) ∧
    (∀ id c, (id, c) ∈ queryConstraints all impact status ↔
      ((id, Store.Obj.constraint c) ∈ all ∧ c.status = statusFromStr status ∧
        ∀ f, impact = some f → f ∈ c.impacts)) ∧
    (∀ t : Int,
      (queryConstraints all impact status).filter (fun p => p.2.timestamp = t) =
        (all.filterMap fun p =>
          match p.2 with
          | .constraint c =>
            if c.status = statusFromStr status && impact.all (fun f => c.impacts.contains f) then
              some (p.1, c)
            else none
          | _ => none).filter fun p => p.2.timestamp = t) ∧
    queryConstraints all impact none = queryConstraints all impact (some "active") ∧
    (∀ s, s ≠ "superseded" → s ≠ "deprecated" →
      queryConstraints all impact (some s) = queryConstraints all impact (some "active")) := by
  obtain ⟨hsort, hperm, hstable⟩ := stableSortSpec (all.filterMap fun p =>
    match p.2 with
    | .constraint c =>
      if c.status = statusFromStr status && impact.all (fun f => c.impacts.contains f) then
        some (p.1, c)
      else none
    | _ => none)
  refine ⟨hsort, ?_, hstable, ?_, ?_⟩
  · intro id c
    rw [show (id, c) ∈ queryConstraints all impact status ↔ _ from hperm.mem_iff,
      List.mem_filterMap]
    constructor
    · rintro ⟨⟨id2, obj⟩, hmem, hf⟩
      cases obj with
      | intent o => exact absurd hf (by simp)
      | behavior_diff o => exact absurd hf (by simp)
      | intent_stream_snapshot o => exact absurd hf (by simp)
      | decision_record o => exact absurd hf (by simp)
      | code_binding o => exact absurd hf (by simp)
      | agent_operation o => exact absurd hf (by simp)
      | change_set o => exact absurd hf (by simp)
      | constraint c2 =>
        dsimp only at hf
        split at hf
        · rename_i hcond
          have hpair := Option.some.inj hf
          rw [Prod.mk.injEq] at hpair
          obtain ⟨rfl, rfl⟩ := hpair
          obtain ⟨h1, h2⟩ := (queryCondIff c2 _ impact).mp hcond
          exact ⟨hmem, h1, h2⟩
        · cases hf
    · rintro ⟨hmem, h1, h2⟩
      refine ⟨(id, Store.Obj.constraint c), hmem, ?_⟩
      dsimp only
      rw [if_pos ((queryCondIff c _ impact).mpr ⟨h1, h2⟩)]
  · rfl
  · intro s hs1 hs2
    have hst : statusFromStr (some s) = statusFromStr (some "active") := by
      unfold statusFromStr
      simp only [Option.getD_some]
      split <;> simp_all
    unfold queryConstraints
    rw [hst]

/-- C8 witness: in a concrete store, an unknown status string selects
the same results as the default `active` query. -/
theorem c8_query_constraints_witness :
    queryConstraints
        [("c1", .constraint ⟨⟨"T", "t"⟩, 5, "s", .must, .active, "i0", none, none, [], ["sec"], []⟩)]
        none (some "bogus") =
      queryConstraints
        [("c1", .constraint ⟨⟨"T", "t"⟩, 5, "s", .must, .active, "i0", none, none, [], ["sec"], []⟩)]
        none (some "active") :=
  (c8_query_constraints _ none (some "bogus")).2.2.2.2 "bogus" (by decide) (by decide)

/-! ## C4: create_intent -/

theorem checkParents_ok (db : Store.ObjStore) (ps : List ObjectId)
    (h : ∀ p ∈ ps, ∃ ii, db.lookup p = some (.intent ii)) :
    checkParents db ps = .ok () := by
  induction ps with
  | nil => rfl
  | cons p rest ih =>
    obtain ⟨ii, hl⟩ := h p (by simp)
    have hread : Store.ObjStore.read db p = .ok (.intent ii) := by
      simp [Store.ObjStore.read, hl]
    simp only [checkParents, hread]
    exact ih fun q hq => h q (by simp [hq])

theorem checkParents_bad (db : Store.ObjStore) (ps : List ObjectId)
    (hres : ∀ p ∈ ps, ∃ o, db.lookup p = some o)
    (hbad : ∃ p ∈ ps, ∀ ii, db.lookup p ≠ some (.intent ii)) :
    ∃ msg, checkParents db ps = .error (.InvalidReference msg) := by
  induction ps with
  | nil => simp at hbad
  | cons p rest ih =>
    obtain ⟨o, ho⟩ := hres p (by simp)
    cases o with
    | intent ii =>
      have hread : Store.ObjStore.read db p = .ok (.intent ii) := by
        simp [Store.ObjStore.read, ho]
      simp only [checkParents, hread]
      apply ih
      · exact fun q hq => hres q (by simp [hq])
      · obtain ⟨q, hq, hqbad⟩ := hbad
        rcases List.mem_cons.mp hq with rfl | hq2
        · exact absurd ho (hqbad ii)
        · exact ⟨q, hq2, hqbad⟩
    | behavior_diff o =>
      exact ⟨_, by simp only [checkParents, Store.ObjStore.read, ho]; rfl⟩
    | intent_stream_snapshot o =>
      exact ⟨_, by simp only [checkParents, Store.ObjStore.read, ho]; rfl⟩
    | decision_record o =>
      exact ⟨_, by simp only [checkParents, Store.ObjStore.read, ho]; rfl⟩
    | constraint o =>
      exact ⟨_, by simp only [checkParents, Store.ObjStore.read, ho]; rfl⟩
    | code_binding o =>
      exact ⟨_, by simp only [checkParents, Store.ObjStore.read, ho]; rfl⟩
    | agent_operation o =>
      exact ⟨_, by simp only [checkParents, Store.ObjStore.read, ho]; rfl⟩
    | change_set o =>
      exact ⟨_, by simp only [checkParents, Store.ObjStore.read, ho]; rfl⟩

/-- C4: in a repository whose `HEAD` resolves to an existing,
well-formed stream record, `create_intent` with parents that all resolve
to stored intents returns the new object's content id, and afterwards
the current stream's tip is that id while the stream's name, `created_at`
and `description` are unchanged; and when the parents all resolve but
some parent is an object of a different tag, it fails with
`InvalidReference`. -/
theorem c4_create_intent (hashFn : Store.Obj → ObjectId) (i : Store.Intent) (st : RepoState)
    (n : String) (r : IntentStreamRef)
    (hh : readHead st.refs = .ok n)
    (hr : st.refs.streams.lookup n = some r)
    (hname : r.name = n)
    (hvalid : validateStreamName n = .ok ()) :
    ((∀ p ∈ i.parents, ∃ ii, st.odb.lookup p = some (.intent ii)) →
      ∃ st2, createIntent hashFn i st = .ok (hashFn (.intent i), st2) ∧
        readHead st2.refs = .ok n ∧
        readStream n st2.refs = .ok { r with tip := some (hashFn (.intent i)) }) ∧
    ((∀ p ∈ i.parents, ∃ o, st.odb.lookup p = some o) →
      (∃ p ∈ i.parents, ∀ ii, st.odb.lookup p ≠ some (.intent ii)) →
      ∃ msg, createIntent hashFn i st = .error (.InvalidReference msg)) := by
  constructor
  · intro hpar
    have hcp := checkParents_ok st.odb i.parents hpar
    have hread : readStream n st.refs = .ok r := by simp [readStream, hr]
    have hrn : ({ r with tip := some (hashFn (.intent i)) } : IntentStreamRef).name = n := hname
    have hws : writeStream { r with tip := some (hashFn (.intent i)) } st.refs =
        .ok { st.refs with
              streams := upsert n { r with tip := some (hashFn (.intent i)) } st.refs.streams } := by
      unfold writeStream
      rw [hrn, hvalid]
      rfl
    have hut : updateCurrentTip (hashFn (.intent i)) st.refs =
        .ok { st.refs with
              streams := upsert n { r with tip := some (hashFn (.intent i)) } st.refs.streams } := by
      unfold updateCurrentTip
      rw [hh]
      simp only [bind, Except.bind, hread, hws]
    refine ⟨{ odb := (Store.ObjStore.write hashFn st.odb (.intent i)).2,
              refs := { st.refs with
                streams := upsert n { r with tip := some (hashFn (.intent i)) } st.refs.streams },
              indexes := updateForObject (hashFn (.intent i)) (.intent i) st.indexes },
            ?_, ?_, ?_⟩
    · unfold createIntent
      rw [hcp]
      simp only [bind, Except.bind, pure, Except.pure, Store.ObjStore.write, hut]
    · exact hh
    · rw [readStream]
      simp only []
      rw [lookup_upsert]
  · intro hres hbad
    obtain ⟨msg, hcp⟩ := checkParents_bad st.odb i.parents hres hbad
    refine ⟨msg, ?_⟩
    unfold createIntent
    rw [hcp]
    rfl

/-- C4 witness: in a freshly initialised repository, creating a
parentless intent advances the `main` tip to the new id and leaves the
stream's other fields unchanged. -/
theorem c4_create_intent_witness :
    ∃ st2,
      createIntent (fun _ => "aa11")
          ⟨⟨"T", "t"⟩, 7, "first", [], [], [], [], none, []⟩
          ⟨[], initRefState 0, ⟨none, none, none⟩⟩ =
        .ok ("aa11", st2) ∧
      readHead st2.refs = .ok "main" ∧
      readStream "main" st2.refs =
        .ok ⟨"main", some "aa11", 0, some "Default intent stream"⟩ :=
  (c4_create_intent (fun _ => "aa11") ⟨⟨"T", "t"⟩, 7, "first", [], [], [], [], none, []⟩
      ⟨[], initRefState 0, ⟨none, none, none⟩⟩ "main"
      ⟨"main", none, 0, some "Default intent stream"⟩ rfl rfl rfl rfl).1
    (by simp)

/-! ## C9: index rebuild vs incremental updates -/

theorem lookup_pushEntry (key k : String) (e : α) (m : List (String × List α)) :
    ((pushEntry k e m).lookup key).getD [] =
      (m.lookup key).getD [] ++ (if k = key then [e] else []) := by
  induction m with
  | nil =>
    by_cases h : k = key
    · subst h
      simp [pushEntry, List.lookup]
    · simp [pushEntry, List.lookup, h, beq_eq_false_iff_ne.mpr (Ne.symm h)]
  | cons hd rest ih =>
    obtain ⟨k2, vs⟩ := hd
    by_cases h2 : k2 = k
    · subst h2
      by_cases h : k2 = key
      · subst h
        simp [pushEntry, List.lookup]
      · simp [pushEntry, List.lookup, h, beq_eq_false_iff_ne.mpr (Ne.symm h)]
    · by_cases h : k2 = key
      · subst h
        have hne : k ≠ k2 := Ne.symm h2
        simp [pushEntry, h2, List.lookup, hne]
      · simp [pushEntry, h2, List.lookup, beq_eq_false_iff_ne.mpr (Ne.symm h), ih]

theorem lookup_pushEntries (keys : List String) (e : α) (m : List (String × List α))
    (key : String) :
    ((pushEntries keys e m).lookup key).getD [] =
      (m.lookup key).getD [] ++ (keys.filter fun t => t = key).map fun _ => e := by
  induction keys generalizing m with
  | nil => simp [pushEntries]
  | cons t ts ih =>
    have hstep : pushEntries (t :: ts) e m = pushEntries ts e (pushEntry t e m) := rfl
    rw [hstep, ih, lookup_pushEntry]
    by_cases h : t = key
    · simp [h, List.filter]
    · simp [h, List.filter]

/-- One incremental update appends exactly its per-key contributions. -/
theorem entriesAt_updateForObject (key : String) (id : ObjectId) (obj : Store.Obj)
    (st : IndexState) :
    entriesAt key (updateForObject id obj st).impact =
        entriesAt key st.impact ++ contribImpact key (id, obj) ∧
    entriesAt key (updateForObject id obj st).codepath =
        entriesAt key st.codepath ++ contribPath key (id, obj) ∧
    entriesAt key (updateForObject id obj st).symbols =
        entriesAt key st.symbols ++ contribSym key (id, obj) := by
  cases obj with
  | intent i =>
    by_cases hi : i.impacts.isEmpty
    · rw [List.isEmpty_iff] at hi
      simp [updateForObject, hi, contribImpact, contribPath, contribSym]
    · refine ⟨?_, ?_, ?_⟩ <;>
        simp [updateForObject, hi, contribImpact, contribPath, contribSym, entriesAt,
          lookup_pushEntries, loadIndex]
  | constraint c =>
    by_cases hc : c.impacts.isEmpty
    · rw [List.isEmpty_iff] at hc
      simp [updateForObject, hc, contribImpact, contribPath, contribSym]
    · refine ⟨?_, ?_, ?_⟩ <;>
        simp [updateForObject, hc, contribImpact, contribPath, contribSym, entriesAt,
          lookup_pushEntries, loadIndex]
  | code_binding cb =>
    cases hsym : cb.symbol with
    | none =>
      refine ⟨?_, ?_, ?_⟩ <;>
        simp [updateForObject, hsym, contribImpact, contribPath, contribSym, entriesAt,
          lookup_pushEntry, loadIndex, cbEntry]
    | some sym =>
      refine ⟨?_, ?_, ?_⟩ <;>
        simp [updateForObject, hsym, contribImpact, contribPath, contribSym, entriesAt,
          lookup_pushEntry, loadIndex, cbEntry]
  | behavior_diff o =>
    simp [updateForObject, contribImpact, contribPath, contribSym]
  | intent_stream_snapshot o =>
    simp [updateForObject, contribImpact, contribPath, contribSym]
  | decision_record o =>
    simp [updateForObject, contribImpact, contribPath, contribSym]
  | agent_operation o =>
    simp [updateForObject, contribImpact, contribPath, contribSym]
  | change_set o =>
    simp [updateForObject, contribImpact, contribPath, contribSym]

/-- The incremental history appends, per key, the concatenation of each
write's contribution, in write order. -/
theorem entriesAt_applyUpdates_from (ws : List (ObjectId × Store.Obj)) (st : IndexState)
    (key : String) :
    entriesAt key (ws.foldl (fun st p => updateForObject p.1 p.2 st) st).impact =
        entriesAt key st.impact ++ ws.flatMap (contribImpact key) ∧
    entriesAt key (ws.foldl (fun st p => updateForObject p.1 p.2 st) st).codepath =
        entriesAt key st.codepath ++ ws.flatMap (contribPath key) ∧
    entriesAt key (ws.foldl (fun st p => updateForObject p.1 p.2 st) st).symbols =
        entriesAt key st.symbols ++ ws.flatMap (contribSym key) := by
  induction ws generalizing st with
  | nil => simp
  | cons p rest ih =>
    obtain ⟨h1, h2, h3⟩ := entriesAt_updateForObject key p.1 p.2 st
    obtain ⟨g1, g2, g3⟩ := ih (updateForObject p.1 p.2 st)
    refine ⟨?_, ?_, ?_⟩ <;>
      simp [List.foldl_cons, g1, g2, g3, h1, h2, h3]

/-- The rebuild fold appends, per key, the same contributions in odb
order. -/
theorem rebuild_fold_entries (S : List (ObjectId × Store.Obj))
    (acc : IndexFile IndexEntry × IndexFile PathIndexEntry × IndexFile PathIndexEntry)
    (key : String) :
    (((S.foldl rebuildStep acc).1.entries.lookup key).getD [] =
        (acc.1.entries.lookup key).getD [] ++ S.flatMap (contribImpact key)) ∧
    (((S.foldl rebuildStep acc).2.1.entries.lookup key).getD [] =
        (acc.2.1.entries.lookup key).getD [] ++ S.flatMap (contribPath key)) ∧
    (((S.foldl rebuildStep acc).2.2.entries.lookup key).getD [] =
        (acc.2.2.entries.lookup key).getD [] ++ S.flatMap (contribSym key)) := by
  induction S generalizing acc with
  | nil => simp
  | cons p rest ih =>
    obtain ⟨g1, g2, g3⟩ := ih (rebuildStep acc p)
    have hstep :
        ((rebuildStep acc p).1.entries.lookup key).getD [] =
            (acc.1.entries.lookup key).getD [] ++ contribImpact key p ∧
        ((rebuildStep acc p).2.1.entries.lookup key).getD [] =
            (acc.2.1.entries.lookup key).getD [] ++ contribPath key p ∧
        ((rebuildStep acc p).2.2.entries.lookup key).getD [] =
            (acc.2.2.entries.lookup key).getD [] ++ contribSym key p := by
      obtain ⟨acc1, acc2, acc3⟩ := acc
      obtain ⟨id, obj⟩ := p
      cases obj with
      | intent i =>
        refine ⟨?_, ?_, ?_⟩ <;>
          simp [rebuildStep, contribImpact, contribPath, contribSym, lookup_pushEntries]
      | constraint c =>
        refine ⟨?_, ?_, ?_⟩ <;>
          simp [rebuildStep, contribImpact, contribPath, contribSym, lookup_pushEntries]
      | code_binding cb =>
        cases hsym : cb.symbol with
        | none =>
          refine ⟨?_, ?_, ?_⟩ <;>
            simp [rebuildStep, hsym, contribImpact, contribPath, contribSym, lookup_pushEntry,
              cbEntry]
        | some sym =>
          refine ⟨?_, ?_, ?_⟩ <;>
            simp [rebuildStep, hsym, contribImpact, contribPath, contribSym, lookup_pushEntry,
              cbEntry]
      | behavior_diff o => simp [rebuildStep, contribImpact, contribPath, contribSym]
      | intent_stream_snapshot o => simp [rebuildStep, contribImpact, contribPath, contribSym]
      | decision_record o => simp [rebuildStep, contribImpact, contribPath, contribSym]
      | agent_operation o => simp [rebuildStep, contribImpact, contribPath, contribSym]
      | change_set o => simp [rebuildStep, contribImpact, contribPath, contribSym]
    refine ⟨?_, ?_, ?_⟩ <;>
      simp [List.foldl_cons, g1, g2, g3, hstep.1, hstep.2.1, hstep.2.2]

theorem perm_flatMap {α β : Type} (f : α → List β) {l1 l2 : List α} (h : l1.Perm l2) :
    (l1.flatMap f).Perm (l2.flatMap f) := by
  rw [List.flatMap_def, List.flatMap_def]
  exact (h.map f).join

/-- Keys of a map after a push: unchanged when the key was present,
extended by it otherwise. -/
theorem keys_pushEntry (k : String) (e : α) (m : List (String × List α)) :
    (pushEntry k e m).map Prod.fst =
      if k ∈ m.map Prod.fst then m.map Prod.fst else m.map Prod.fst ++ [k] := by
  induction m with
  | nil => simp [pushEntry]
  | cons hd rest ih =>
    obtain ⟨k2, vs⟩ := hd
    by_cases h2 : k2 = k
    · subst h2
      simp [pushEntry]
    · simp only [pushEntry, if_neg h2, List.map_cons, List.mem_cons]
      rw [ih]
      by_cases hm : k ∈ rest.map Prod.fst
      · simp [hm, Ne.symm h2]
      · simp [hm, Ne.symm h2]

theorem keys_pushEntry_nodup_toFinset (k : String) (e : α) (m : List (String × List α))
    (h : (m.map Prod.fst).Nodup) :
    ((pushEntry k e m).map Prod.fst).Nodup ∧
      ((pushEntry k e m).map Prod.fst).toFinset = insert k (m.map Prod.fst).toFinset := by
  rw [keys_pushEntry]
  by_cases hm : k ∈ m.map Prod.fst
  · rw [if_pos hm]
    exact ⟨h, (Finset.insert_eq_self.mpr (List.mem_toFinset.mpr hm)).symm⟩
  · rw [if_neg hm]
    constructor
    · simp [List.nodup_append, h, hm]
    · rw [List.toFinset_append, show ([k] : List String).toFinset = {k} from rfl,
        Finset.union_comm, Finset.insert_eq]

theorem keys_pushEntries_nodup_toFinset (keys : List String) (e : α)
    (m : List (String × List α)) (h : (m.map Prod.fst).Nodup) :
    ((pushEntries keys e m).map Prod.fst).Nodup ∧
      ((pushEntries keys e m).map Prod.fst).toFinset =
        (m.map Prod.fst).toFinset ∪ keys.toFinset := by
  induction keys generalizing m with
  | nil => simpa [pushEntries] using h
  | cons t ts ih =>
    have hstep : pushEntries (t :: ts) e m = pushEntries ts e (pushEntry t e m) := rfl
    obtain ⟨hn, hf⟩ := keys_pushEntry_nodup_toFinset t e m h
    obtain ⟨gn, gf⟩ := ih (pushEntry t e m) hn
    rw [hstep]
    refine ⟨gn, ?_⟩
    rw [gf, hf]
    simp only [List.toFinset_cons]
    rw [Finset.insert_union, Finset.union_insert]

/-- Keys accumulated by the rebuild fold: nodup, and exactly the keys the
objects mention. -/
theorem keys_rebuild_fold (S : List (ObjectId × Store.Obj))
    (acc : IndexFile IndexEntry × IndexFile PathIndexEntry × IndexFile PathIndexEntry)
    (h1 : (acc.1.entries.map Prod.fst).Nodup)
    (h2 : (acc.2.1.entries.map Prod.fst).Nodup)
    (h3 : (acc.2.2.entries.map Prod.fst).Nodup) :
    (((S.foldl rebuildStep acc).1.entries.map Prod.fst).Nodup ∧
      ((S.foldl rebuildStep acc).1.entries.map Prod.fst).toFinset =
        (acc.1.entries.map Prod.fst).toFinset ∪ (S.flatMap impactKeysOf).toFinset) ∧
    (((S.foldl rebuildStep acc).2.1.entries.map Prod.fst).Nodup ∧
      ((S.foldl rebuildStep acc).2.1.entries.map Prod.fst).toFinset =
        (acc.2.1.entries.map Prod.fst).toFinset ∪ (S.flatMap pathKeysOf).toFinset) ∧
    (((S.foldl rebuildStep acc).2.2.entries.map Prod.fst).Nodup ∧
      ((S.foldl rebuildStep acc).2.2.entries.map Prod.fst).toFinset =
        (acc.2.2.entries.map Prod.fst).toFinset ∪ (S.flatMap symKeysOf).toFinset) := by
  induction S generalizing acc with
  | nil => simp [h1, h2, h3]
  | cons p rest ih =>
    have hstep :
        ((rebuildStep acc p).1.entries.map Prod.fst).Nodup ∧
        ((rebuildStep acc p).1.entries.map Prod.fst).toFinset =
          (acc.1.entries.map Prod.fst).toFinset ∪ (impactKeysOf p).toFinset ∧
        ((rebuildStep acc p).2.1.entries.map Prod.fst).Nodup ∧
        ((rebuildStep acc p).2.1.entries.map Prod.fst).toFinset =
          (acc.2.1.entries.map Prod.fst).toFinset ∪ (pathKeysOf p).toFinset ∧
        ((rebuildStep acc p).2.2.entries.map Prod.fst).Nodup ∧
        ((rebuildStep acc p).2.2.entries.map Prod.fst).toFinset =
          (acc.2.2.entries.map Prod.fst).toFinset ∪ (symKeysOf p).toFinset := by
      obtain ⟨acc1, acc2, acc3⟩ := acc
      obtain ⟨id, obj⟩ := p
      cases obj with
      | intent i =>
        obtain ⟨hn, hf⟩ := keys_pushEntries_nodup_toFinset i.impacts
          (⟨id, "intent"⟩ : IndexEntry) acc1.entries h1
        exact ⟨hn, by simpa [rebuildStep, impactKeysOf] using hf,
          h2, by simp [rebuildStep, pathKeysOf],
          h3, by simp [rebuildStep, symKeysOf]⟩
      | constraint c =>
        obtain ⟨hn, hf⟩ := keys_pushEntries_nodup_toFinset c.impacts
          (⟨id, "constraint"⟩ : IndexEntry) acc1.entries h1
        exact ⟨hn, by simpa [rebuildStep, impactKeysOf] using hf,
          h2, by simp [rebuildStep, pathKeysOf],
          h3, by simp [rebuildStep, symKeysOf]⟩
      | code_binding cb =>
        obtain ⟨hn, hf⟩ := keys_pushEntry_nodup_toFinset cb.path (cbEntry id cb) acc2.entries h2
        cases hsym : cb.symbol with
        | none =>
          simp only [cbEntry, hsym] at hn hf
          refine ⟨?_, (?_), ?_, ?_, ?_, ?_⟩
          · simpa [rebuildStep, hsym] using h1
          · simp [rebuildStep, hsym, impactKeysOf]
          · simpa [rebuildStep, hsym] using hn
          · simp only [rebuildStep, hsym]
            rw [hf]
            simp [pathKeysOf, Finset.union_comm, Finset.insert_eq]
          · simpa [rebuildStep, hsym] using h3
          · simp [rebuildStep, hsym, symKeysOf]
        | some sym =>
          obtain ⟨gn, gf⟩ := keys_pushEntry_nodup_toFinset sym (cbEntry id cb) acc3.entries h3
          simp only [cbEntry, hsym] at hn hf gn gf
          refine ⟨?_, (?_), ?_, ?_, ?_, ?_⟩
          · simpa [rebuildStep, hsym] using h1
          · simp [rebuildStep, hsym, impactKeysOf]
          · simpa [rebuildStep, hsym] using hn
          · simp only [rebuildStep, hsym]
            rw [hf]
            simp [pathKeysOf, Finset.union_comm, Finset.insert_eq]
          · simpa [rebuildStep, hsym] using gn
          · simp only [rebuildStep, hsym]
            rw [gf]
            simp [symKeysOf, hsym, Finset.union_comm, Finset.insert_eq]
      | behavior_diff o =>
        exact ⟨h1, by simp [rebuildStep, impactKeysOf], h2, by simp [rebuildStep, pathKeysOf],
          h3, by simp [rebuildStep, symKeysOf]⟩
      | intent_stream_snapshot o =>
        exact ⟨h1, by simp [rebuildStep, impactKeysOf], h2, by simp [rebuildStep, pathKeysOf],
          h3, by simp [rebuildStep, symKeysOf]⟩
      | decision_record o =>
        exact ⟨h1, by simp [rebuildStep, impactKeysOf], h2, by simp [rebuildStep, pathKeysOf],
          h3, by simp [rebuildStep, symKeysOf]⟩
      | agent_operation o =>
        exact ⟨h1, by simp [rebuildStep, impactKeysOf], h2, by simp [rebuildStep, pathKeysOf],
          h3, by simp [rebuildStep, symKeysOf]⟩
      | change_set o =>
        exact ⟨h1, by simp [rebuildStep, impactKeysOf], h2, by simp [rebuildStep, pathKeysOf],
          h3, by simp [rebuildStep, symKeysOf]⟩
    obtain ⟨s1, s2, s3, s4, s5, s6⟩ := hstep
    obtain ⟨⟨g1, g2⟩, ⟨g3, g4⟩, g5, g6⟩ := ih (rebuildStep acc p) s1 s3 s5
    refine ⟨⟨g1, ?_⟩, ⟨g3, ?_⟩, g5, ?_⟩
    · rw [List.foldl_cons, g2, s2]
      simp [List.flatMap_cons, List.toFinset_append, Finset.union_assoc]
    · rw [List.foldl_cons, g4, s4]
      simp [List.flatMap_cons, List.toFinset_append, Finset.union_assoc]
    · rw [List.foldl_cons, g6, s6]
      simp [List.flatMap_cons, List.toFinset_append, Finset.union_assoc]

/-- C9 counterexample: writing the same object twice makes the
incremental index hold its entry twice while `rebuild_all` of the
resulting store holds it once — not equal even modulo ordering. -/
theorem c9_rebuild_counterexample :
    entriesAt "t"
        (applyUpdates
          [("a1", .intent ⟨⟨"T", "t"⟩, 0, "s", [], [], [], ["t"], none, []⟩),
           ("a1", .intent ⟨⟨"T", "t"⟩, 0, "s", [], [], [], ["t"], none, []⟩)]).impact =
      [⟨"a1", "intent"⟩, ⟨"a1", "intent"⟩] ∧
    entriesAt "t"
        (rebuildAll
          [("a1", .intent ⟨⟨"T", "t"⟩, 0, "s", [], [], [], ["t"], none, []⟩)]).1.impact =
      [⟨"a1", "intent"⟩] ∧
    ¬ (([⟨"a1", "intent"⟩, ⟨"a1", "intent"⟩] : List IndexEntry).Perm [⟨"a1", "intent"⟩]) := by
  refine ⟨by decide, by decide, ?_⟩
  intro h
  have := h.length_eq
  simp at this

/-- C9 (amended): for a sequence of object writes no two of which write
the same object — so that the odb listing is a permutation of the write
sequence — `rebuild_all` produces, at every key of each of the three
indexes, the same entry list as the incremental `update_for_object`
history up to ordering within the list; and the returned triple is the
number of distinct impact, path and symbol keys among the stored
objects. -/
theorem c9_rebuild_amended (ws S : List (ObjectId × Store.Obj)) (hperm : ws.Perm S) :
    (∀ key,
      (entriesAt key (applyUpdates ws).impact).Perm
        (entriesAt key (rebuildAll S).1.impact) ∧
      (entriesAt key (applyUpdates ws).codepath).Perm
        (entriesAt key (rebuildAll S).1.codepath) ∧
      (entriesAt key (applyUpdates ws).symbols).Perm
        (entriesAt key (rebuildAll S).1.symbols)) ∧
    (rebuildAll S).2.1 = (S.flatMap impactKeysOf).toFinset.card ∧
    (rebuildAll S).2.2.1 = (S.flatMap pathKeysOf).toFinset.card ∧
    (rebuildAll S).2.2.2 = (S.flatMap symKeysOf).toFinset.card := by
  constructor
  · intro key
    obtain ⟨a1, a2, a3⟩ := entriesAt_applyUpdates_from ws ⟨none, none, none⟩ key
    obtain ⟨b1, b2, b3⟩ :=
      rebuild_fold_entries S (IndexFile.empty, IndexFile.empty, IndexFile.empty) key
    refine ⟨?_, ?_, ?_⟩
    · rw [show applyUpdates ws = ws.foldl (fun st p => updateForObject p.1 p.2 st)
          ⟨none, none, none⟩ from rfl, a1]
      rw [show entriesAt key (rebuildAll S).1.impact =
          ((((S.foldl rebuildStep
            (IndexFile.empty, IndexFile.empty, IndexFile.empty)).1.entries.lookup
            key).getD [])) from rfl, b1]
      exact perm_flatMap _ hperm
    · rw [show applyUpdates ws = ws.foldl (fun st p => updateForObject p.1 p.2 st)
          ⟨none, none, none⟩ from rfl, a2]
      rw [show entriesAt key (rebuildAll S).1.codepath =
          ((((S.foldl rebuildStep
            (IndexFile.empty, IndexFile.empty, IndexFile.empty)).2.1.entries.lookup
            key).getD [])) from rfl, b2]
      exact perm_flatMap _ hperm
    · rw [show applyUpdates ws = ws.foldl (fun st p => updateForObject p.1 p.2 st)
          ⟨none, none, none⟩ from rfl, a3]
      rw [show entriesAt key (rebuildAll S).1.symbols =
          ((((S.foldl rebuildStep
            (IndexFile.empty, IndexFile.empty, IndexFile.empty)).2.2.entries.lookup
            key).getD [])) from rfl, b3]
      exact perm_flatMap _ hperm
  · obtain ⟨⟨k1, k2⟩, ⟨k3, k4⟩, k5, k6⟩ :=
      keys_rebuild_fold S (IndexFile.empty, IndexFile.empty, IndexFile.empty)
        (by simp [IndexFile.empty]) (by simp [IndexFile.empty]) (by simp [IndexFile.empty])
    refine ⟨?_, ?_, ?_⟩
    · rw [show (rebuildAll S).2.1 =
          (S.foldl rebuildStep
            (IndexFile.empty, IndexFile.empty, IndexFile.empty)).1.entries.length from rfl]
      rw [← List.length_map _ Prod.fst, ← List.toFinset_card_of_nodup k1, k2]
      simp [IndexFile.empty]
    · rw [show (rebuildAll S).2.2.1 =
          (S.foldl rebuildStep
            (IndexFile.empty, IndexFile.empty, IndexFile.empty)).2.1.entries.length from rfl]
      rw [← List.length_map _ Prod.fst, ← List.toFinset_card_of_nodup k3, k4]
      simp [IndexFile.empty]
    · rw [show (rebuildAll S).2.2.2 =
          (S.foldl rebuildStep
            (IndexFile.empty, IndexFile.empty, IndexFile.empty)).2.2.entries.length from rfl]
      rw [← List.length_map _ Prod.fst, ← List.toFinset_card_of_nodup k5, k6]
      simp [IndexFile.empty]

/-- C9 amended witness: a two-object distinct write history produces, at
the key both objects mention, the same entries (up to order) as the
rebuild of the permuted store listing. -/
theorem c9_rebuild_amended_witness :
    (entriesAt "t"
        (applyUpdates
          [("a1", .intent ⟨⟨"T", "t"⟩, 0, "s", [], [], [], ["t"], none, []⟩),
           ("b2",
            .constraint ⟨⟨"T", "t"⟩, 1, "c", .must, .active, "i0", none, none, [], ["t"], []⟩)]).impact).Perm
      (entriesAt "t"
        (rebuildAll
          [("b2",
            .constraint ⟨⟨"T", "t"⟩, 1, "c", .must, .active, "i0", none, none, [], ["t"], []⟩),
           ("a1", .intent ⟨⟨"T", "t"⟩, 0, "s", [], [], [], ["t"], none, []⟩)]).1.impact) :=
  ((c9_rebuild_amended _ _ (List.Perm.swap _ _ _)).1 "t").1

/-! ## C3: the intent walker -/

theorem lookup_mem {α : Type} {k : String} {v : α} {l : List (String × α)}
    (h : l.lookup k = some v) : (k, v) ∈ l := by
  induction l with
  | nil => cases h
  | cons hd t ih =>
    obtain ⟨k2, v2⟩ := hd
    by_cases hk : k = k2
    · subst hk
      simp [List.lookup] at h
      simp [h]
    · rw [List.lookup_cons] at h
      rw [show (k == k2) = false from beq_eq_false_iff_ne.mpr hk] at h
      exact List.mem_cons_of_mem _ (ih h)

theorem reachable_trans {db : Store.ObjStore} {a b c : ObjectId}
    (h1 : Reachable db a b) (h2 : Reachable db b c) : Reachable db a c := by
  induction h2 with
  | refl => exact h1
  | step hr hlook hpar ih => exact .step ih hlook hpar

theorem enqueueParents_spec (ps : List ObjectId) (q : List ObjectId) (v : List String) :
    ∃ np, enqueueParents ps (q, v) = (q ++ np, np.reverse ++ v) ∧ np.Nodup ∧
      ∀ x, x ∈ np ↔ x ∈ ps ∧ x ∉ v := by
  induction ps generalizing q v with
  | nil => exact ⟨[], by simp [enqueueParents], by simp, by simp⟩
  | cons p rest ih =>
    have hstep : enqueueParents (p :: rest) (q, v) =
        enqueueParents rest (if p ∈ v then (q, v) else (q ++ [p], p :: v)) := by
      by_cases hp : p ∈ v
      · simp [enqueueParents, hp]
      · simp [enqueueParents, hp]
    by_cases hp : p ∈ v
    · rw [hstep, if_pos hp]
      obtain ⟨np, heq, hnd, hmem⟩ := ih q v
      refine ⟨np, heq, hnd, fun x => ?_⟩
      rw [hmem x]
      constructor
      · rintro ⟨hx, hxv⟩
        exact ⟨by simp [hx], hxv⟩
      · rintro ⟨hx, hxv⟩
        rcases List.mem_cons.mp hx with rfl | hx2
        · exact absurd hp hxv
        · exact ⟨hx2, hxv⟩
    · rw [hstep, if_neg hp]
      obtain ⟨np, heq, hnd, hmem⟩ := ih (q ++ [p]) (p :: v)
      refine ⟨p :: np, ?_, ?_, ?_⟩
      · rw [heq, Prod.mk.injEq]
        constructor
        · simp
        · simp
      · rw [List.nodup_cons]
        refine ⟨fun hpn => ?_, hnd⟩
        exact ((hmem p).mp hpn).2 (by simp)
      · intro x
        constructor
        · intro hx
          rcases List.mem_cons.mp hx with rfl | hx2
          · exact ⟨by simp, hp⟩
          · obtain ⟨hr, hnv⟩ := (hmem x).mp hx2
            exact ⟨by simp [hr], fun hv => hnv (by simp [hv])⟩
        · rintro ⟨hx, hxv⟩
          rcases List.mem_cons.mp hx with rfl | hx2
          · exact List.mem_cons_self _ _
          · by_cases hxp : x = p
            · subst hxp
              exact List.mem_cons_self _ _
            · refine List.mem_cons_of_mem _ ((hmem x).mpr ⟨hx2, fun hv => ?_⟩)
              rcases List.mem_cons.mp hv with h | h
              · exact hxp h
              · exact hxv h

theorem walkerNext_missing (db : Store.ObjStore) (id : ObjectId) (q : List ObjectId)
    (v : List String) (h : db.lookup id = none) :
    walkerNext db ⟨id :: q, v⟩ = some (.error (.ObjectNotFound id), ⟨q, v⟩) := by
  simp [walkerNext, walkerNextQ, Store.ObjStore.read, h]

theorem walkerNext_skip (db : Store.ObjStore) (id : ObjectId) (q : List ObjectId)
    (v : List String) (o : Store.Obj) (h : db.lookup id = some o)
    (hni : ∀ i, o ≠ .intent i) :
    walkerNext db ⟨id :: q, v⟩ = walkerNext db ⟨q, v⟩ := by
  cases o with
  | intent i => exact absurd rfl (hni i)
  | behavior_diff o => simp [walkerNext, walkerNextQ, Store.ObjStore.read, h]
  | intent_stream_snapshot o => simp [walkerNext, walkerNextQ, Store.ObjStore.read, h]
  | decision_record o => simp [walkerNext, walkerNextQ, Store.ObjStore.read, h]
  | constraint o => simp [walkerNext, walkerNextQ, Store.ObjStore.read, h]
  | code_binding o => simp [walkerNext, walkerNextQ, Store.ObjStore.read, h]
  | agent_operation o => simp [walkerNext, walkerNextQ, Store.ObjStore.read, h]
  | change_set o => simp [walkerNext, walkerNextQ, Store.ObjStore.read, h]

theorem walkerNext_intent (db : Store.ObjStore) (id : ObjectId) (q q2 : List ObjectId)
    (v v2 : List String) (i : Store.Intent) (h : db.lookup id = some (.intent i))
    (henq : enqueueParents i.parents (q, v) = (q2, v2)) :
    walkerNext db ⟨id :: q, v⟩ = some (.ok (id, i), ⟨q2, v2⟩) := by
  simp [walkerNext, walkerNextQ, Store.ObjStore.read, h, henq]

theorem walkRun_cons (db : Store.ObjStore) (fuel : Nat) (w : Walker)
    (item : Except StoreError (ObjectId × Store.Intent)) (w2 : Walker)
    (h : walkerNext db w = some (item, w2)) :
    walkRun db (fuel + 1) w = item :: walkRun db fuel w2 := by
  simp [walkRun, h]

/-- Reachability out of the already-yielded set must pass through the
queue: the parents of every yielded intent are visited, and every
visited id is yielded or queued. -/
theorem reach_exits_done (db : Store.ObjStore) (queue : List ObjectId)
    (visited D : List String)
    (hVDQ : ∀ x ∈ visited, x ∈ D ∨ x ∈ queue)
    (hexp : ∀ d ∈ D, ∀ i, db.lookup d = some (.intent i) → ∀ p ∈ i.parents, p ∈ visited) :
    ∀ p x, p ∈ D → Reachable db p x → x ∉ D → ∃ q ∈ queue, Reachable db q x := by
  intro p x hp hreach
  induction hreach with
  | refl => exact fun hx => absurd hp hx
  | step hr hlook hpar ih =>
    intro hx
    rename_i y x2 i
    by_cases hy : y ∈ D
    · have hxv := hexp y hy i hlook x2 hpar
      rcases hVDQ x2 hxv with hxD | hxQ
      · exact absurd hxD hx
      · exact ⟨x2, hxQ, .refl⟩
    · obtain ⟨q, hq, hrq⟩ := ih hy
      exact ⟨q, hq, .step hrq hlook hpar⟩

/-- The BFS run on a clean reachable set: every item is a stored intent,
no id is yielded twice, and the yielded ids are exactly the ids
reachable from the queue and not yet yielded. -/
theorem walkRun_clean (db : Store.ObjStore) (start : ObjectId)
    (hclean : ∀ x, Reachable db start x → ∃ i, db.lookup x = some (.intent i)) :
    ∀ (fuel : Nat) (w : Walker) (D : List String), WalkerInv db start w D →
      walkerMeasure db start w ≤ fuel →
      (∀ r ∈ walkRun db fuel w, ∃ id i, r = .ok (id, i) ∧ db.lookup id = some (.intent i)) ∧
      (okIds (walkRun db fuel w)).Nodup ∧
      (∀ x, x ∈ okIds (walkRun db fuel w) ↔
        ((∃ q ∈ w.queue, Reachable db q x) ∧ x ∉ D)) := by
  intro fuel
  induction fuel with
  | zero =>
    intro w D hinv hm
    have hq : w.queue = [] := by
      simp only [walkerMeasure] at hm
      exact List.length_eq_zero.mp (by omega)
    simp only [walkRun]
    refine ⟨by simp, by simp [okIds], fun x => ?_⟩
    simp [okIds, hq]
  | succ fuel ih =>
    intro w D hinv hm
    obtain ⟨inv1, inv2, inv3, inv4, inv5, inv6, inv7⟩ := hinv
    obtain ⟨queue, v⟩ := w
    cases queue with
    | nil =>
      have hnone : walkerNext db ⟨[], v⟩ = none := rfl
      simp only [walkRun, hnone]
      refine ⟨by simp, by simp [okIds], fun x => ?_⟩
      simp [okIds]
    | cons a rest =>
      have hidv : a ∈ v := inv1 a (by simp)
      have hidreach : Reachable db start a := inv5 a hidv
      obtain ⟨i, hlook⟩ := hclean a hidreach
      obtain ⟨np, henq, hnpnd, hnpmem⟩ := enqueueParents_spec i.parents rest v
      have hnext := walkerNext_intent db a rest (rest ++ np) v (np.reverse ++ v) i hlook henq
      have hrun := walkRun_cons db fuel ⟨a :: rest, v⟩ _ _ hnext
      have hidnD : a ∉ D := fun hD => (inv4 a hD).2 (by simp)
      have hv2 : ∀ x, x ∈ (np.reverse ++ v : List String) ↔ x ∈ np ∨ x ∈ v := by
        intro x
        simp [List.mem_append, List.mem_reverse]
      have hnpv : ∀ x ∈ np, x ∉ v := fun x hx => ((hnpmem x).mp hx).2
      have hnppar : ∀ x ∈ np, x ∈ i.parents := fun x hx => ((hnpmem x).mp hx).1
      have inv1b : ∀ x ∈ (rest ++ np : List ObjectId), x ∈ (np.reverse ++ v : List String) := by
        intro x hx
        rcases List.mem_append.mp hx with hx | hx
        · exact (hv2 x).mpr (Or.inr (inv1 x (by simp [hx])))
        · exact (hv2 x).mpr (Or.inl hx)
      have inv2b : (rest ++ np : List ObjectId).Nodup := by
        rw [List.nodup_append]
        refine ⟨(List.nodup_cons.mp inv2).2, hnpnd, fun x hx hx2 => ?_⟩
        exact hnpv x hx2 (inv1 x (by simp [hx]))
      have inv3b : ∀ x ∈ (np.reverse ++ v : List String),
          x ∈ (a :: D : List String) ∨ x ∈ (rest ++ np : List ObjectId) := by
        intro x hx
        rcases (hv2 x).mp hx with hx | hx
        · exact Or.inr (List.mem_append.mpr (Or.inr hx))
        · rcases inv3 x hx with hD | hQ
          · exact Or.inl (by simp [hD])
          · rcases List.mem_cons.mp hQ with rfl | hr
            · exact Or.inl (by simp)
            · exact Or.inr (List.mem_append.mpr (Or.inl hr))
      have inv4b : ∀ x ∈ (a :: D : List String),
          x ∈ (np.reverse ++ v : List String) ∧ x ∉ (rest ++ np : List ObjectId) := by
        intro x hx
        rcases List.mem_cons.mp hx with rfl | hD
        · refine ⟨(hv2 x).mpr (Or.inr hidv), fun hx2 => ?_⟩
          rcases List.mem_append.mp hx2 with h | h
          · exact (List.nodup_cons.mp inv2).1 h
          · exact hnpv x h hidv
        · obtain ⟨hv3, hq3⟩ := inv4 x hD
          refine ⟨(hv2 x).mpr (Or.inr hv3), fun hx2 => ?_⟩
          rcases List.mem_append.mp hx2 with h | h
          · exact hq3 (by simp [h])
          · exact hnpv x h hv3
      have inv5b : ∀ x ∈ (np.reverse ++ v : List String), Reachable db start x := by
        intro x hx
        rcases (hv2 x).mp hx with hx | hx
        · exact .step hidreach hlook (hnppar x hx)
        · exact inv5 x hx
      have inv6b : ∀ x ∈ (np.reverse ++ v : List String), x ∈ univList db start := by
        intro x hx
        rcases (hv2 x).mp hx with hx | hx
        · rw [univList]
          refine List.mem_cons_of_mem _ (List.mem_flatMap.mpr ?_)
          exact ⟨(a, .intent i), lookup_mem hlook, hnppar x hx⟩
        · exact inv6 x hx
      have inv7b : ∀ d ∈ (a :: D : List String), ∀ i2,
          db.lookup d = some (.intent i2) → ∀ p ∈ i2.parents,
          p ∈ (np.reverse ++ v : List String) := by
        intro d hd i2 hlook2 p hpar
        rcases List.mem_cons.mp hd with rfl | hD
        · have hi : i = i2 := by
            rw [hlook] at hlook2
            exact Store.Obj.intent.inj (Option.some.inj hlook2)
          subst hi
          by_cases hpv : p ∈ v
          · exact (hv2 p).mpr (Or.inr hpv)
          · exact (hv2 p).mpr (Or.inl ((hnpmem p).mpr ⟨hpar, hpv⟩))
        · exact (hv2 p).mpr (Or.inr (inv7 d hD i2 hlook2 p hpar))
      have hmeas : walkerMeasure db start ⟨rest ++ np, np.reverse ++ v⟩ ≤ fuel := by
        have hnpsub : np.toFinset ⊆
            (univList db start).toFinset \ v.toFinset := by
          intro x hx
          rw [List.mem_toFinset] at hx
          rw [Finset.mem_sdiff, List.mem_toFinset, List.mem_toFinset]
          exact ⟨inv6b x ((hv2 x).mpr (Or.inl hx)), hnpv x hx⟩
        have hcard := Finset.card_sdiff_add_card_eq_card hnpsub
        have hsd : (univList db start).toFinset \ (np.reverse ++ v : List String).toFinset =
            ((univList db start).toFinset \ v.toFinset) \ np.toFinset := by
          ext x
          simp only [Finset.mem_sdiff, List.mem_toFinset, List.mem_append, List.mem_reverse]
          tauto
        have hnplen : np.toFinset.card = np.length := List.toFinset_card_of_nodup hnpnd
        simp only [walkerMeasure] at hm ⊢
        rw [hsd]
        simp only [List.length_append, List.length_cons] at hm ⊢
        omega
      obtain ⟨okall, oknodup, okiff⟩ :=
        ih ⟨rest ++ np, np.reverse ++ v⟩ (a :: D)
          ⟨inv1b, inv2b, inv3b, inv4b, inv5b, inv6b, inv7b⟩ hmeas
      rw [hrun]
      have hok : okIds (Except.ok (a, i) :: walkRun db fuel ⟨rest ++ np, np.reverse ++ v⟩) =
          a :: okIds (walkRun db fuel ⟨rest ++ np, np.reverse ++ v⟩) := by
        simp [okIds]
      refine ⟨?_, ?_, ?_⟩
      · intro r hr
        rcases List.mem_cons.mp hr with rfl | hr2
        · exact ⟨a, i, rfl, hlook⟩
        · exact okall r hr2
      · rw [hok, List.nodup_cons]
        refine ⟨fun hmem => ?_, oknodup⟩
        exact ((okiff a).mp hmem).2 (by simp)
      · intro x
        rw [hok, List.mem_cons, okiff x]
        constructor
        · rintro (rfl | ⟨⟨q, hq, hrq⟩, hxD⟩)
          · exact ⟨⟨x, by simp, .refl⟩, hidnD⟩
          · refine ⟨?_, fun hD => hxD (by simp [hD])⟩
            rcases List.mem_append.mp hq with hq2 | hq2
            · exact ⟨q, by simp [hq2], hrq⟩
            · refine ⟨a, by simp, ?_⟩
              exact reachable_trans (.step .refl hlook (hnppar q hq2)) hrq
        · rintro ⟨⟨q, hq, hrq⟩, hxD⟩
          by_cases hxid : x = a
          · exact Or.inl hxid
          · refine Or.inr ⟨?_, fun hx => ?_⟩
            · rcases List.mem_cons.mp hq with hqa | hq2
              · exact reach_exits_done db (rest ++ np) (np.reverse ++ v) (a :: D)
                  inv3b inv7b a x (by simp) (hqa ▸ hrq)
                  (fun hx => by
                    rcases List.mem_cons.mp hx with h | h
                    · exact hxid h
                    · exact hxD h)
              · exact ⟨q, List.mem_append.mpr (Or.inl hq2), hrq⟩
            · rcases List.mem_cons.mp hx with h | h
              · exact hxid h
              · exact hxD h

/-- C3 counterexample: a walk whose start intent has a missing first
parent and a stored second parent yields the `ObjectNotFound` error
item and then a further intent item — the iterator does not terminate
after the error, refuting "yields one error item and then terminates". -/
theorem c3_walk_counterexample :
    walkIntents
        [("dd", .intent ⟨⟨"T", "t"⟩, 0, "d", [], [], ["pp", "aa"], [], none, []⟩),
         ("aa", .intent ⟨⟨"T", "t"⟩, 1, "a", [], [], [], [], none, []⟩)] "dd" =
      [.ok ("dd", ⟨⟨"T", "t"⟩, 0, "d", [], [], ["pp", "aa"], [], none, []⟩),
       .error (.ObjectNotFound "pp"),
       .ok ("aa", ⟨⟨"T", "t"⟩, 1, "a", [], [], [], [], none, []⟩)] := by
  rfl

/-- C3 (amended): the walk is breadth-first over parents with a visited
set; a dequeued object of another tag is skipped without an error item;
a missing id yields one `ObjectNotFound` error item after which the
iterator continues with the remaining queue (rather than terminating);
and when every reachable id is a stored intent, the walk yields each
reachable id exactly once as a stored intent, the start first. -/
theorem c3_walk_amended :
    (∀ (db : Store.ObjStore) (q : List ObjectId) (v : List String) (id : ObjectId),
      db.lookup id = none →
        walkerNext db ⟨id :: q, v⟩ = some (.error (.ObjectNotFound id), ⟨q, v⟩)) ∧
    (∀ (db : Store.ObjStore) (fuel : Nat) (q : List ObjectId) (v : List String)
        (id : ObjectId), db.lookup id = none →
        walkRun db (fuel + 1) ⟨id :: q, v⟩ =
          .error (.ObjectNotFound id) :: walkRun db fuel ⟨q, v⟩) ∧
    (∀ (db : Store.ObjStore) (q : List ObjectId) (v : List String) (id : ObjectId)
        (o : Store.Obj), db.lookup id = some o → (∀ i, o ≠ .intent i) →
        walkerNext db ⟨id :: q, v⟩ = walkerNext db ⟨q, v⟩) ∧
    (∀ (db : Store.ObjStore) (start : ObjectId),
      (∀ x, Reachable db start x → ∃ i, db.lookup x = some (.intent i)) →
      (∀ r ∈ walkIntents db start, ∃ id i, r = .ok (id, i) ∧
        db.lookup id = some (.intent i)) ∧
      (okIds (walkIntents db start)).Nodup ∧
      (∀ x, x ∈ okIds (walkIntents db start) ↔ Reachable db start x) ∧
      (∀ i0, db.lookup start = some (.intent i0) →
        (walkIntents db start).head? = some (.ok (start, i0)))) := by
  refine ⟨?_, ?_, ?_, ?_⟩
  · intro db q v id h
    exact walkerNext_missing db id q v h
  · intro db fuel q v id h
    exact walkRun_cons db fuel _ _ _ (walkerNext_missing db id q v h)
  · intro db q v id o h hni
    exact walkerNext_skip db id q v o h hni
  · intro db start hclean
    simp only [walkIntents]
    have hinv : WalkerInv db start (Walker.init start) [] := by
      refine ⟨?_, (?_), ?_, ?_, ?_, ?_, ?_⟩
      · intro x hx
        simpa [Walker.init] using hx
      · simp [Walker.init]
      · intro x hx
        exact Or.inr hx
      · intro x hx
        cases hx
      · intro x hx
        rw [show x = start from by simpa [Walker.init] using hx]
        exact .refl
      · intro x hx
        rw [show x = start from by simpa [Walker.init] using hx]
        simp [univList]
      · intro d hd
        cases hd
    have hmeas : walkerMeasure db start (Walker.init start) ≤
        1 + db.length +
          (db.map fun p =>
            match p.2 with
            | .intent i => i.parents.length
            | _ => 0).sum := by
      have hsub : ({start} : Finset String) ⊆ (univList db start).toFinset := by
        intro x hx
        rw [Finset.mem_singleton] at hx
        rw [List.mem_toFinset, hx, univList]
        simp
      have hcard := Finset.card_sdiff_add_card_eq_card hsub
      rw [Finset.card_singleton] at hcard
      have hle : (univList db start).toFinset.card ≤ (univList db start).length :=
        List.toFinset_card_le _
      have haux : ∀ (l : Store.ObjStore),
          (l.flatMap fun p =>
            match p.2 with
            | Store.Obj.intent i => i.parents
            | _ => []).length =
          (l.map fun p =>
            match p.2 with
            | Store.Obj.intent i => i.parents.length
            | _ => 0).sum := by
        intro l
        induction l with
        | nil => rfl
        | cons p t ih =>
          obtain ⟨pid, po⟩ := p
          cases po <;> simp [List.flatMap_cons, ih]
      have hlen : (univList db start).length =
          1 + (db.map fun p =>
            match p.2 with
            | .intent i => i.parents.length
            | _ => 0).sum := by
        rw [univList, List.length_cons, haux]
        omega
      have hmu : walkerMeasure db start (Walker.init start) =
          1 + ((univList db start).toFinset \ ({start} : Finset String)).card := by
        simp [walkerMeasure, Walker.init]
      rw [hmu]
      omega
    obtain ⟨okall, oknodup, okiff⟩ := walkRun_clean db start hclean _ _ []
      hinv hmeas
    refine ⟨okall, oknodup, fun x => ?_, ?_⟩
    · rw [okiff x]
      constructor
      · rintro ⟨⟨q, hq, hrq⟩, _⟩
        rw [show q = start from by simpa [Walker.init] using hq] at hrq
        exact hrq
      · intro hr
        exact ⟨⟨start, by simp [Walker.init], hr⟩, by simp⟩
    · intro i0 hlook0
      obtain ⟨np, henq, _, _⟩ := enqueueParents_spec i0.parents [] [start]
      obtain ⟨f2, hf2⟩ : ∃ f2, 1 + db.length +
          (db.map fun p =>
            match p.2 with
            | .intent i => i.parents.length
            | _ => 0).sum = f2 + 1 :=
        ⟨db.length + (db.map fun p =>
            match p.2 with
            | .intent i => i.parents.length
            | _ => 0).sum, by omega⟩
      have hinit : Walker.init start = ⟨[start], [start]⟩ := rfl
      rw [hf2, hinit,
        walkRun_cons db f2 _ _ _
          (walkerNext_intent db start [] ([] ++ np) [start] (np.reverse ++ [start]) i0
            hlook0 henq)]
      rfl

/-- C3 amended witness: on the one-intent store, the walk yields no
duplicate ids and yields the start, which is reachable. -/
theorem c3_walk_amended_witness :
    (okIds (walkIntents
        [("aa", .intent ⟨⟨"T", "t"⟩, 0, "a", [], [], [], [], none, []⟩)] "aa")).Nodup ∧
    Reachable [("aa", .intent ⟨⟨"T", "t"⟩, 0, "a", [], [], [], [], none, []⟩)] "aa" "aa" := by
  have hclean : ∀ x,
      Reachable [("aa", Store.Obj.intent ⟨⟨"T", "t"⟩, 0, "a", [], [], [], [], none, []⟩)]
        "aa" x →
      ∃ i, ([("aa", Store.Obj.intent ⟨⟨"T", "t"⟩, 0, "a", [], [], [], [], none, []⟩)] :
        Store.ObjStore).lookup x = some (.intent i) := by
    intro x hx
    induction hx with
    | refl => exact ⟨_, rfl⟩
    | step hr hlook hpar ih =>
      rename_i y x2 i
      have hmem := lookup_mem hlook
      simp only [List.mem_singleton, Prod.mk.injEq, Store.Obj.intent.injEq] at hmem
      rw [hmem.2] at hpar
      simp at hpar
  have h := (c3_walk_amended.2.2.2
    [("aa", Store.Obj.intent ⟨⟨"T", "t"⟩, 0, "a", [], [], [], [], none, []⟩)] "aa" hclean)
  refine ⟨h.2.1, (h.2.2.1 "aa").mp ?_⟩
  rw [show okIds (walkIntents
      [("aa", Store.Obj.intent ⟨⟨"T", "t"⟩, 0, "a", [], [], [], [], none, []⟩)] "aa") =
    ["aa"] from rfl]
  simp

/-! ## C1: canonical round-trip — lexeme lemmas -/

theorem hexVal_hexDigitChar : ∀ n < 16, hexVal (hexDigitChar n) = some n := by decide

theorem bsl_ne_qu : ¬ bsl = qu := by decide

theorem psb_quote (f : Nat) (M : List Char) :
    parseStringBody (f + 1) (qu :: M) = some ([], M) := rfl

theorem psb_esc_qu (f : Nat) (M : List Char) :
    parseStringBody (f + 1) (bsl :: qu :: M) =
      match parseStringBody f M with
      | some (s, r) => some (qu :: s, r)
      | none => none := rfl

theorem psb_esc_bsl (f : Nat) (M : List Char) :
    parseStringBody (f + 1) (bsl :: bsl :: M) =
      match parseStringBody f M with
      | some (s, r) => some (bsl :: s, r)
      | none => none := rfl

theorem psb_esc_b (f : Nat) (M : List Char) :
    parseStringBody (f + 1) (bsl :: 'b' :: M) =
      match parseStringBody f M with
      | some (s, r) => some (Char.ofNat 8 :: s, r)
      | none => none := rfl

theorem psb_esc_t (f : Nat) (M : List Char) :
    parseStringBody (f + 1) (bsl :: 't' :: M) =
      match parseStringBody f M with
      | some (s, r) => some (Char.ofNat 9 :: s, r)
      | none => none := rfl

theorem psb_esc_n (f : Nat) (M : List Char) :
    parseStringBody (f + 1) (bsl :: 'n' :: M) =
      match parseStringBody f M with
      | some (s, r) => some (Char.ofNat 10 :: s, r)
      | none => none := rfl

theorem psb_esc_f (f : Nat) (M : List Char) :
    parseStringBody (f + 1) (bsl :: 'f' :: M) =
      match parseStringBody f M with
      | some (s, r) => some (Char.ofNat 12 :: s, r)
      | none => none := rfl

theorem psb_esc_r (f : Nat) (M : List Char) :
    parseStringBody (f + 1) (bsl :: 'r' :: M) =
      match parseStringBody f M with
      | some (s, r) => some (Char.ofNat 13 :: s, r)
      | none => none := rfl

theorem psb_raw (f : Nat) (c : Char) (M : List Char) (h1 : ¬ c = qu) (h2 : ¬ c = bsl) :
    parseStringBody (f + 1) (c :: M) =
      match parseStringBody f M with
      | some (s, r) => some (c :: s, r)
      | none => none := by
  simp [parseStringBody, h1, h2]

theorem psb_u (f : Nat) (d1 d2 : Char) (M : List Char) (a b : Nat)
    (h1 : hexVal d1 = some a) (h2 : hexVal d2 = some b) :
    parseStringBody (f + 1) (bsl :: 'u' :: '0' :: '0' :: d1 :: d2 :: M) =
      match parseStringBody f M with
      | some (s, r) => some (Char.ofNat (((0 * 16 + 0) * 16 + a) * 16 + b) :: s, r)
      | none => none := by
  have h0 : hexVal '0' = some 0 := by decide
  simp [parseStringBody, bsl_ne_qu, h0, h1, h2]

/-- The string-body scanner undoes serde's escaping and stops exactly at
the closing quote. -/
theorem parseStringBody_flatMap (s : List Char) : ∀ (fuel : Nat) (rest : List Char),
    s.length + 1 ≤ fuel →
    parseStringBody fuel (s.flatMap escapeChar ++ qu :: rest) = some (s, rest) := by
  induction s with
  | nil =>
    intro fuel rest hf
    obtain ⟨f, rfl⟩ : ∃ f, fuel = f + 1 := ⟨fuel - 1, by omega⟩
    simpa using psb_quote f rest
  | cons c s ih =>
    intro fuel rest hf
    obtain ⟨f, rfl⟩ : ∃ f, fuel = f + 1 := ⟨fuel - 1, by omega⟩
    have hih := ih f rest (by simp only [List.length_cons] at hf; omega)
    rw [List.flatMap_cons, List.append_assoc]
    by_cases h1 : c = qu
    · subst h1
      rw [show escapeChar qu = [bsl, qu] from rfl]
      simp only [List.cons_append, List.nil_append]
      rw [psb_esc_qu, hih]
    · by_cases h2 : c = bsl
      · subst h2
        rw [show escapeChar bsl = [bsl, bsl] from rfl]
        simp only [List.cons_append, List.nil_append]
        rw [psb_esc_bsl, hih]
      · by_cases h3 : c = Char.ofNat 8
        · subst h3
          rw [show escapeChar (Char.ofNat 8) = [bsl, 'b'] from rfl]
          simp only [List.cons_append, List.nil_append]
          rw [psb_esc_b, hih]
        · by_cases h4 : c = Char.ofNat 9
          · subst h4
            rw [show escapeChar (Char.ofNat 9) = [bsl, 't'] from rfl]
            simp only [List.cons_append, List.nil_append]
            rw [psb_esc_t, hih]
          · by_cases h5 : c = Char.ofNat 10
            · subst h5
              rw [show escapeChar (Char.ofNat 10) = [bsl, 'n'] from rfl]
              simp only [List.cons_append, List.nil_append]
              rw [psb_esc_n, hih]
            · by_cases h6 : c = Char.ofNat 12
              · subst h6
                rw [show escapeChar (Char.ofNat 12) = [bsl, 'f'] from rfl]
                simp only [List.cons_append, List.nil_append]
                rw [psb_esc_f, hih]
              · by_cases h7 : c = Char.ofNat 13
                · subst h7
                  rw [show escapeChar (Char.ofNat 13) = [bsl, 'r'] from rfl]
                  simp only [List.cons_append, List.nil_append]
                  rw [psb_esc_r, hih]
                · by_cases h8 : c.toNat < 32
                  · rw [show escapeChar c =
                        bsl :: 'u' :: '0' :: '0' :: hexDigitChar (c.toNat / 16) ::
                          [hexDigitChar (c.toNat % 16)] from by
                      simp [escapeChar, h1, h2, h3, h4, h5, h6, h7, h8]]
                    simp only [List.cons_append, List.nil_append]
                    rw [psb_u f _ _ _ _ _
                      (hexVal_hexDigitChar _ (by omega))
                      (hexVal_hexDigitChar _ (by omega)), hih]
                    have harith : ((0 * 16 + 0) * 16 + c.toNat / 16) * 16 + (c.toNat % 16) =
                        c.toNat := by omega
                    rw [harith, Char.ofNat_toNat]
                  · rw [show escapeChar c = [c] from by
                      simp [escapeChar, h1, h2, h3, h4, h5, h6, h7, h8]]
                    simp only [List.cons_append, List.nil_append]
                    rw [psb_raw f c _ h1 h2, hih]

theorem digitChar_toNat : ∀ d < 10, (Char.ofNat ('0'.toNat + d)).toNat = '0'.toNat + d ∧
    (Char.ofNat ('0'.toNat + d)).isDigit = true := by decide

theorem natDigits_all_isDigit (n : Nat) : ∀ c ∈ natDigits n, c.isDigit = true := by
  intro c hc
  simp only [natDigits] at hc
  split at hc
  · simp only [List.mem_singleton] at hc
    subst hc
    decide
  · rw [List.mem_reverse, List.mem_map] at hc
    obtain ⟨d, hd, rfl⟩ := hc
    exact (digitChar_toNat d (Nat.digits_lt_base (by norm_num) hd)).2

theorem natDigits_ne_nil (n : Nat) : natDigits n ≠ [] := by
  simp only [natDigits]
  split
  · simp
  · rename_i h
    intro hcon
    have h2 := congrArg List.length hcon
    simp only [List.length_reverse, List.length_map, List.length_nil] at h2
    exact h (Nat.digits_eq_nil_iff_eq_zero.mp (List.length_eq_zero.mp h2))

theorem isDigit_ne_of {c x : Char} (h : c.isDigit = true) (hx : x.isDigit = false) : ¬ c = x := by
  intro he
  subst he
  rw [hx] at h
  cases h

theorem foldl_digitChars (ds : List Nat) : (∀ d ∈ ds, d < 10) → ∀ acc : Nat,
    List.foldl (fun a e => a * 10 + (e.toNat - '0'.toNat)) acc
      ((ds.map fun d => Char.ofNat ('0'.toNat + d)).reverse) =
      acc * 10 ^ ds.length + Nat.ofDigits 10 ds := by
  induction ds with
  | nil =>
    intro _ acc
    simp
  | cons d ds ih =>
    intro hlt acc
    rw [List.map_cons, List.reverse_cons, List.foldl_append,
      ih (fun x hx => hlt x (List.mem_cons_of_mem _ hx)) acc]
    simp only [List.foldl_cons, List.foldl_nil]
    rw [(digitChar_toNat d (hlt d (List.mem_cons_self _ _))).1, Nat.ofDigits_cons]
    have hsub : '0'.toNat + d - '0'.toNat = d := by omega
    rw [hsub, List.length_cons, pow_succ]
    ring

theorem takeWhile_append_of {p : Char → Bool} : ∀ (l r : List Char),
    (∀ c ∈ l, p c = true) → (∀ c, r.head? = some c → p c = false) →
    (l ++ r).takeWhile p = l ∧ (l ++ r).dropWhile p = r := by
  intro l
  induction l with
  | nil =>
    intro r _ hr
    cases r with
    | nil => simp
    | cons c rs =>
      have hc := hr c rfl
      simp [List.takeWhile_cons, List.dropWhile_cons, hc]
  | cons a l ih =>
    intro r hl hr
    have hpa := hl a (List.mem_cons_self _ _)
    obtain ⟨h1, h2⟩ := ih r (fun c hc => hl c (List.mem_cons_of_mem _ hc)) hr
    simp [List.takeWhile_cons, List.dropWhile_cons, hpa, h1, h2]

/-- The digit scanner undoes decimal rendering and stops before a
non-digit remainder. -/
theorem parseDigits_natDigits (n : Nat) (rest : List Char)
    (hrest : ∀ d, rest.head? = some d → d.isDigit = false) :
    parseDigits (natDigits n ++ rest) = some (n, rest) := by
  obtain ⟨ht, hd⟩ := takeWhile_append_of (natDigits n) rest (natDigits_all_isDigit n) hrest
  simp only [parseDigits, ht, hd]
  rw [show (natDigits n).isEmpty = false from by
    cases hnd : natDigits n with
    | nil => exact absurd hnd (natDigits_ne_nil n)
    | cons a l => rfl]
  simp only [Bool.false_eq_true, if_false]
  have hfold : List.foldl (fun a e => a * 10 + (e.toNat - '0'.toNat)) 0 (natDigits n) =
      n := by
    simp only [natDigits]
    split
    · rename_i h
      subst h
      decide
    · rw [foldl_digitChars (Nat.digits 10 n)
        (fun d hd2 => Nat.digits_lt_base (by norm_num) hd2) 0]
      simp [Nat.ofDigits_digits]
  rw [hfold]

theorem parseValue_qu (f : Nat) (M : List Char) :
    parseValue (f + 1) (qu :: M) =
      match parseStringBody f M with
      | some (s, r) => some (.str (String.mk s), r)
      | none => none := by
  simp only [parseValue]
  split
  all_goals try (rename_i heq; injection heq with hh ht; exact absurd hh (by decide))
  all_goals try (rename_i heq; exact absurd heq (List.cons_ne_nil _ _))
  rename_i c rest heq
  injection heq with hh ht
  subst ht
  rw [← hh, if_pos rfl]

theorem parseValue_digit (f : Nat) (d : Char) (M : List Char) (hd : d.isDigit = true) :
    parseValue (f + 1) (d :: M) =
      match parseDigits (d :: M) with
      | some (n, r) => some (.num (n : Int), r)
      | none => none := by
  simp only [parseValue]
  split
  all_goals try (rename_i heq; injection heq with hh ht; rw [hh] at hd; exact absurd hd (by decide))
  all_goals try (rename_i heq; exact absurd heq (List.cons_ne_nil _ _))
  rename_i c rest heq
  injection heq with hh ht
  subst ht
  rw [← hh, if_neg (isDigit_ne_of hd (by decide)), if_neg (isDigit_ne_of hd (by decide)),
    if_pos hd]

theorem parseValue_arr_go (f : Nat) (M : List Char) (hM : ∀ c, M.head? = some c → ¬ c = ']') :
    parseValue (f + 1) ('[' :: M) =
      match parseElems f M with
      | some (xs, r) => some (.arr xs, r)
      | none => none := by
  simp only [parseValue]
  split
  all_goals try (rename_i heq; injection heq with hh ht; exact absurd hh (by decide))
  all_goals try (rename_i heq; exact absurd heq (List.cons_ne_nil _ _))
  · rename_i rest heq
    injection heq with hh ht
    exact absurd rfl (hM ']' (by rw [ht]; rfl))
  · rename_i rest g1 heq
    injection heq with hh ht
    subst ht
    rfl
  · rename_i c0 rest0 g1 g2 g3 g4 g5 g6 heq
    injection heq with hh ht
    exact absurd hh.symm g5

theorem parseValue_lcurly (f : Nat) (M : List Char) :
    parseValue (f + 1) (lbr :: M) =
      (match M with
       | c2 :: r2 =>
         if c2 = rbr then some (.obj [], r2)
         else
           match parseFields f M with
           | some (fs, r) => some (.obj fs, r)
           | none => none
       | [] => none) := by
  simp only [parseValue]
  split
  all_goals try (rename_i heq; injection heq with hh ht; exact absurd hh (by decide))
  all_goals try (rename_i heq; exact absurd heq (List.cons_ne_nil _ _))
  rename_i c rest heq
  injection heq with hh ht
  subst ht
  rw [← hh, if_neg (by decide : ¬ lbr = qu), if_pos rfl]

theorem render_head_ne (v : Json) : ∃ c0 cs0, render v = c0 :: cs0 ∧ ¬ c0 = ']' := by
  cases v with
  | null => exact ⟨'n', ['u', 'l', 'l'], by simp [render], by decide⟩
  | bool b =>
    cases b with
    | false => exact ⟨'f', ['a', 'l', 's', 'e'], by simp [render], by decide⟩
    | true => exact ⟨'t', ['r', 'u', 'e'], by simp [render], by decide⟩
  | num n =>
    by_cases hneg : n < 0
    · exact ⟨'-', natDigits n.natAbs, by simp [render, renderInt, hneg], by decide⟩
    · obtain ⟨d, ds, hnd⟩ : ∃ d ds, natDigits n.natAbs = d :: ds := by
        cases h : natDigits n.natAbs with
        | nil => exact absurd h (natDigits_ne_nil _)
        | cons d ds => exact ⟨d, ds, rfl⟩
      have hd : d.isDigit = true := natDigits_all_isDigit _ d (by rw [hnd]; simp)
      exact ⟨d, ds, by simp [render, renderInt, hneg, hnd], isDigit_ne_of hd (by decide)⟩
  | str s => exact ⟨qu, escapeList s ++ [qu], by simp [render, escapeList], by decide⟩
  | arr elems =>
    cases elems with
    | nil => exact ⟨'[', [']'], by simp [render], by decide⟩
    | cons x xs =>
      exact ⟨'[', render x ++ renderElems xs ++ [']'], by simp [render], by decide⟩
  | obj fields =>
    cases fields with
    | nil => exact ⟨lbr, [rbr], by simp [render], by decide⟩
    | cons f0 fs =>
      exact ⟨lbr, qu :: escapeList f0.1 ++ [qu, ':'] ++ render f0.2 ++ renderFields fs ++ [rbr],
        by simp [render], by decide⟩

theorem json_sizeOf_pos (v : Json) : 0 < sizeOf v := by
  cases v <;> simp_arith

theorem list_sizeOf_pos {α : Type} [SizeOf α] (l : List α) : 0 < sizeOf l := by
  cases l <;> simp_arith

/-- The three parser-correctness statements, proven together by strong
induction on a structural size bound: the value parser undoes compact
rendering, and the element and member loops undo `renderElems` and
`renderFields` up to the closing bracket. -/
theorem parse_render_main : ∀ N : Nat,
    (∀ v : Json, sizeOf v ≤ N → ∀ (fuel : Nat) (rest : List Char),
      fuelFor v ≤ fuel → (∀ d, rest.head? = some d → d.isDigit = false) →
      parseValue fuel (render v ++ rest) = some (v, rest)) ∧
    (∀ (x : Json) (xs : List Json), sizeOf x + sizeOf xs ≤ N →
      ∀ (fuel : Nat) (rest : List Char),
      max (fuelFor x) (fuelForElems xs) < fuel →
      (∀ d, rest.head? = some d → d.isDigit = false) →
      parseElems fuel (render x ++ renderElems xs ++ ']' :: rest) = some (x :: xs, rest)) ∧
    (∀ (k : String) (v : Json) (fs : List (String × Json)), sizeOf v + sizeOf fs ≤ N →
      ∀ (fuel : Nat) (rest : List Char),
      max (2 + k.data.length) (max (fuelFor v) (fuelForFields fs)) < fuel →
      (∀ d, rest.head? = some d → d.isDigit = false) →
      parseFields fuel
        (qu :: escapeList k ++ qu :: ':' :: render v ++ renderFields fs ++ rbr :: rest) =
        some ((k, v) :: fs, rest)) := by
  intro N
  induction N with
  | zero =>
    refine ⟨fun v hsz => absurd hsz (by have := json_sizeOf_pos v; omega),
      fun x xs hsz => absurd hsz (by have := json_sizeOf_pos x; omega),
      fun k v fs hsz => absurd hsz (by have := json_sizeOf_pos v; omega)⟩
  | succ N ih =>
    obtain ⟨ihV, ihE, ihF⟩ := ih
    refine ⟨?_, ?_, ?_⟩
    · intro v hsz fuel rest hf hrest
      cases v with
      | null =>
        obtain ⟨f, rfl⟩ : ∃ f, fuel = f + 1 :=
          ⟨fuel - 1, by simp only [fuelFor] at hf; omega⟩
        simp [render, parseValue]
      | bool b =>
        obtain ⟨f, rfl⟩ : ∃ f, fuel = f + 1 :=
          ⟨fuel - 1, by simp only [fuelFor] at hf; omega⟩
        cases b with
        | false => simp [render, parseValue]
        | true => simp [render, parseValue]
      | num n =>
        obtain ⟨f, rfl⟩ : ∃ f, fuel = f + 1 :=
          ⟨fuel - 1, by simp only [fuelFor] at hf; omega⟩
        by_cases hneg : n < 0
        · rw [show render (.num n) = '-' :: natDigits n.natAbs from by
            simp [render, renderInt, hneg]]
          simp only [List.cons_append, parseValue]
          rw [parseDigits_natDigits _ _ hrest]
          dsimp only
          have harith : -((n.natAbs : Nat) : Int) = n := by omega
          rw [harith]
        · rw [show render (.num n) = natDigits n.natAbs from by
            simp [render, renderInt, hneg]]
          obtain ⟨d, ds, hnd⟩ : ∃ d ds, natDigits n.natAbs = d :: ds := by
            cases h : natDigits n.natAbs with
            | nil => exact absurd h (natDigits_ne_nil _)
            | cons d ds => exact ⟨d, ds, rfl⟩
          have hd : d.isDigit = true := natDigits_all_isDigit _ d (by rw [hnd]; simp)
          rw [hnd]
          simp only [List.cons_append]
          rw [parseValue_digit f d (ds ++ rest) hd,
            show d :: (ds ++ rest) = natDigits n.natAbs ++ rest from by rw [hnd]; simp,
            parseDigits_natDigits _ _ hrest]
          dsimp only
          have harith : ((n.natAbs : Nat) : Int) = n := by omega
          rw [harith]
      | str s =>
        obtain ⟨f, rfl⟩ : ∃ f, fuel = f + 1 :=
          ⟨fuel - 1, by simp only [fuelFor] at hf; omega⟩
        rw [show render (.str s) ++ rest =
            qu :: (s.data.flatMap escapeChar ++ qu :: rest) from by
          simp [render, escapeList]]
        rw [parseValue_qu,
          parseStringBody_flatMap s.data f rest (by simp only [fuelFor] at hf; omega)]
      | arr elems =>
        cases elems with
        | nil =>
          obtain ⟨f, rfl⟩ : ∃ f, fuel = f + 1 :=
            ⟨fuel - 1, by simp only [fuelFor] at hf; omega⟩
          simp [render, parseValue]
        | cons x xs =>
          obtain ⟨f, rfl⟩ : ∃ f, fuel = f + 1 :=
            ⟨fuel - 1, by simp only [fuelFor] at hf; omega⟩
          rw [show render (.arr (x :: xs)) ++ rest =
              '[' :: (render x ++ (renderElems xs ++ ']' :: rest)) from by
            simp [render, List.append_assoc]]
          rw [parseValue_arr_go f _ (by
            intro c hc
            obtain ⟨c0, cs0, hrx, hne⟩ := render_head_ne x
            rw [hrx] at hc
            simp only [List.cons_append, List.head?_cons, Option.some.injEq] at hc
            rw [← hc]
            exact hne)]
          rw [show render x ++ (renderElems xs ++ ']' :: rest) =
              render x ++ renderElems xs ++ ']' :: rest from by simp [List.append_assoc]]
          rw [ihE x xs (by simp at hsz; omega) f rest
            (by simp only [fuelFor] at hf; omega) hrest]
      | obj fields =>
        cases fields with
        | nil =>
          obtain ⟨f, rfl⟩ : ∃ f, fuel = f + 1 :=
            ⟨fuel - 1, by simp only [fuelFor] at hf; omega⟩
          rw [show render (.obj []) ++ rest = lbr :: rbr :: rest from by simp [render]]
          rw [parseValue_lcurly]
          simp
        | cons f0 fs =>
          obtain ⟨k, v2⟩ := f0
          obtain ⟨f, rfl⟩ : ∃ f, fuel = f + 1 :=
            ⟨fuel - 1, by simp only [fuelFor] at hf; omega⟩
          rw [show render (.obj ((k, v2) :: fs)) ++ rest =
              lbr :: (qu :: escapeList k ++ qu :: ':' :: render v2 ++ renderFields fs ++
                rbr :: rest) from by
            simp [render, List.append_assoc]]
          rw [parseValue_lcurly]
          split
          · rename_i c2 r2 heq
            injection heq with hh ht
            subst ht
            rw [← hh, if_neg (by decide : ¬ qu = rbr)]
            rw [ihF k v2 fs (by simp at hsz; omega) f rest
              (by simp only [fuelFor] at hf; omega) hrest]
          · rename_i heq
            exact absurd heq (List.cons_ne_nil _ _)
    · intro x xs hsz fuel rest hf hrest
      obtain ⟨f, rfl⟩ : ∃ f, fuel = f + 1 := ⟨fuel - 1, by omega⟩
      simp only [parseElems]
      rw [show render x ++ renderElems xs ++ ']' :: rest =
          render x ++ (renderElems xs ++ ']' :: rest) from by simp [List.append_assoc]]
      rw [ihV x (by have := list_sizeOf_pos xs; omega) f (renderElems xs ++ ']' :: rest)
        (by omega) (by
        cases xs with
        | nil =>
          intro d hd2
          simp only [renderElems, List.nil_append, List.head?_cons,
            Option.some.injEq] at hd2
          rw [← hd2]
          decide
        | cons y ys =>
          intro d hd2
          simp only [renderElems, List.cons_append, List.head?_cons,
            Option.some.injEq] at hd2
          rw [← hd2]
          decide)]
      cases xs with
      | nil => simp [renderElems]
      | cons y ys =>
        simp only [renderElems, List.cons_append, List.append_assoc]
        rw [show render y ++ (renderElems ys ++ ']' :: rest) =
            render y ++ renderElems ys ++ ']' :: rest from by simp [List.append_assoc]]
        try dsimp only
        rw [ihE y ys (by simp at hsz; omega) f rest
          (by simp only [fuelForElems] at hf; omega) hrest]
    · intro k v fs hsz fuel rest hf hrest
      obtain ⟨f, rfl⟩ : ∃ f, fuel = f + 1 := ⟨fuel - 1, by omega⟩
      simp only [parseFields, List.cons_append]
      try rw [if_pos trivial]
      simp only [escapeList, List.append_assoc, List.cons_append]
      rw [parseStringBody_flatMap k.data f _ (by omega)]
      split
      · rename_i k2 r heq
        injection heq with hp
        injection hp with hk hl
        injection hl with hc hr
        subst hk
        subst hr
        rw [ihV v (by have := list_sizeOf_pos fs; omega) f _ (by omega) (by
          cases fs with
          | nil =>
            intro d hd2
            simp only [renderFields, List.nil_append, List.head?_cons,
              Option.some.injEq] at hd2
            rw [← hd2]
            decide
          | cons g gs =>
            intro d hd2
            simp only [renderFields, List.cons_append, List.head?_cons,
              Option.some.injEq] at hd2
            rw [← hd2]
            decide)]
        cases fs with
        | nil =>
          simp only [renderFields, List.nil_append]
          split
          · rename_i v2 r2 heq2
            injection heq2 with hp2
            injection hp2 with h1 h2
            injection h2 with h3 h4
            exact absurd h3 (by decide)
          · rename_i v2 c2 r2 heq2
            injection heq2 with hp2
            injection hp2 with h1 h2
            injection h2 with h3 h4
            subst h1
            subst h4
            rw [← h3, if_pos rfl]
          · rename_i x0 g1 g2
            exact (g2 v rbr rest rfl).elim
        | cons g gs =>
          obtain ⟨k2b, v3⟩ := g
          have hrec := ihF k2b v3 gs (by simp at hsz; omega) f rest
            (by simp only [fuelForFields] at hf; omega) hrest
          simp only [renderFields, escapeList, List.cons_append, List.append_assoc,
            List.nil_append] at hrec ⊢
          rw [hrec]
      · rename_i x0 g1
        exact (g1 k.data _ rfl).elim

/-- The value parser undoes compact rendering: on `render v` followed by
a non-digit-headed remainder it returns exactly `v` and the remainder. -/
theorem parseValue_render (v : Json) (fuel : Nat) (rest : List Char)
    (hf : fuelFor v ≤ fuel)
    (hrest : ∀ d, rest.head? = some d → d.isDigit = false) :
    parseValue fuel (render v ++ rest) = some (v, rest) :=
  (parse_render_main (sizeOf v)).1 v le_rfl fuel rest hf hrest

theorem parseElems_render (x : Json) (xs : List Json) (fuel : Nat) (rest : List Char)
    (hf : max (fuelFor x) (fuelForElems xs) < fuel)
    (hrest : ∀ d, rest.head? = some d → d.isDigit = false) :
    parseElems fuel (render x ++ renderElems xs ++ ']' :: rest) = some (x :: xs, rest) :=
  (parse_render_main (sizeOf x + sizeOf xs)).2.1 x xs le_rfl fuel rest hf hrest

theorem escapeChar_len (c : Char) : 1 ≤ (escapeChar c).length := by
  simp only [escapeChar]
  split_ifs <;> simp

theorem escapeList_len (s : List Char) : s.length ≤ (s.flatMap escapeChar).length := by
  induction s with
  | nil => simp
  | cons c t ih =>
    rw [List.flatMap_cons, List.length_append, List.length_cons]
    have := escapeChar_len c
    omega

/-- The fuel measures are bounded by the rendered length plus one, so the
fuel `from_slice` passes always suffices. -/
theorem fuel_le_render_main : ∀ N : Nat,
    (∀ v : Json, sizeOf v ≤ N → fuelFor v ≤ (render v).length + 1) ∧
    (∀ xs : List Json, sizeOf xs ≤ N → fuelForElems xs ≤ (renderElems xs).length + 1) ∧
    (∀ fs : List (String × Json), sizeOf fs ≤ N →
      fuelForFields fs ≤ (renderFields fs).length + 1) := by
  intro N
  induction N with
  | zero =>
    refine ⟨fun v hsz => absurd hsz (by have := json_sizeOf_pos v; omega),
      fun xs hsz => absurd hsz (by have := list_sizeOf_pos xs; omega),
      fun fs hsz => absurd hsz (by have := list_sizeOf_pos fs; omega)⟩
  | succ N ih =>
    obtain ⟨ihV, ihE, ihF⟩ := ih
    refine ⟨?_, ?_, ?_⟩
    · intro v hsz
      cases v with
      | null => simp [fuelFor, render]
      | bool b => cases b <;> simp [fuelFor, render]
      | num n =>
        simp only [fuelFor]
        omega
      | str s =>
        have := escapeList_len s.data
        simp only [fuelFor, render, escapeList, List.length_cons, List.length_append,
          List.length_singleton]
        omega
      | arr elems =>
        cases elems with
        | nil => simp [fuelFor, render]
        | cons x xs =>
          have h1 := ihV x (by simp at hsz; omega)
          have h2 := ihE xs (by simp at hsz; omega)
          simp only [fuelFor, render, List.length_cons, List.length_append,
            List.length_singleton]
          omega
      | obj fields =>
        cases fields with
        | nil => simp [fuelFor, render]
        | cons f0 fs =>
          obtain ⟨k, v2⟩ := f0
          have h1 := ihV v2 (by simp at hsz; omega)
          have h2 := ihF fs (by simp at hsz; omega)
          have h3 := escapeList_len k.data
          simp only [fuelFor, render, escapeList, List.length_cons, List.length_append,
            List.length_singleton]
          omega
    · intro xs hsz
      cases xs with
      | nil => simp [fuelForElems, renderElems]
      | cons x xs =>
        have h1 := ihV x (by simp at hsz; omega)
        have h2 := ihE xs (by simp at hsz; omega)
        simp only [fuelForElems, renderElems, List.length_cons, List.length_append]
        omega
    · intro fs hsz
      cases fs with
      | nil => simp [fuelForFields, renderFields]
      | cons f0 fs =>
        obtain ⟨k, v2⟩ := f0
        have h1 := ihV v2 (by simp at hsz; omega)
        have h2 := ihF fs (by simp at hsz; omega)
        have h3 := escapeList_len k.data
        simp only [fuelForFields, renderFields, escapeList, List.length_cons,
          List.length_append]
        omega

theorem fuelFor_le_render (v : Json) : fuelFor v ≤ (render v).length + 1 :=
  (fuel_le_render_main (sizeOf v)).1 v le_rfl

/-- `serde_json::from_slice` recovers any rendered value exactly. -/
theorem jsonFromSlice_render (w : Json) : jsonFromSlice (render w) = some w := by
  have h := parseValue_render w ((render w).length + 1) [] (fuelFor_le_render w)
    (fun d hd => Option.noConfusion hd)
  rw [List.append_nil] at h
  simp only [jsonFromSlice, h]

/-! ## `sort_value` on canonical values, and key lookup through sorting -/

theorem sortFields_sorted : ∀ fs : List (String × Json),
    keysStrictSorted fs = true → sortFields fs = fs := by
  intro fs
  induction fs with
  | nil => intro _; rfl
  | cons f fs ih =>
    intro h
    cases fs with
    | nil => rfl
    | cons g rest =>
      simp only [keysStrictSorted, Bool.and_eq_true] at h
      simp only [sortFields]
      have h2 : insertField g (sortFields rest) = g :: rest := by
        have h3 := ih h.2
        simpa [sortFields] using h3
      rw [h2]
      simp only [insertField, h.1, if_true]

theorem sortValue_canon_main : ∀ N : Nat,
    (∀ v : Json, sizeOf v ≤ N → v.canonB = true → sortValue v = v) ∧
    (∀ xs : List Json, sizeOf xs ≤ N → canonElems xs = true → sortElems xs = xs) ∧
    (∀ fs : List (String × Json), sizeOf fs ≤ N → canonFields fs = true →
      sortInner fs = fs) := by
  intro N
  induction N with
  | zero =>
    refine ⟨fun v hsz => absurd hsz (by have := json_sizeOf_pos v; omega),
      fun xs hsz => absurd hsz (by have := list_sizeOf_pos xs; omega),
      fun fs hsz => absurd hsz (by have := list_sizeOf_pos fs; omega)⟩
  | succ N ih =>
    obtain ⟨ihV, ihE, ihI⟩ := ih
    refine ⟨?_, ?_, ?_⟩
    · intro v hsz hc
      cases v with
      | null => simp [sortValue]
      | bool b => simp [sortValue]
      | num n => simp [sortValue]
      | str s => simp [sortValue]
      | arr xs =>
        simp only [Json.canonB] at hc
        simp only [sortValue]
        rw [ihE xs (by simp at hsz; omega) hc]
      | obj fs =>
        simp only [Json.canonB, Bool.and_eq_true] at hc
        simp only [sortValue]
        rw [ihI fs (by simp at hsz; omega) hc.2, sortFields_sorted fs hc.1]
    · intro xs hsz hc
      cases xs with
      | nil => simp [sortElems]
      | cons x xs =>
        simp only [canonElems, Bool.and_eq_true] at hc
        simp only [sortElems]
        rw [ihV x (by simp at hsz; omega) hc.1, ihE xs (by simp at hsz; omega) hc.2]
    · intro fs hsz hc
      cases fs with
      | nil => simp [sortInner]
      | cons f0 fs =>
        obtain ⟨k, v2⟩ := f0
        simp only [canonFields, Bool.and_eq_true] at hc
        simp only [sortInner]
        rw [ihV v2 (by simp at hsz; omega) hc.1, ihI fs (by simp at hsz; omega) hc.2]

theorem sortValue_canon (v : Json) (h : v.canonB = true) : sortValue v = v :=
  (sortValue_canon_main (sizeOf v)).1 v le_rfl h

theorem lookup_append2 {α : Type} (l1 l2 : List (String × α)) (k : String) :
    (l1 ++ l2).lookup k =
      match l1.lookup k with
      | some v => some v
      | none => l2.lookup k := by
  induction l1 with
  | nil => simp
  | cons p l ih =>
    obtain ⟨k2, v2⟩ := p
    cases hkp : (k == k2) with
    | true => simp [List.lookup, hkp]
    | false => simp [List.lookup, hkp, ih]

theorem lookup_sortInner (fs : List (String × Json)) (k : String) :
    (sortInner fs).lookup k = (fs.lookup k).map sortValue := by
  induction fs with
  | nil => simp [sortInner]
  | cons f0 fs ih =>
    obtain ⟨k2, v2⟩ := f0
    simp only [sortInner]
    cases hkp : (k == k2) with
    | true => simp [List.lookup, hkp]
    | false => simp [List.lookup, hkp, ih]

theorem sortInner_keys (fs : List (String × Json)) :
    (sortInner fs).map Prod.fst = fs.map Prod.fst := by
  induction fs with
  | nil => rfl
  | cons f0 fs ih =>
    obtain ⟨k2, v2⟩ := f0
    simp only [sortInner, List.map_cons, ih]

theorem insertField_perm (f : String × Json) (l : List (String × Json)) :
    (insertField f l).Perm (f :: l) := by
  induction l with
  | nil => exact List.Perm.refl _
  | cons g gs ih =>
    simp only [insertField]
    by_cases hk : keyLt f.1 g.1
    · rw [if_pos hk]
    · rw [if_neg hk]
      exact (ih.cons g).trans (List.Perm.swap f g gs)

theorem sortFields_perm (fs : List (String × Json)) : (sortFields fs).Perm fs := by
  induction fs with
  | nil => exact List.Perm.refl _
  | cons f fs ih =>
    simp only [sortFields]
    exact (insertField_perm f _).trans (ih.cons f)

theorem lookup_eq_filterHead {α : Type} (l : List (String × α)) (k : String) :
    l.lookup k = ((l.filter fun p => k == p.1).head?).map Prod.snd := by
  induction l with
  | nil => simp
  | cons p l ih =>
    obtain ⟨k2, v2⟩ := p
    cases hkp : (k == k2) with
    | true => simp [List.lookup, List.filter_cons, hkp]
    | false => simp [List.lookup, List.filter_cons, hkp, ih]

theorem filter_key_len_le_one {α : Type} (l : List (String × α)) (k : String)
    (hn : (l.map Prod.fst).Nodup) : (l.filter fun p => k == p.1).length ≤ 1 := by
  induction l with
  | nil => simp
  | cons p l ih =>
    obtain ⟨k2, v2⟩ := p
    simp only [List.map_cons, List.nodup_cons] at hn
    cases hkp : (k == k2) with
    | false =>
      simp only [List.filter_cons, hkp]
      exact ih hn.2
    | true =>
      have hk2 : k = k2 := by simpa using hkp
      have hfl : l.filter (fun p => k == p.1) = [] := by
        rw [List.filter_eq_nil_iff]
        intro q hq hbq
        have hq1 : q.1 = k2 := by
          rw [← hk2]
          exact (beq_iff_eq.mp (by simpa using hbq)).symm
        exact hn.1 (hq1 ▸ List.mem_map.mpr ⟨q, hq, rfl⟩)
      simp [List.filter_cons, hkp, hfl]

theorem perm_length_le_one_eq {α : Type} (l1 l2 : List α) (h : l1.Perm l2)
    (h1 : l1.length ≤ 1) : l1 = l2 := by
  cases l1 with
  | nil => exact h.nil_eq
  | cons a l =>
    cases l with
    | nil => exact (List.perm_singleton.mp h.symm).symm
    | cons b t => exact absurd h1 (by simp)

theorem lookup_of_perm_nodup {α : Type} (l1 l2 : List (String × α)) (h : l1.Perm l2)
    (hn : (l1.map Prod.fst).Nodup) (k : String) : l1.lookup k = l2.lookup k := by
  rw [lookup_eq_filterHead, lookup_eq_filterHead]
  have hf := h.filter (fun p => k == p.1)
  rw [perm_length_le_one_eq _ _ hf (filter_key_len_le_one l1 k hn)]

/-- Looking a key up in the canonically sorted image of a
distinct-keyed field list finds the sorted original value. -/
theorem lookup_sorted_image (fs : List (String × Json)) (hn : (fs.map Prod.fst).Nodup)
    (k : String) :
    (sortFields (sortInner fs)).lookup k = (fs.lookup k).map sortValue := by
  have hn2 : ((sortInner fs).map Prod.fst).Nodup := by
    rw [sortInner_keys]
    exact hn
  rw [lookup_of_perm_nodup _ _ (sortFields_perm (sortInner fs)) (by
    have hp := (sortFields_perm (sortInner fs)).map Prod.fst
    exact (hp.nodup_iff).mpr hn2) k, lookup_sortInner]

theorem sortValue_str (s : String) : sortValue (Json.str s) = Json.str s := by
  simp [sortValue]

theorem sortValue_arr (xs : List Json) : sortValue (Json.arr xs) = Json.arr (sortElems xs) := by
  simp [sortValue]

theorem sortValue_obj (fs : List (String × Json)) :
    sortValue (Json.obj fs) = Json.obj (sortFields (sortInner fs)) := by
  simp [sortValue]

theorem sortElems_str (xs : List String) :
    sortElems (xs.map Json.str) = xs.map Json.str := by
  induction xs with
  | nil => simp [sortElems]
  | cons x t ih => simp [sortElems, sortValue_str, ih]

theorem sortElems_map {β : Type} (g : β → Json) (l : List β) :
    sortElems (l.map g) = l.map fun b => sortValue (g b) := by
  induction l with
  | nil => simp [sortElems]
  | cons x t ih => simp [sortElems, ih]

theorem mapM_loop_asStr (xs : List String) : ∀ acc : List String,
    List.mapM.loop Json.asStr (xs.map Json.str) acc = some (acc.reverse ++ xs) := by
  induction xs with
  | nil =>
    intro acc
    simp [List.mapM.loop, pure]
  | cons x t ih =>
    intro acc
    simp [List.mapM.loop, Json.asStr, bind, Option.bind, ih (x :: acc)]

theorem mapM_asStr (xs : List String) : (xs.map Json.str).mapM Json.asStr = some xs := by
  have h := mapM_loop_asStr xs []
  simp only [List.reverse_nil, List.nil_append] at h
  exact h

theorem mapM_loop_asStr_nil (xs : List String) :
    List.mapM.loop Json.asStr (xs.map Json.str) [] = some xs := by
  have h := mapM_loop_asStr xs []
  simpa using h

theorem decodeStrList_map (xs : List String) :
    decodeStrList (Json.arr (xs.map Json.str)) = some xs := by
  simp [decodeStrList, Json.asArr, bind, Option.bind, mapM_asStr, mapM_loop_asStr_nil]

theorem mapM_loop_of_forall {α β : Type} (f : α → Option β) (g : β → α) (l : List β)
    (h : ∀ b ∈ l, f (g b) = some b) : ∀ acc : List β,
    List.mapM.loop f (l.map g) acc = some (acc.reverse ++ l) := by
  induction l with
  | nil =>
    intro acc
    simp [List.mapM.loop, pure]
  | cons b t ih =>
    intro acc
    simp [List.mapM.loop, h b (List.mem_cons_self _ _), bind, Option.bind,
      ih (fun x hx => h x (List.mem_cons_of_mem _ hx)) (b :: acc)]

theorem mapM_of_forall {α β : Type} (f : α → Option β) (g : β → α) (l : List β)
    (h : ∀ b ∈ l, f (g b) = some b) : (l.map g).mapM f = some l := by
  have h2 := mapM_loop_of_forall f g l h []
  simp only [List.reverse_nil, List.nil_append] at h2
  exact h2

theorem mapM_loop_of_forall_nil {α β : Type} (f : α → Option β) (g : β → α) (l : List β)
    (h : ∀ b ∈ l, f (g b) = some b) : List.mapM.loop f (l.map g) [] = some l := by
  have h2 := mapM_loop_of_forall f g l h []
  simpa using h2

/-! ### Lookups into the serde field segments -/
theorem lookup_strListField_self (k : String) (xs : List String) :
    (strListField k xs).lookup k =
      if xs.isEmpty then none else some (Json.arr (xs.map Json.str)) := by
  simp only [strListField]
  split
  · rfl
  · simp [List.lookup]

theorem lookup_strListField_ne (k k2 : String) (xs : List String) (h : ¬ k2 = k) :
    (strListField k xs).lookup k2 = none := by
  simp only [strListField]
  split
  · rfl
  · simp [List.lookup, beq_eq_false_iff_ne.mpr h]

theorem lookup_optStrField_self (k : String) (o : Option String) :
    (optStrField k o).lookup k = o.map Json.str := by
  cases o <;> simp [optStrField, List.lookup]

theorem lookup_optStrField_ne (k k2 : String) (o : Option String) (h : ¬ k2 = k) :
    (optStrField k o).lookup k2 = none := by
  cases o <;> simp [optStrField, List.lookup, beq_eq_false_iff_ne.mpr h]

theorem lookup_metaField_self (m : List (String × Json)) :
    (metaField m).lookup "metadata" = if m.isEmpty then none else some (Json.obj m) := by
  simp only [metaField]
  split
  · rfl
  · simp [List.lookup]

theorem lookup_metaField_ne (k2 : String) (m : List (String × Json)) (h : ¬ k2 = "metadata") :
    (metaField m).lookup k2 = none := by
  simp only [metaField]
  split
  · rfl
  · simp [List.lookup, beq_eq_false_iff_ne.mpr h]

theorem lookup_ifsingle_self (c : Prop) [Decidable c] (k : String) (v : Json) :
    (if c then ([] : List (String × Json)) else [(k, v)]).lookup k =
      if c then none else some v := by
  split
  · rfl
  · simp [List.lookup]

theorem lookup_ifsingle_ne (c : Prop) [Decidable c] (k k2 : String) (v : Json)
    (h : ¬ k2 = k) :
    (if c then ([] : List (String × Json)) else [(k, v)]).lookup k2 = none := by
  split
  · rfl
  · simp [List.lookup, beq_eq_false_iff_ne.mpr h]

theorem keys_strListField (k : String) (xs : List String) :
    List.Sublist ((strListField k xs).map Prod.fst) [k] := by
  simp only [strListField]
  split
  · simp
  · simp

theorem keys_optStrField (k : String) (o : Option String) :
    List.Sublist ((optStrField k o).map Prod.fst) [k] := by
  cases o <;> simp [optStrField]

theorem keys_metaField (m : List (String × Json)) :
    List.Sublist ((metaField m).map Prod.fst) ["metadata"] := by
  simp only [metaField]
  split
  · simp
  · simp

theorem keys_ifsingle (c : Prop) [Decidable c] (k : String) (v : Json) :
    List.Sublist ((if c then ([] : List (String × Json)) else [(k, v)]).map Prod.fst)
      [k] := by
  split
  · simp
  · simp

/-! ### serde getters on looked-up shapes -/

theorem getStr_of (S : List (String × Json)) (k s : String)
    (h : S.lookup k = some (Json.str s)) : getStr S k = some s := by
  simp [getStr, h, Json.asStr, bind, Option.bind]

theorem getStrList_mixed (S : List (String × Json)) (k : String) (xs : List String)
    (h : S.lookup k = if xs.isEmpty then none else some (Json.arr (xs.map Json.str))) :
    getStrList S k = some xs := by
  by_cases hempty : xs.isEmpty = true
  · rw [if_pos hempty] at h
    rw [show xs = [] from by cases xs with | nil => rfl | cons a t => cases hempty]
    simp [getStrList, h]
  · rw [if_neg hempty] at h
    simp [getStrList, h, decodeStrList_map]

theorem getOptStr_opt (S : List (String × Json)) (k : String) (o : Option String)
    (h : S.lookup k = o.map Json.str) : getOptStr S k = some o := by
  cases o <;> simp [getOptStr, h]

theorem getMeta_mixed (S : List (String × Json)) (m : List (String × Json))
    (h : S.lookup "metadata" = if m.isEmpty then none else some (Json.obj m)) :
    getMeta S = some m := by
  by_cases hempty : m.isEmpty = true
  · rw [if_pos hempty] at h
    rw [show m = [] from by cases m with | nil => rfl | cons a t => cases hempty]
    simp [getMeta, h]
  · rw [if_neg hempty] at h
    simp [getMeta, h, Json.asObj]

/-! ### Sub-record and enum round-trips through `sort_value` -/

theorem author_roundtrip (a : Author) :
    Author.fromJson? (sortValue a.toJson) = some a := by
  obtain ⟨an, ae⟩ := a
  have hnodup : (([("name", Json.str an), ("email", Json.str ae)]).map Prod.fst).Nodup := by
    simp
  rw [show sortValue (Author.toJson ⟨an, ae⟩) =
      Json.obj (sortFields (sortInner [("name", Json.str an), ("email", Json.str ae)]))
    from by simp [Author.toJson, sortValue]]
  simp [Author.fromJson?, Json.asObj, getStr, bind, Option.bind, pure,
    lookup_sorted_image _ hnodup, List.lookup, Json.asStr, sortValue_str]

theorem behaviorClause_roundtrip (c : BehaviorClause) :
    BehaviorClause.fromJson? (sortValue c.toJson) = some c := by
  obtain ⟨cg, cw, ct⟩ := c
  have hnodup : (([("given", Json.str cg), ("when", Json.str cw),
      ("then", Json.str ct)]).map Prod.fst).Nodup := by simp
  rw [show sortValue (BehaviorClause.toJson ⟨cg, cw, ct⟩) =
      Json.obj (sortFields (sortInner [("given", Json.str cg), ("when", Json.str cw),
        ("then", Json.str ct)])) from by simp [BehaviorClause.toJson, sortValue]]
  simp [BehaviorClause.fromJson?, Json.asObj, getStr, bind, Option.bind, pure,
    lookup_sorted_image _ hnodup, List.lookup, Json.asStr, sortValue_str]

theorem alternative_roundtrip (a : Alternative) :
    Alternative.fromJson? (sortValue a.toJson) = some a := by
  obtain ⟨ad, ar⟩ := a
  have hnodup : (([("description", Json.str ad),
      ("rejection_reason", Json.str ar)]).map Prod.fst).Nodup := by simp
  rw [show sortValue (Alternative.toJson ⟨ad, ar⟩) =
      Json.obj (sortFields (sortInner [("description", Json.str ad),
        ("rejection_reason", Json.str ar)])) from by simp [Alternative.toJson, sortValue]]
  simp [Alternative.fromJson?, Json.asObj, getStr, bind, Option.bind, pure,
    lookup_sorted_image _ hnodup, List.lookup, Json.asStr, sortValue_str]

theorem behaviorChange_roundtrip (c : BehaviorChange) :
    BehaviorChange.fromJson? (sortValue c.toJson) = some c := by
  obtain ⟨cd, cb, ca⟩ := c
  cases cb with
  | none =>
    have hnodup : (([("description", Json.str cd),
        ("after", Json.str ca)]).map Prod.fst).Nodup := by simp
    rw [show sortValue (BehaviorChange.toJson ⟨cd, none, ca⟩) =
        Json.obj (sortFields (sortInner [("description", Json.str cd),
          ("after", Json.str ca)])) from by
      simp [BehaviorChange.toJson, optStrField, sortValue]]
    simp [BehaviorChange.fromJson?, Json.asObj, getStr, getOptStr, bind, Option.bind,
      pure, lookup_sorted_image _ hnodup, List.lookup, Json.asStr, sortValue_str]
  | some b =>
    have hnodup : (([("description", Json.str cd), ("before", Json.str b),
        ("after", Json.str ca)]).map Prod.fst).Nodup := by simp
    rw [show sortValue (BehaviorChange.toJson ⟨cd, some b, ca⟩) =
        Json.obj (sortFields (sortInner [("description", Json.str cd),
          ("before", Json.str b), ("after", Json.str ca)])) from by
      simp [BehaviorChange.toJson, optStrField, sortValue]]
    simp [BehaviorChange.fromJson?, Json.asObj, getStr, getOptStr, bind, Option.bind,
      pure, lookup_sorted_image _ hnodup, List.lookup, Json.asStr, sortValue_str]

theorem impactRadius_roundtrip (r : ImpactRadius) :
    ImpactRadius.fromJson? (sortValue r.toJson) = some r := by
  obtain ⟨rd, ri⟩ := r
  by_cases hind : ri.isEmpty = true
  · have hnil : ri = [] := by
      cases ri with
      | nil => rfl
      | cons a t => cases hind
    subst hnil
    have hnodup : (([("direct", Json.arr (rd.map Json.str))]).map Prod.fst).Nodup := by
      simp
    rw [show sortValue (ImpactRadius.toJson ⟨rd, []⟩) =
        Json.obj (sortFields (sortInner [("direct", Json.arr (rd.map Json.str))]))
      from by simp [ImpactRadius.toJson, strListField, sortValue]]
    simp [ImpactRadius.fromJson?, Json.asObj, getStrList, bind, Option.bind, pure,
      lookup_sorted_image _ hnodup, List.lookup, sortValue_arr, sortElems_str,
      decodeStrList_map]
  · have hnodup : (([("direct", Json.arr (rd.map Json.str)),
        ("indirect", Json.arr (ri.map Json.str))]).map Prod.fst).Nodup := by simp
    rw [show sortValue (ImpactRadius.toJson ⟨rd, ri⟩) =
        Json.obj (sortFields (sortInner [("direct", Json.arr (rd.map Json.str)),
          ("indirect", Json.arr (ri.map Json.str))])) from by
      simp [ImpactRadius.toJson, strListField, hind, sortValue]]
    simp [ImpactRadius.fromJson?, Json.asObj, getStrList, bind, Option.bind, pure,
      lookup_sorted_image _ hnodup, List.lookup, sortValue_arr, sortElems_str,
      decodeStrList_map]

theorem verificationStatus_roundtrip (s : VerificationStatus) :
    VerificationStatus.fromJson? (sortValue s.toJson) = some s := by
  cases s <;> simp [VerificationStatus.toJson, VerificationStatus.fromJson?, sortValue_str]

theorem verification_roundtrip (v : Verification) :
    Verification.fromJson? (sortValue v.toJson) = some v := by
  obtain ⟨vs, vd⟩ := v
  cases vd with
  | none =>
    have hnodup : (([("status", vs.toJson)]).map Prod.fst).Nodup := by simp
    rw [show sortValue (Verification.toJson ⟨vs, none⟩) =
        Json.obj (sortFields (sortInner [("status", vs.toJson)])) from by
      simp [Verification.toJson, optStrField, sortValue]]
    simp [Verification.fromJson?, Json.asObj, getOptStr, bind, Option.bind, pure,
      lookup_sorted_image _ hnodup, List.lookup, verificationStatus_roundtrip]
  | some d =>
    have hnodup : (([("status", vs.toJson),
        ("details", Json.str d)]).map Prod.fst).Nodup := by simp
    rw [show sortValue (Verification.toJson ⟨vs, some d⟩) =
        Json.obj (sortFields (sortInner [("status", vs.toJson),
          ("details", Json.str d)])) from by
      simp [Verification.toJson, optStrField, sortValue]]
    simp [Verification.fromJson?, Json.asObj, getOptStr, bind, Option.bind, pure,
      lookup_sorted_image _ hnodup, List.lookup, verificationStatus_roundtrip,
      sortValue_str]

theorem constraintSeverity_roundtrip (x : ConstraintSeverity) :
    ConstraintSeverity.fromJson? (sortValue x.toJson) = some x := by
  cases x <;> simp [ConstraintSeverity.toJson, ConstraintSeverity.fromJson?, sortValue_str]

theorem constraintStatus_roundtrip (x : ConstraintStatus) :
    ConstraintStatus.fromJson? (sortValue x.toJson) = some x := by
  cases x <;> simp [ConstraintStatus.toJson, ConstraintStatus.fromJson?, sortValue_str]

theorem bindingType_roundtrip (x : BindingType) :
    BindingType.fromJson? (sortValue x.toJson) = some x := by
  cases x <;> simp [BindingType.toJson, BindingType.fromJson?, sortValue_str]

theorem bindingResolution_roundtrip (x : BindingResolution) :
    BindingResolution.fromJson? (sortValue x.toJson) = some x := by
  cases x <;> simp [BindingResolution.toJson, BindingResolution.fromJson?, sortValue_str]

theorem operationType_roundtrip (x : OperationType) :
    OperationType.fromJson? (sortValue x.toJson) = some x := by
  cases x <;>
    simp [OperationType.toJson, OperationType.fromJson?, sortValue_str, sortValue,
      sortInner, sortFields, insertField]

theorem operationResult_roundtrip (x : OperationResult) :
    OperationResult.fromJson? (sortValue x.toJson) = some x := by
  cases x <;>
    simp [OperationResult.toJson, OperationResult.fromJson?, sortValue_str, sortValue,
      sortInner, sortFields, insertField]

/-! ### Record round-trips through `sort_value` -/

theorem intent_fromJson_of (S : List (String × Json)) (ia : Author) (its ist : String)
    (ico : List String) (ibs : List BehaviorClause) (ipa iim : List String)
    (ibd : Option String) (imd : List (String × Json))
    (h1 : S.lookup "author" = some (sortValue ia.toJson))
    (h2 : S.lookup "timestamp" = some (Json.str its))
    (h3 : S.lookup "statement" = some (Json.str ist))
    (h4 : S.lookup "constraints" = if ico.isEmpty then none
        else some (Json.arr (ico.map Json.str)))
    (h5 : S.lookup "behavior_spec" = if ibs.isEmpty then none
        else some (Json.arr (ibs.map fun b => sortValue b.toJson)))
    (h6 : S.lookup "parents" = if ipa.isEmpty then none
        else some (Json.arr (ipa.map Json.str)))
    (h7 : S.lookup "impacts" = if iim.isEmpty then none
        else some (Json.arr (iim.map Json.str)))
    (h8 : S.lookup "behavior_diff" = ibd.map Json.str)
    (h9 : S.lookup "metadata" = if imd.isEmpty then none else some (Json.obj imd)) :
    Intent.fromJson? (Json.obj S) = some ⟨ia, its, ist, ico, ibs, ipa, iim, ibd, imd⟩ := by
  have hb2 := getStr_of S _ _ h2
  have hb3 := getStr_of S _ _ h3
  have hb4 := getStrList_mixed S _ _ h4
  have hb6 := getStrList_mixed S _ _ h6
  have hb7 := getStrList_mixed S _ _ h7
  have hb8 := getOptStr_opt S _ _ h8
  have hb9 := getMeta_mixed S _ h9
  by_cases hbs : ibs.isEmpty = true
  · rw [if_pos hbs] at h5
    have hbsnil : ibs = [] := by
      cases ibs with
      | nil => rfl
      | cons a t => cases hbs
    subst hbsnil
    simp [Intent.fromJson?, Json.asObj, bind, Option.bind, pure, h1, h5, hb2, hb3, hb4,
      hb6, hb7, hb8, hb9, author_roundtrip]
  · rw [if_neg hbs] at h5
    have hbsm : (ibs.map fun b => sortValue b.toJson).mapM BehaviorClause.fromJson? =
        some ibs := mapM_of_forall _ _ _ (fun b _ => behaviorClause_roundtrip b)
    have hbsl : List.mapM.loop BehaviorClause.fromJson?
        (ibs.map fun b => sortValue b.toJson) [] = some ibs :=
      mapM_loop_of_forall_nil _ _ _ (fun b _ => behaviorClause_roundtrip b)
    simp [Intent.fromJson?, Json.asObj, bind, Option.bind, pure, h1, h5, hb2, hb3, hb4,
      hb6, hb7, hb8, hb9, author_roundtrip, Json.asArr, hbsm, hbsl]

theorem intent_roundtrip (i : Intent) (hm : (Json.obj i.metadata).canonB = true) :
    Intent.fromJson? (sortValue i.toJson) = some i := by
  obtain ⟨ia, its, ist, ico, ibs, ipa, iim, ibd, imd⟩ := i
  have hnodup : ((([("author", ia.toJson), ("timestamp", Json.str its),
      ("statement", Json.str ist)]
      ++ strListField "constraints" ico
      ++ (if ibs.isEmpty then []
          else [("behavior_spec", Json.arr (ibs.map BehaviorClause.toJson))])
      ++ strListField "parents" ipa
      ++ strListField "impacts" iim
      ++ optStrField "behavior_diff" ibd
      ++ metaField imd).map Prod.fst)).Nodup := by
    refine List.Nodup.sublist ?_ (by decide : List.Nodup
      (["author", "timestamp", "statement"] ++ ["constraints"] ++ ["behavior_spec"] ++
        ["parents"] ++ ["impacts"] ++ ["behavior_diff"] ++ ["metadata"]))
    simp only [List.map_append]
    exact ((((((List.Sublist.refl _).append (keys_strListField _ _)).append
      (keys_ifsingle _ _ _)).append (keys_strListField _ _)).append
      (keys_strListField _ _)).append (keys_optStrField _ _)).append (keys_metaField _)
  rw [show sortValue (Intent.toJson ⟨ia, its, ist, ico, ibs, ipa, iim, ibd, imd⟩) =
      Json.obj (sortFields (sortInner ([("author", ia.toJson),
        ("timestamp", Json.str its), ("statement", Json.str ist)]
        ++ strListField "constraints" ico
        ++ (if ibs.isEmpty then []
            else [("behavior_spec", Json.arr (ibs.map BehaviorClause.toJson))])
        ++ strListField "parents" ipa
        ++ strListField "impacts" iim
        ++ optStrField "behavior_diff" ibd
        ++ metaField imd))) from by simp only [Intent.toJson, sortValue]]
  apply intent_fromJson_of
  · rw [lookup_sorted_image _ hnodup]
    simp [lookup_append2, List.lookup, lookup_strListField_ne, lookup_optStrField_ne,
      lookup_metaField_ne, lookup_ifsingle_ne]
  · rw [lookup_sorted_image _ hnodup]
    simp [lookup_append2, List.lookup, lookup_strListField_ne, lookup_optStrField_ne,
      lookup_metaField_ne, lookup_ifsingle_ne, sortValue_str]
  · rw [lookup_sorted_image _ hnodup]
    simp [lookup_append2, List.lookup, lookup_strListField_ne, lookup_optStrField_ne,
      lookup_metaField_ne, lookup_ifsingle_ne, sortValue_str]
  · rw [lookup_sorted_image _ hnodup]
    by_cases hico : ico.isEmpty = true <;>
      simp [lookup_append2, List.lookup, lookup_strListField_self, lookup_strListField_ne,
        lookup_optStrField_ne, lookup_metaField_ne, lookup_ifsingle_ne, hico,
        sortValue_arr, sortElems_str]
  · rw [lookup_sorted_image _ hnodup]
    by_cases hbs2 : ibs.isEmpty = true <;>
      simp [lookup_append2, List.lookup, lookup_ifsingle_self, lookup_strListField_ne,
        lookup_optStrField_ne, lookup_metaField_ne, lookup_ifsingle_ne, hbs2,
        sortValue_arr, sortElems_map]
  · rw [lookup_sorted_image _ hnodup]
    by_cases hipa : ipa.isEmpty = true <;>
      simp [lookup_append2, List.lookup, lookup_strListField_self, lookup_strListField_ne,
        lookup_optStrField_ne, lookup_metaField_ne, lookup_ifsingle_ne, hipa,
        sortValue_arr, sortElems_str]
  · rw [lookup_sorted_image _ hnodup]
    by_cases hiim : iim.isEmpty = true <;>
      simp [lookup_append2, List.lookup, lookup_strListField_self, lookup_strListField_ne,
        lookup_optStrField_ne, lookup_metaField_ne, lookup_ifsingle_ne, hiim,
        sortValue_arr, sortElems_str]
  · rw [lookup_sorted_image _ hnodup]
    cases ibd <;>
      simp [lookup_append2, List.lookup, lookup_optStrField_self, lookup_strListField_ne,
        lookup_optStrField_ne, lookup_metaField_ne, lookup_ifsingle_ne, sortValue_str]
  · rw [lookup_sorted_image _ hnodup]
    by_cases hmd : imd.isEmpty = true <;>
      simp [lookup_append2, List.lookup, lookup_metaField_self, lookup_strListField_ne,
        lookup_optStrField_ne, lookup_metaField_ne, lookup_ifsingle_ne, hmd,
        sortValue_canon _ hm]

theorem behaviorDiff_fromJson_of (S : List (String × Json)) (iid : ObjectId)
    (chs : List BehaviorChange) (imp : ImpactRadius) (ver : Option Verification)
    (h1 : S.lookup "intent_id" = some (Json.str iid))
    (h2 : S.lookup "changes" = some (Json.arr (chs.map fun c => sortValue c.toJson)))
    (h3 : S.lookup "impact" = some (sortValue imp.toJson))
    (h4 : S.lookup "verification" = ver.map fun v => sortValue v.toJson) :
    BehaviorDiff.fromJson? (Json.obj S) = some ⟨iid, chs, imp, ver⟩ := by
  have hb1 := getStr_of S _ _ h1
  have hchm : List.mapM.loop BehaviorChange.fromJson?
      (chs.map fun c => sortValue c.toJson) [] = some chs :=
    mapM_loop_of_forall_nil _ _ _ (fun c _ => behaviorChange_roundtrip c)
  have hchm2 : (chs.map fun c => sortValue c.toJson).mapM BehaviorChange.fromJson? =
      some chs := mapM_of_forall _ _ _ (fun c _ => behaviorChange_roundtrip c)
  cases hver : ver with
  | none =>
    rw [hver] at h4
    simp [BehaviorDiff.fromJson?, Json.asObj, bind, Option.bind, pure, h1, h2, h3, h4,
      hb1, Json.asArr, hchm, hchm2, impactRadius_roundtrip]
  | some v =>
    rw [hver] at h4
    have hobj : ∃ gs, sortValue v.toJson = Json.obj gs := by
      obtain ⟨vs, vd⟩ := v
      cases vd with
      | none =>
        exact ⟨sortFields (sortInner [("status", vs.toJson)]), by
          simp [Verification.toJson, optStrField, sortValue]⟩
      | some d =>
        exact ⟨sortFields (sortInner [("status", vs.toJson), ("details", Json.str d)]), by
          simp [Verification.toJson, optStrField, sortValue]⟩
    obtain ⟨gs, hgs⟩ := hobj
    have hvrt : Verification.fromJson? (Json.obj gs) = some v := by
      rw [← hgs]
      exact verification_roundtrip v
    rw [show (some v).map (fun v => sortValue v.toJson) = some (Json.obj gs) from by
      simp [hgs]] at h4
    simp [BehaviorDiff.fromJson?, Json.asObj, bind, Option.bind, pure, h1, h2, h3, h4,
      hb1, Json.asArr, hchm, hchm2, impactRadius_roundtrip, hvrt]

theorem behaviorDiff_roundtrip (d : BehaviorDiff) :
    BehaviorDiff.fromJson? (sortValue d.toJson) = some d := by
  obtain ⟨iid, chs, imp, ver⟩ := d
  cases ver with
  | none =>
    have hnodup : ((([("intent_id", Json.str iid),
        ("changes", Json.arr (chs.map BehaviorChange.toJson)),
        ("impact", imp.toJson)] ++ ([] : List (String × Json))).map Prod.fst)).Nodup := by
      simp
    rw [show sortValue (BehaviorDiff.toJson ⟨iid, chs, imp, none⟩) =
        Json.obj (sortFields (sortInner ([("intent_id", Json.str iid),
          ("changes", Json.arr (chs.map BehaviorChange.toJson)),
          ("impact", imp.toJson)] ++ ([] : List (String × Json)))))
      from by simp only [BehaviorDiff.toJson, sortValue]]
    apply behaviorDiff_fromJson_of
    · rw [lookup_sorted_image _ hnodup]
      simp [lookup_append2, List.lookup, sortValue_str]
    · rw [lookup_sorted_image _ hnodup]
      simp [lookup_append2, List.lookup, sortValue_arr, sortElems_map]
    · rw [lookup_sorted_image _ hnodup]
      simp [lookup_append2, List.lookup]
    · rw [lookup_sorted_image _ hnodup]
      simp [lookup_append2, List.lookup]
  | some v =>
    have hnodup : ((([("intent_id", Json.str iid),
        ("changes", Json.arr (chs.map BehaviorChange.toJson)),
        ("impact", imp.toJson)] ++ [("verification", v.toJson)]).map Prod.fst)).Nodup := by
      simp
    rw [show sortValue (BehaviorDiff.toJson ⟨iid, chs, imp, some v⟩) =
        Json.obj (sortFields (sortInner ([("intent_id", Json.str iid),
          ("changes", Json.arr (chs.map BehaviorChange.toJson)),
          ("impact", imp.toJson)] ++ [("verification", v.toJson)])))
      from by simp only [BehaviorDiff.toJson, sortValue]]
    apply behaviorDiff_fromJson_of
    · rw [lookup_sorted_image _ hnodup]
      simp [lookup_append2, List.lookup, sortValue_str]
    · rw [lookup_sorted_image _ hnodup]
      simp [lookup_append2, List.lookup, sortValue_arr, sortElems_map]
    · rw [lookup_sorted_image _ hnodup]
      simp [lookup_append2, List.lookup]
    · rw [lookup_sorted_image _ hnodup]
      simp [lookup_append2, List.lookup]

theorem snapshot_fromJson_of (S : List (String × Json)) (sn : String)
    (st : ObjectId) (sc : String) (sd sp : Option String)
    (h1 : S.lookup "name" = some (Json.str sn))
    (h2 : S.lookup "tip" = some (Json.str st))
    (h3 : S.lookup "created_at" = some (Json.str sc))
    (h4 : S.lookup "description" = sd.map Json.str)
    (h5 : S.lookup "parent_stream" = sp.map Json.str) :
    IntentStreamSnapshot.fromJson? (Json.obj S) = some ⟨sn, st, sc, sd, sp⟩ := by
  have hb1 := getStr_of S _ _ h1
  have hb2 := getStr_of S _ _ h2
  have hb3 := getStr_of S _ _ h3
  have hb4 := getOptStr_opt S _ _ h4
  have hb5 := getOptStr_opt S _ _ h5
  simp [IntentStreamSnapshot.fromJson?, Json.asObj, bind, Option.bind, pure, hb1, hb2,
    hb3, hb4, hb5]

theorem snapshot_roundtrip (s : IntentStreamSnapshot) :
    IntentStreamSnapshot.fromJson? (sortValue s.toJson) = some s := by
  obtain ⟨sn, st, sc, sd, sp⟩ := s
  have hnodup : ((([("name", Json.str sn), ("tip", Json.str st),
      ("created_at", Json.str sc)]
      ++ optStrField "description" sd
      ++ optStrField "parent_stream" sp).map Prod.fst)).Nodup := by
    refine List.Nodup.sublist ?_ (by decide : List.Nodup
      (["name", "tip", "created_at"] ++ ["description"] ++ ["parent_stream"]))
    simp only [List.map_append]
    exact ((List.Sublist.refl _).append (keys_optStrField _ _)).append
      (keys_optStrField _ _)
  rw [show sortValue (IntentStreamSnapshot.toJson ⟨sn, st, sc, sd, sp⟩) =
      Json.obj (sortFields (sortInner ([("name", Json.str sn), ("tip", Json.str st),
        ("created_at", Json.str sc)]
        ++ optStrField "description" sd
        ++ optStrField "parent_stream" sp)))
    from by simp only [IntentStreamSnapshot.toJson, sortValue]]
  apply snapshot_fromJson_of
  · rw [lookup_sorted_image _ hnodup]
    simp [lookup_append2, List.lookup, lookup_optStrField_ne, sortValue_str]
  · rw [lookup_sorted_image _ hnodup]
    simp [lookup_append2, List.lookup, lookup_optStrField_ne, sortValue_str]
  · rw [lookup_sorted_image _ hnodup]
    simp [lookup_append2, List.lookup, lookup_optStrField_ne, sortValue_str]
  · rw [lookup_sorted_image _ hnodup]
    cases sd <;>
      simp [lookup_append2, List.lookup, lookup_optStrField_self, lookup_optStrField_ne,
        sortValue_str]
  · rw [lookup_sorted_image _ hnodup]
    cases sp <;>
      simp [lookup_append2, List.lookup, lookup_optStrField_self, lookup_optStrField_ne,
        sortValue_str]

theorem decisionRecord_fromJson_of (S : List (String × Json)) (iid : ObjectId)
    (ia : Author) (ts q de : String) (ra : Option String) (al : List Alternative)
    (tg : List String)
    (h1 : S.lookup "intent_id" = some (Json.str iid))
    (h2 : S.lookup "author" = some (sortValue ia.toJson))
    (h3 : S.lookup "timestamp" = some (Json.str ts))
    (h4 : S.lookup "question" = some (Json.str q))
    (h5 : S.lookup "decision" = some (Json.str de))
    (h6 : S.lookup "rationale" = ra.map Json.str)
    (h7 : S.lookup "alternatives" = if al.isEmpty then none
        else some (Json.arr (al.map fun x => sortValue x.toJson)))
    (h8 : S.lookup "tags" = if tg.isEmpty then none
        else some (Json.arr (tg.map Json.str))) :
    DecisionRecord.fromJson? (Json.obj S) = some ⟨iid, ia, ts, q, de, ra, al, tg⟩ := by
  have hb1 := getStr_of S _ _ h1
  have hb3 := getStr_of S _ _ h3
  have hb4 := getStr_of S _ _ h4
  have hb5 := getStr_of S _ _ h5
  have hb6 := getOptStr_opt S _ _ h6
  have hb8 := getStrList_mixed S _ _ h8
  by_cases hal : al.isEmpty = true
  · rw [if_pos hal] at h7
    have halnil : al = [] := by
      cases al with
      | nil => rfl
      | cons a t => cases hal
    subst halnil
    simp [DecisionRecord.fromJson?, Json.asObj, bind, Option.bind, pure, h2, h7, hb1,
      hb3, hb4, hb5, hb6, hb8, author_roundtrip]
  · rw [if_neg hal] at h7
    have halm : (al.map fun x => sortValue x.toJson).mapM Alternative.fromJson? =
        some al := mapM_of_forall _ _ _ (fun x _ => alternative_roundtrip x)
    have hall : List.mapM.loop Alternative.fromJson?
        (al.map fun x => sortValue x.toJson) [] = some al :=
      mapM_loop_of_forall_nil _ _ _ (fun x _ => alternative_roundtrip x)
    simp [DecisionRecord.fromJson?, Json.asObj, bind, Option.bind, pure, h2, h7, hb1,
      hb3, hb4, hb5, hb6, hb8, author_roundtrip, Json.asArr, halm, hall]

theorem decisionRecord_roundtrip (r : DecisionRecord) :
    DecisionRecord.fromJson? (sortValue r.toJson) = some r := by
  obtain ⟨iid, ia, ts, q, de, ra, al, tg⟩ := r
  have hnodup : ((([("intent_id", Json.str iid), ("author", ia.toJson),
      ("timestamp", Json.str ts), ("question", Json.str q), ("decision", Json.str de)]
      ++ optStrField "rationale" ra
      ++ (if al.isEmpty then []
          else [("alternatives", Json.arr (al.map Alternative.toJson))])
      ++ strListField "tags" tg).map Prod.fst)).Nodup := by
    refine List.Nodup.sublist ?_ (by decide : List.Nodup
      (["intent_id", "author", "timestamp", "question", "decision"] ++ ["rationale"] ++
        ["alternatives"] ++ ["tags"]))
    simp only [List.map_append]
    exact (((List.Sublist.refl _).append (keys_optStrField _ _)).append
      (keys_ifsingle _ _ _)).append (keys_strListField _ _)
  rw [show sortValue (DecisionRecord.toJson ⟨iid, ia, ts, q, de, ra, al, tg⟩) =
      Json.obj (sortFields (sortInner ([("intent_id", Json.str iid),
        ("author", ia.toJson), ("timestamp", Json.str ts), ("question", Json.str q),
        ("decision", Json.str de)]
        ++ optStrField "rationale" ra
        ++ (if al.isEmpty then []
            else [("alternatives", Json.arr (al.map Alternative.toJson))])
        ++ strListField "tags" tg)))
    from by simp only [DecisionRecord.toJson, sortValue]]
  apply decisionRecord_fromJson_of
  · rw [lookup_sorted_image _ hnodup]
    simp [lookup_append2, List.lookup, lookup_optStrField_ne, lookup_ifsingle_ne,
      lookup_strListField_ne, sortValue_str]
  · rw [lookup_sorted_image _ hnodup]
    simp [lookup_append2, List.lookup, lookup_optStrField_ne, lookup_ifsingle_ne,
      lookup_strListField_ne]
  · rw [lookup_sorted_image _ hnodup]
    simp [lookup_append2, List.lookup, lookup_optStrField_ne, lookup_ifsingle_ne,
      lookup_strListField_ne, sortValue_str]
  · rw [lookup_sorted_image _ hnodup]
    simp [lookup_append2, List.lookup, lookup_optStrField_ne, lookup_ifsingle_ne,
      lookup_strListField_ne, sortValue_str]
  · rw [lookup_sorted_image _ hnodup]
    simp [lookup_append2, List.lookup, lookup_optStrField_ne, lookup_ifsingle_ne,
      lookup_strListField_ne, sortValue_str]
  · rw [lookup_sorted_image _ hnodup]
    cases ra <;>
      simp [lookup_append2, List.lookup, lookup_optStrField_self, lookup_optStrField_ne,
        lookup_ifsingle_ne, lookup_strListField_ne, sortValue_str]
  · rw [lookup_sorted_image _ hnodup]
    by_cases hal2 : al.isEmpty = true <;>
      simp [lookup_append2, List.lookup, lookup_ifsingle_self, lookup_optStrField_ne,
        lookup_ifsingle_ne, lookup_strListField_ne, hal2, sortValue_arr, sortElems_map]
  · rw [lookup_sorted_image _ hnodup]
    by_cases htg : tg.isEmpty = true <;>
      simp [lookup_append2, List.lookup, lookup_strListField_self, lookup_optStrField_ne,
        lookup_ifsingle_ne, lookup_strListField_ne, htg, sortValue_arr, sortElems_str]

theorem constraint_fromJson_of (S : List (String × Json)) (ia : Author)
    (ts st : String) (sev : ConstraintSeverity) (stat : ConstraintStatus)
    (src : ObjectId) (sup dep : Option String) (sc im : List String)
    (m : List (String × Json))
    (h1 : S.lookup "author" = some (sortValue ia.toJson))
    (h2 : S.lookup "timestamp" = some (Json.str ts))
    (h3 : S.lookup "statement" = some (Json.str st))
    (h4 : S.lookup "severity" = some (sortValue sev.toJson))
    (h5 : S.lookup "status" = some (sortValue stat.toJson))
    (h6 : S.lookup "source_intent" = some (Json.str src))
    (h7 : S.lookup "superseded_by" = sup.map Json.str)
    (h8 : S.lookup "deprecation_reason" = dep.map Json.str)
    (h9 : S.lookup "scope" = if sc.isEmpty then none
        else some (Json.arr (sc.map Json.str)))
    (h10 : S.lookup "impacts" = if im.isEmpty then none
        else some (Json.arr (im.map Json.str)))
    (h11 : S.lookup "metadata" = if m.isEmpty then none else some (Json.obj m)) :
    Constraint.fromJson? (Json.obj S) =
      some ⟨ia, ts, st, sev, stat, src, sup, dep, sc, im, m⟩ := by
  have hb2 := getStr_of S _ _ h2
  have hb3 := getStr_of S _ _ h3
  have hb6 := getStr_of S _ _ h6
  have hb7 := getOptStr_opt S _ _ h7
  have hb8 := getOptStr_opt S _ _ h8
  have hb9 := getStrList_mixed S _ _ h9
  have hb10 := getStrList_mixed S _ _ h10
  have hb11 := getMeta_mixed S _ h11
  simp [Constraint.fromJson?, Json.asObj, bind, Option.bind, pure, h1, h4, h5, hb2, hb3,
    hb6, hb7, hb8, hb9, hb10, hb11, author_roundtrip, constraintSeverity_roundtrip,
    constraintStatus_roundtrip]

theorem constraint_roundtrip (c : Constraint) (hm : (Json.obj c.metadata).canonB = true) :
    Constraint.fromJson? (sortValue c.toJson) = some c := by
  obtain ⟨ia, ts, st, sev, stat, src, sup, dep, sc, im, m⟩ := c
  have hnodup : ((([("author", ia.toJson), ("timestamp", Json.str ts),
      ("statement", Json.str st), ("severity", sev.toJson), ("status", stat.toJson),
      ("source_intent", Json.str src)]
      ++ optStrField "superseded_by" sup
      ++ optStrField "deprecation_reason" dep
      ++ strListField "scope" sc
      ++ strListField "impacts" im
      ++ metaField m).map Prod.fst)).Nodup := by
    refine List.Nodup.sublist ?_ (by decide : List.Nodup
      (["author", "timestamp", "statement", "severity", "status", "source_intent"] ++
        ["superseded_by"] ++ ["deprecation_reason"] ++ ["scope"] ++ ["impacts"] ++
        ["metadata"]))
    simp only [List.map_append]
    exact (((((List.Sublist.refl _).append (keys_optStrField _ _)).append
      (keys_optStrField _ _)).append (keys_strListField _ _)).append
      (keys_strListField _ _)).append (keys_metaField _)
  rw [show sortValue (Constraint.toJson ⟨ia, ts, st, sev, stat, src, sup, dep, sc, im, m⟩) =
      Json.obj (sortFields (sortInner ([("author", ia.toJson), ("timestamp", Json.str ts),
        ("statement", Json.str st), ("severity", sev.toJson), ("status", stat.toJson),
        ("source_intent", Json.str src)]
        ++ optStrField "superseded_by" sup
        ++ optStrField "deprecation_reason" dep
        ++ strListField "scope" sc
        ++ strListField "impacts" im
        ++ metaField m)))
    from by simp only [Constraint.toJson, sortValue]]
  apply constraint_fromJson_of
  · rw [lookup_sorted_image _ hnodup]
    simp [lookup_append2, List.lookup, lookup_optStrField_ne, lookup_strListField_ne,
      lookup_metaField_ne]
  · rw [lookup_sorted_image _ hnodup]
    simp [lookup_append2, List.lookup, lookup_optStrField_ne, lookup_strListField_ne,
      lookup_metaField_ne, sortValue_str]
  · rw [lookup_sorted_image _ hnodup]
    simp [lookup_append2, List.lookup, lookup_optStrField_ne, lookup_strListField_ne,
      lookup_metaField_ne, sortValue_str]
  · rw [lookup_sorted_image _ hnodup]
    simp [lookup_append2, List.lookup, lookup_optStrField_ne, lookup_strListField_ne,
      lookup_metaField_ne]
  · rw [lookup_sorted_image _ hnodup]
    simp [lookup_append2, List.lookup, lookup_optStrField_ne, lookup_strListField_ne,
      lookup_metaField_ne]
  · rw [lookup_sorted_image _ hnodup]
    simp [lookup_append2, List.lookup, lookup_optStrField_ne, lookup_strListField_ne,
      lookup_metaField_ne, sortValue_str]
  · rw [lookup_sorted_image _ hnodup]
    cases sup <;>
      simp [lookup_append2, List.lookup, lookup_optStrField_self, lookup_optStrField_ne,
        lookup_strListField_ne, lookup_metaField_ne, sortValue_str]
  · rw [lookup_sorted_image _ hnodup]
    cases dep <;>
      simp [lookup_append2, List.lookup, lookup_optStrField_self, lookup_optStrField_ne,
        lookup_strListField_ne, lookup_metaField_ne, sortValue_str]
  · rw [lookup_sorted_image _ hnodup]
    by_cases hsc : sc.isEmpty = true <;>
      simp [lookup_append2, List.lookup, lookup_strListField_self, lookup_optStrField_ne,
        lookup_strListField_ne, lookup_metaField_ne, hsc, sortValue_arr, sortElems_str]
  · rw [lookup_sorted_image _ hnodup]
    by_cases him : im.isEmpty = true <;>
      simp [lookup_append2, List.lookup, lookup_strListField_self, lookup_optStrField_ne,
        lookup_strListField_ne, lookup_metaField_ne, him, sortValue_arr, sortElems_str]
  · rw [lookup_sorted_image _ hnodup]
    by_cases hmd : m.isEmpty = true <;>
      simp [lookup_append2, List.lookup, lookup_metaField_self, lookup_optStrField_ne,
        lookup_strListField_ne, lookup_metaField_ne, hmd, sortValue_canon _ hm]

theorem sortValue_num (n : Int) : sortValue (Json.num n) = Json.num n := by
  simp [sortValue]

theorem gs_abstract (S : List (String × Json)) (j1 j2 : Json)
    (h : S.lookup "span" = some (Json.arr [j1, j2])) :
    getSpan S = (j1.asU32 >>= fun a => j2.asU32 >>= fun b => pure (some (a, b))) := by
  simp [getSpan, h]

theorem asU32_nat (x : Nat) (hx : x < 4294967296) :
    (Json.num (x : Int)).asU32 = some x := by
  have hxc : ((x : Int) < 4294967296) := by exact_mod_cast hx
  simp [Json.asU32, hxc, Int.natCast_nonneg, Int.toNat_natCast]

theorem getSpan_of (S : List (String × Json)) (osp : Option (Nat × Nat))
    (hrange : ∀ x y, osp = some (x, y) → x < 4294967296 ∧ y < 4294967296)
    (h : S.lookup "span" = osp.map fun q =>
        Json.arr [Json.num (q.1 : Int), Json.num (q.2 : Int)]) :
    getSpan S = some osp := by
  cases osp with
  | none =>
      have h2 : S.lookup "span" = none := h
      simp [getSpan, h2]
  | some q =>
      obtain ⟨x, y⟩ := q
      obtain ⟨hx, hy⟩ := hrange x y rfl
      have h2 : S.lookup "span" =
          some (Json.arr [Json.num (x : Int), Json.num (y : Int)]) := h
      rw [gs_abstract S _ _ h2, asU32_nat x hx, asU32_nat y hy]
      rfl

theorem codeBinding_fromJson_of (S : List (String × Json)) (p : String)
    (sy : Option String) (osp : Option (Nat × Nat)) (bt : BindingType)
    (rs : BindingResolution) (bo : ObjectId) (m : List (String × Json))
    (hrange : ∀ x y, osp = some (x, y) → x < 4294967296 ∧ y < 4294967296)
    (h1 : S.lookup "path" = some (Json.str p))
    (h2 : S.lookup "symbol" = sy.map Json.str)
    (h3 : S.lookup "span" = osp.map fun q =>
        Json.arr [Json.num (q.1 : Int), Json.num (q.2 : Int)])
    (h4 : S.lookup "binding_type" = some (sortValue bt.toJson))
    (h5 : S.lookup "resolution" = some (sortValue rs.toJson))
    (h6 : S.lookup "bound_object" = some (Json.str bo))
    (h7 : S.lookup "metadata" = if m.isEmpty then none else some (Json.obj m)) :
    CodeBinding.fromJson? (Json.obj S) = some ⟨p, sy, osp, bt, rs, bo, m⟩ := by
  have hb1 := getStr_of S _ _ h1
  have hb2 := getOptStr_opt S _ _ h2
  have hb3 := getSpan_of S _ hrange h3
  have hb6 := getStr_of S _ _ h6
  have hb7 := getMeta_mixed S _ h7
  simp [CodeBinding.fromJson?, Json.asObj, bind, Option.bind, pure, hb1, hb2, hb3,
    h4, h5, hb6, hb7, bindingType_roundtrip, bindingResolution_roundtrip]

theorem codeBinding_roundtrip (b : CodeBinding)
    (hm : (Json.obj b.metadata).canonB = true)
    (hspan : ∀ x y, b.span = some (x, y) → x < 4294967296 ∧ y < 4294967296) :
    CodeBinding.fromJson? (sortValue b.toJson) = some b := by
  obtain ⟨p, sy, osp, bt, rs, bo, m⟩ := b
  cases osp with
  | none =>
      have hnodup : ((([("path", Json.str p)]
          ++ optStrField "symbol" sy
          ++ ([] : List (String × Json))
          ++ [("binding_type", bt.toJson), ("resolution", rs.toJson),
              ("bound_object", Json.str bo)]
          ++ metaField m).map Prod.fst)).Nodup := by
        refine List.Nodup.sublist ?_ (by decide : List.Nodup
          (["path"] ++ ["symbol"] ++ ["span"] ++
            ["binding_type", "resolution", "bound_object"] ++ ["metadata"]))
        simp only [List.map_append]
        exact ((((List.Sublist.refl _).append (keys_optStrField _ _)).append
          (List.nil_sublist _)).append (List.Sublist.refl _)).append (keys_metaField _)
      rw [show sortValue (CodeBinding.toJson ⟨p, sy, none, bt, rs, bo, m⟩) =
          Json.obj (sortFields (sortInner ([("path", Json.str p)]
            ++ optStrField "symbol" sy
            ++ ([] : List (String × Json))
            ++ [("binding_type", bt.toJson), ("resolution", rs.toJson),
                ("bound_object", Json.str bo)]
            ++ metaField m)))
        from by simp only [CodeBinding.toJson, sortValue]]
      apply codeBinding_fromJson_of
      · intro x y hxy
        cases hxy
      · rw [lookup_sorted_image _ hnodup]
        simp [lookup_append2, List.lookup, lookup_optStrField_ne, lookup_metaField_ne,
          sortValue_str]
      · rw [lookup_sorted_image _ hnodup]
        cases sy <;>
          simp [lookup_append2, List.lookup, lookup_optStrField_self,
            lookup_optStrField_ne, lookup_metaField_ne, sortValue_str]
      · rw [lookup_sorted_image _ hnodup]
        simp [lookup_append2, List.lookup, lookup_optStrField_ne, lookup_metaField_ne]
      · rw [lookup_sorted_image _ hnodup]
        simp [lookup_append2, List.lookup, lookup_optStrField_ne, lookup_metaField_ne]
      · rw [lookup_sorted_image _ hnodup]
        simp [lookup_append2, List.lookup, lookup_optStrField_ne, lookup_metaField_ne]
      · rw [lookup_sorted_image _ hnodup]
        simp [lookup_append2, List.lookup, lookup_optStrField_ne, lookup_metaField_ne,
          sortValue_str]
      · rw [lookup_sorted_image _ hnodup]
        by_cases hmd : m.isEmpty = true <;>
          simp [lookup_append2, List.lookup, lookup_metaField_self,
            lookup_optStrField_ne, lookup_metaField_ne, hmd, sortValue_canon _ hm]
  | some q =>
      obtain ⟨x0, y0⟩ := q
      have hnodup : ((([("path", Json.str p)]
          ++ optStrField "symbol" sy
          ++ [("span", Json.arr [Json.num (x0 : Int), Json.num (y0 : Int)])]
          ++ [("binding_type", bt.toJson), ("resolution", rs.toJson),
              ("bound_object", Json.str bo)]
          ++ metaField m).map Prod.fst)).Nodup := by
        refine List.Nodup.sublist ?_ (by decide : List.Nodup
          (["path"] ++ ["symbol"] ++ ["span"] ++
            ["binding_type", "resolution", "bound_object"] ++ ["metadata"]))
        simp only [List.map_append]
        exact ((((List.Sublist.refl _).append (keys_optStrField _ _)).append
          (List.Sublist.refl _)).append (List.Sublist.refl _)).append (keys_metaField _)
      rw [show sortValue (CodeBinding.toJson ⟨p, sy, some (x0, y0), bt, rs, bo, m⟩) =
          Json.obj (sortFields (sortInner ([("path", Json.str p)]
            ++ optStrField "symbol" sy
            ++ [("span", Json.arr [Json.num (x0 : Int), Json.num (y0 : Int)])]
            ++ [("binding_type", bt.toJson), ("resolution", rs.toJson),
                ("bound_object", Json.str bo)]
            ++ metaField m)))
        from by simp only [CodeBinding.toJson, sortValue]]
      apply codeBinding_fromJson_of
      · intro x y hxy
        injection hxy with hq
        cases hq
        exact hspan _ _ rfl
      · rw [lookup_sorted_image _ hnodup]
        simp [lookup_append2, List.lookup, lookup_optStrField_ne, lookup_metaField_ne,
          sortValue_str]
      · rw [lookup_sorted_image _ hnodup]
        cases sy <;>
          simp [lookup_append2, List.lookup, lookup_optStrField_self,
            lookup_optStrField_ne, lookup_metaField_ne, sortValue_str]
      · rw [lookup_sorted_image _ hnodup]
        simp [lookup_append2, List.lookup, lookup_optStrField_ne, lookup_metaField_ne,
          sortValue_arr, sortElems, sortValue_num]
      · rw [lookup_sorted_image _ hnodup]
        simp [lookup_append2, List.lookup, lookup_optStrField_ne, lookup_metaField_ne]
      · rw [lookup_sorted_image _ hnodup]
        simp [lookup_append2, List.lookup, lookup_optStrField_ne, lookup_metaField_ne]
      · rw [lookup_sorted_image _ hnodup]
        simp [lookup_append2, List.lookup, lookup_optStrField_ne, lookup_metaField_ne,
          sortValue_str]
      · rw [lookup_sorted_image _ hnodup]
        by_cases hmd : m.isEmpty = true <;>
          simp [lookup_append2, List.lookup, lookup_metaField_self,
            lookup_optStrField_ne, lookup_metaField_ne, hmd, sortValue_canon _ hm]

theorem agentOperation_fromJson_of (S : List (String × Json)) (ag se ts : String)
    (op : OperationType) (re : OperationResult) (su : String) (cr ft : List String)
    (po : Option String) (m : List (String × Json))
    (h1 : S.lookup "agent_id" = some (Json.str ag))
    (h2 : S.lookup "session_id" = some (Json.str se))
    (h3 : S.lookup "timestamp" = some (Json.str ts))
    (h4 : S.lookup "operation" = some (sortValue op.toJson))
    (h5 : S.lookup "result" = some (sortValue re.toJson))
    (h6 : S.lookup "summary" = some (Json.str su))
    (h7 : S.lookup "context_refs" = if cr.isEmpty then none
        else some (Json.arr (cr.map Json.str)))
    (h8 : S.lookup "files_touched" = if ft.isEmpty then none
        else some (Json.arr (ft.map Json.str)))
    (h9 : S.lookup "parent_op" = po.map Json.str)
    (h10 : S.lookup "metadata" = if m.isEmpty then none else some (Json.obj m)) :
    AgentOperation.fromJson? (Json.obj S) =
      some ⟨ag, se, ts, op, re, su, cr, ft, po, m⟩ := by
  have hb1 := getStr_of S _ _ h1
  have hb2 := getStr_of S _ _ h2
  have hb3 := getStr_of S _ _ h3
  have hb6 := getStr_of S _ _ h6
  have hb7 := getStrList_mixed S _ _ h7
  have hb8 := getStrList_mixed S _ _ h8
  have hb9 := getOptStr_opt S _ _ h9
  have hb10 := getMeta_mixed S _ h10
  simp [AgentOperation.fromJson?, Json.asObj, bind, Option.bind, pure, h4, h5, hb1,
    hb2, hb3, hb6, hb7, hb8, hb9, hb10, operationType_roundtrip,
    operationResult_roundtrip]

theorem agentOperation_roundtrip (o : AgentOperation)
    (hm : (Json.obj o.metadata).canonB = true) :
    AgentOperation.fromJson? (sortValue o.toJson) = some o := by
  obtain ⟨ag, se, ts, op, re, su, cr, ft, po, m⟩ := o
  have hnodup : ((([("agent_id", Json.str ag), ("session_id", Json.str se),
      ("timestamp", Json.str ts), ("operation", op.toJson), ("result", re.toJson),
      ("summary", Json.str su)]
      ++ strListField "context_refs" cr
      ++ strListField "files_touched" ft
      ++ optStrField "parent_op" po
      ++ metaField m).map Prod.fst)).Nodup := by
    refine List.Nodup.sublist ?_ (by decide : List.Nodup
      (["agent_id", "session_id", "timestamp", "operation", "result", "summary"] ++
        ["context_refs"] ++ ["files_touched"] ++ ["parent_op"] ++ ["metadata"]))
    simp only [List.map_append]
    exact ((((List.Sublist.refl _).append (keys_strListField _ _)).append
      (keys_strListField _ _)).append (keys_optStrField _ _)).append (keys_metaField _)
  rw [show sortValue (AgentOperation.toJson ⟨ag, se, ts, op, re, su, cr, ft, po, m⟩) =
      Json.obj (sortFields (sortInner ([("agent_id", Json.str ag),
        ("session_id", Json.str se), ("timestamp", Json.str ts),
        ("operation", op.toJson), ("result", re.toJson), ("summary", Json.str su)]
        ++ strListField "context_refs" cr
        ++ strListField "files_touched" ft
        ++ optStrField "parent_op" po
        ++ metaField m)))
    from by simp only [AgentOperation.toJson, sortValue]]
  apply agentOperation_fromJson_of
  · rw [lookup_sorted_image _ hnodup]
    simp [lookup_append2, List.lookup, lookup_strListField_ne, lookup_optStrField_ne,
      lookup_metaField_ne, sortValue_str]
  · rw [lookup_sorted_image _ hnodup]
    simp [lookup_append2, List.lookup, lookup_strListField_ne, lookup_optStrField_ne,
      lookup_metaField_ne, sortValue_str]
  · rw [lookup_sorted_image _ hnodup]
    simp [lookup_append2, List.lookup, lookup_strListField_ne, lookup_optStrField_ne,
      lookup_metaField_ne, sortValue_str]
  · rw [lookup_sorted_image _ hnodup]
    simp [lookup_append2, List.lookup, lookup_strListField_ne, lookup_optStrField_ne,
      lookup_metaField_ne]
  · rw [lookup_sorted_image _ hnodup]
    simp [lookup_append2, List.lookup, lookup_strListField_ne, lookup_optStrField_ne,
      lookup_metaField_ne]
  · rw [lookup_sorted_image _ hnodup]
    simp [lookup_append2, List.lookup, lookup_strListField_ne, lookup_optStrField_ne,
      lookup_metaField_ne, sortValue_str]
  · rw [lookup_sorted_image _ hnodup]
    by_cases hcr : cr.isEmpty = true <;>
      simp [lookup_append2, List.lookup, lookup_strListField_self, lookup_strListField_ne,
        lookup_optStrField_ne, lookup_metaField_ne, hcr, sortValue_arr, sortElems_str]
  · rw [lookup_sorted_image _ hnodup]
    by_cases hft : ft.isEmpty = true <;>
      simp [lookup_append2, List.lookup, lookup_strListField_self, lookup_strListField_ne,
        lookup_optStrField_ne, lookup_metaField_ne, hft, sortValue_arr, sortElems_str]
  · rw [lookup_sorted_image _ hnodup]
    cases po <;>
      simp [lookup_append2, List.lookup, lookup_optStrField_self, lookup_strListField_ne,
        lookup_optStrField_ne, lookup_metaField_ne, sortValue_str]
  · rw [lookup_sorted_image _ hnodup]
    by_cases hmd : m.isEmpty = true <;>
      simp [lookup_append2, List.lookup, lookup_metaField_self, lookup_strListField_ne,
        lookup_optStrField_ne, lookup_metaField_ne, hmd, sortValue_canon _ hm]

theorem changeSet_fromJson_of (S : List (String × Json)) (ia : Author)
    (ts g : String) (pa it co de cb ao : List String) (m : List (String × Json))
    (h1 : S.lookup "author" = some (sortValue ia.toJson))
    (h2 : S.lookup "timestamp" = some (Json.str ts))
    (h3 : S.lookup "git_commit" = some (Json.str g))
    (h4 : S.lookup "parents" = if pa.isEmpty then none
        else some (Json.arr (pa.map Json.str)))
    (h5 : S.lookup "intents" = if it.isEmpty then none
        else some (Json.arr (it.map Json.str)))
    (h6 : S.lookup "constraints" = if co.isEmpty then none
        else some (Json.arr (co.map Json.str)))
    (h7 : S.lookup "decisions" = if de.isEmpty then none
        else some (Json.arr (de.map Json.str)))
    (h8 : S.lookup "code_bindings" = if cb.isEmpty then none
        else some (Json.arr (cb.map Json.str)))
    (h9 : S.lookup "agent_operations" = if ao.isEmpty then none
        else some (Json.arr (ao.map Json.str)))
    (h10 : S.lookup "metadata" = if m.isEmpty then none else some (Json.obj m)) :
    ChangeSet.fromJson? (Json.obj S) = some ⟨ia, ts, g, pa, it, co, de, cb, ao, m⟩ := by
  have hb2 := getStr_of S _ _ h2
  have hb3 := getStr_of S _ _ h3
  have hb4 := getStrList_mixed S _ _ h4
  have hb5 := getStrList_mixed S _ _ h5
  have hb6 := getStrList_mixed S _ _ h6
  have hb7 := getStrList_mixed S _ _ h7
  have hb8 := getStrList_mixed S _ _ h8
  have hb9 := getStrList_mixed S _ _ h9
  have hb10 := getMeta_mixed S _ h10
  simp [ChangeSet.fromJson?, Json.asObj, bind, Option.bind, pure, h1, hb2, hb3, hb4,
    hb5, hb6, hb7, hb8, hb9, hb10, author_roundtrip]

theorem changeSet_roundtrip (c : ChangeSet)
    (hm : (Json.obj c.metadata).canonB = true) :
    ChangeSet.fromJson? (sortValue c.toJson) = some c := by
  obtain ⟨ia, ts, g, pa, it, co, de, cb, ao, m⟩ := c
  have hnodup : ((([("author", ia.toJson), ("timestamp", Json.str ts),
      ("git_commit", Json.str g)]
      ++ strListField "parents" pa
      ++ strListField "intents" it
      ++ strListField "constraints" co
      ++ strListField "decisions" de
      ++ strListField "code_bindings" cb
      ++ strListField "agent_operations" ao
      ++ metaField m).map Prod.fst)).Nodup := by
    refine List.Nodup.sublist ?_ (by decide : List.Nodup
      (["author", "timestamp", "git_commit"] ++ ["parents"] ++ ["intents"] ++
        ["constraints"] ++ ["decisions"] ++ ["code_bindings"] ++
        ["agent_operations"] ++ ["metadata"]))
    simp only [List.map_append]
    exact (((((((List.Sublist.refl _).append (keys_strListField _ _)).append
      (keys_strListField _ _)).append (keys_strListField _ _)).append
      (keys_strListField _ _)).append (keys_strListField _ _)).append
      (keys_strListField _ _)).append (keys_metaField _)
  rw [show sortValue (ChangeSet.toJson ⟨ia, ts, g, pa, it, co, de, cb, ao, m⟩) =
      Json.obj (sortFields (sortInner ([("author", ia.toJson),
        ("timestamp", Json.str ts), ("git_commit", Json.str g)]
        ++ strListField "parents" pa
        ++ strListField "intents" it
        ++ strListField "constraints" co
        ++ strListField "decisions" de
        ++ strListField "code_bindings" cb
        ++ strListField "agent_operations" ao
        ++ metaField m)))
    from by simp only [ChangeSet.toJson, sortValue]]
  apply changeSet_fromJson_of
  · rw [lookup_sorted_image _ hnodup]
    simp [lookup_append2, List.lookup, lookup_strListField_ne, lookup_metaField_ne]
  · rw [lookup_sorted_image _ hnodup]
    simp [lookup_append2, List.lookup, lookup_strListField_ne, lookup_metaField_ne,
      sortValue_str]
  · rw [lookup_sorted_image _ hnodup]
    simp [lookup_append2, List.lookup, lookup_strListField_ne, lookup_metaField_ne,
      sortValue_str]
  · rw [lookup_sorted_image _ hnodup]
    by_cases hpa : pa.isEmpty = true <;>
      simp [lookup_append2, List.lookup, lookup_strListField_self, lookup_strListField_ne,
        lookup_metaField_ne, hpa, sortValue_arr, sortElems_str]
  · rw [lookup_sorted_image _ hnodup]
    by_cases hit : it.isEmpty = true <;>
      simp [lookup_append2, List.lookup, lookup_strListField_self, lookup_strListField_ne,
        lookup_metaField_ne, hit, sortValue_arr, sortElems_str]
  · rw [lookup_sorted_image _ hnodup]
    by_cases hco : co.isEmpty = true <;>
      simp [lookup_append2, List.lookup, lookup_strListField_self, lookup_strListField_ne,
        lookup_metaField_ne, hco, sortValue_arr, sortElems_str]
  · rw [lookup_sorted_image _ hnodup]
    by_cases hde : de.isEmpty = true <;>
      simp [lookup_append2, List.lookup, lookup_strListField_self, lookup_strListField_ne,
        lookup_metaField_ne, hde, sortValue_arr, sortElems_str]
  · rw [lookup_sorted_image _ hnodup]
    by_cases hcb : cb.isEmpty = true <;>
      simp [lookup_append2, List.lookup, lookup_strListField_self, lookup_strListField_ne,
        lookup_metaField_ne, hcb, sortValue_arr, sortElems_str]
  · rw [lookup_sorted_image _ hnodup]
    by_cases hao : ao.isEmpty = true <;>
      simp [lookup_append2, List.lookup, lookup_strListField_self, lookup_strListField_ne,
        lookup_metaField_ne, hao, sortValue_arr, sortElems_str]
  · rw [lookup_sorted_image _ hnodup]
    by_cases hmd : m.isEmpty = true <;>
      simp [lookup_append2, List.lookup, lookup_metaField_self, lookup_strListField_ne,
        lookup_metaField_ne, hmd, sortValue_canon _ hm]

theorem fromCanonicalBytes_split (tag : String) (v : Json)
    (hno : ∀ c ∈ tag.data, (fun c => decide ¬(c = Char.ofNat 0)) c = true) :
    fromCanonicalBytes (canonicalSerialize tag v) =
      if knownTag tag then
        match decodeBody tag (render (sortValue v)) with
        | some o => .ok o
        | none => .error (.Serialization "invalid canonical json body")
      else .error (.UnknownTypeTag tag) := by
  obtain ⟨td⟩ := tag
  have hsplit := takeWhile_append_of td (Char.ofNat 0 :: render (sortValue v)) hno
    (fun c hc => by
      have hc2 : c = Char.ofNat 0 := by
        have hc3 : Char.ofNat 0 = c := by simpa using hc
        exact hc3.symm
      subst hc2
      simp)
  obtain ⟨htake, hdrop⟩ := hsplit
  simp only [fromCanonicalBytes, canonicalSerialize]
  rw [htake, hdrop]

theorem c1_step_intent : ∀ body, decodeBody "intent" body =
    (jsonFromSlice body >>= Intent.fromJson?).map TelosObject.intent := fun _ => rfl

theorem c1_step_bd : ∀ body, decodeBody "behavior_diff" body =
    (jsonFromSlice body >>= BehaviorDiff.fromJson?).map TelosObject.behavior_diff :=
  fun _ => rfl

theorem c1_step_iss : ∀ body, decodeBody "intent_stream_snapshot" body =
    (jsonFromSlice body >>= IntentStreamSnapshot.fromJson?).map
      TelosObject.intent_stream_snapshot := fun _ => rfl

theorem c1_step_dr : ∀ body, decodeBody "decision_record" body =
    (jsonFromSlice body >>= DecisionRecord.fromJson?).map TelosObject.decision_record :=
  fun _ => rfl

theorem c1_step_con : ∀ body, decodeBody "constraint" body =
    (jsonFromSlice body >>= Constraint.fromJson?).map TelosObject.constraint :=
  fun _ => rfl

theorem c1_step_cb : ∀ body, decodeBody "code_binding" body =
    (jsonFromSlice body >>= CodeBinding.fromJson?).map TelosObject.code_binding :=
  fun _ => rfl

theorem c1_step_ao : ∀ body, decodeBody "agent_operation" body =
    (jsonFromSlice body >>= AgentOperation.fromJson?).map TelosObject.agent_operation :=
  fun _ => rfl

theorem c1_step_cs : ∀ body, decodeBody "change_set" body =
    (jsonFromSlice body >>= ChangeSet.fromJson?).map TelosObject.change_set :=
  fun _ => rfl

/-- C1: for every valid `TelosObject` value `r` of any of the eight record
types, decoding its canonical bytes yields the same value:
`from_canonical_bytes(r.canonical_bytes()) = Ok(r)`. -/
theorem c1_roundtrip (o : TelosObject) (h : o.Valid) :
    fromCanonicalBytes o.canonicalBytes = .ok o := by
  cases o with
  | intent r =>
      have hm : (Json.obj r.metadata).canonB = true := h
      rw [show TelosObject.canonicalBytes (.intent r) =
          canonicalSerialize "intent" (Intent.toJson r) from rfl]
      rw [fromCanonicalBytes_split _ _ (by decide)]
      have hdb : decodeBody "intent" (render (sortValue (Intent.toJson r))) =
          some (.intent r) := by
        rw [c1_step_intent, jsonFromSlice_render]
        simp [bind, Option.bind, intent_roundtrip r hm]
      simp [knownTag, hdb]
  | behavior_diff r =>
      rw [show TelosObject.canonicalBytes (.behavior_diff r) =
          canonicalSerialize "behavior_diff" (BehaviorDiff.toJson r) from rfl]
      rw [fromCanonicalBytes_split _ _ (by decide)]
      have hdb : decodeBody "behavior_diff" (render (sortValue (BehaviorDiff.toJson r))) =
          some (.behavior_diff r) := by
        rw [c1_step_bd, jsonFromSlice_render]
        simp [bind, Option.bind, behaviorDiff_roundtrip r]
      simp [knownTag, hdb]
  | intent_stream_snapshot r =>
      rw [show TelosObject.canonicalBytes (.intent_stream_snapshot r) =
          canonicalSerialize "intent_stream_snapshot"
            (IntentStreamSnapshot.toJson r) from rfl]
      rw [fromCanonicalBytes_split _ _ (by decide)]
      have hdb : decodeBody "intent_stream_snapshot"
          (render (sortValue (IntentStreamSnapshot.toJson r))) =
          some (.intent_stream_snapshot r) := by
        rw [c1_step_iss, jsonFromSlice_render]
        simp [bind, Option.bind, snapshot_roundtrip r]
      simp [knownTag, hdb]
  | decision_record r =>
      rw [show TelosObject.canonicalBytes (.decision_record r) =
          canonicalSerialize "decision_record" (DecisionRecord.toJson r) from rfl]
      rw [fromCanonicalBytes_split _ _ (by decide)]
      have hdb : decodeBody "decision_record"
          (render (sortValue (DecisionRecord.toJson r))) =
          some (.decision_record r) := by
        rw [c1_step_dr, jsonFromSlice_render]
        simp [bind, Option.bind, decisionRecord_roundtrip r]
      simp [knownTag, hdb]
  | constraint r =>
      have hm : (Json.obj r.metadata).canonB = true := h
      rw [show TelosObject.canonicalBytes (.constraint r) =
          canonicalSerialize "constraint" (Constraint.toJson r) from rfl]
      rw [fromCanonicalBytes_split _ _ (by decide)]
      have hdb : decodeBody "constraint" (render (sortValue (Constraint.toJson r))) =
          some (.constraint r) := by
        rw [c1_step_con, jsonFromSlice_render]
        simp [bind, Option.bind, constraint_roundtrip r hm]
      simp [knownTag, hdb]
  | code_binding r =>
      obtain ⟨hm, hsp⟩ := h
      rw [show TelosObject.canonicalBytes (.code_binding r) =
          canonicalSerialize "code_binding" (CodeBinding.toJson r) from rfl]
      rw [fromCanonicalBytes_split _ _ (by decide)]
      have hdb : decodeBody "code_binding" (render (sortValue (CodeBinding.toJson r))) =
          some (.code_binding r) := by
        rw [c1_step_cb, jsonFromSlice_render]
        simp [bind, Option.bind, codeBinding_roundtrip r hm hsp]
      simp [knownTag, hdb]
  | agent_operation r =>
      have hm : (Json.obj r.metadata).canonB = true := h
      rw [show TelosObject.canonicalBytes (.agent_operation r) =
          canonicalSerialize "agent_operation" (AgentOperation.toJson r) from rfl]
      rw [fromCanonicalBytes_split _ _ (by decide)]
      have hdb : decodeBody "agent_operation"
          (render (sortValue (AgentOperation.toJson r))) =
          some (.agent_operation r) := by
        rw [c1_step_ao, jsonFromSlice_render]
        simp [bind, Option.bind, agentOperation_roundtrip r hm]
      simp [knownTag, hdb]
  | change_set r =>
      have hm : (Json.obj r.metadata).canonB = true := h
      rw [show TelosObject.canonicalBytes (.change_set r) =
          canonicalSerialize "change_set" (ChangeSet.toJson r) from rfl]
      rw [fromCanonicalBytes_split _ _ (by decide)]
      have hdb : decodeBody "change_set" (render (sortValue (ChangeSet.toJson r))) =
          some (.change_set r) := by
        rw [c1_step_cs, jsonFromSlice_render]
        simp [bind, Option.bind, changeSet_roundtrip r hm]
      simp [knownTag, hdb]

/-- Concrete check of `c1_roundtrip` on an intent with empty list fields
and empty metadata. -/
theorem c1_roundtrip_witness :
    (TelosObject.intent ⟨⟨"a", "a@x"⟩, "1", "s", [], [], [], [], none, []⟩).Valid ∧
      fromCanonicalBytes
        (TelosObject.intent
          ⟨⟨"a", "a@x"⟩, "1", "s", [], [], [], [], none, []⟩).canonicalBytes =
        .ok (TelosObject.intent ⟨⟨"a", "a@x"⟩, "1", "s", [], [], [], [], none, []⟩) :=
  ⟨by simp [TelosObject.Valid, Json.canonB, keysStrictSorted, canonFields],
    c1_roundtrip _
      (by simp [TelosObject.Valid, Json.canonB, keysStrictSorted, canonFields])⟩

end Telos
